import Mathlib

/-!
# The entity-component registry of `ecs.c`

A shallow embedding of `src/ecs.c` and `src/ecs.h`.

Conventions of the embedding.

* The single static `state` of the C file is passed explicitly: every operation
  takes the registry state and returns the next one.
* A heap block is the list of its cells; its length is the number of cells that
  were allocated, and the null pointer is the empty list.  Reading or writing a
  cell outside the block is undefined in C and yields `Outcome.undefined` here, as
  does a shift by 32 or more.  `exit(1)` yields `Outcome.fatal`.
* `uint32_t` values are natural numbers, reduced modulo `2^32` wherever the C
  arithmetic can leave the range.  `size_t` values (byte counts, offsets into
  the data block) are natural numbers reduced modulo `2^64` in the same way.
* Freshly allocated cells hold arbitrary values: the allocator's behaviour at a
  call is an argument of the operation that allocates.
-/

namespace Ecs

/-- The initial capacity of space for entities (`INITIAL_CAPACITY`). -/
def INITIAL_CAPACITY : Nat := 32

/-- The alive bit of an entity flag (`ENTITY_FLAG_ALIVE`). -/
def ENTITY_FLAG_ALIVE : Nat := 1

/-- The number of `uint32_t` values. -/
def U32 : Nat := 4294967296

/-- The number of `size_t` values. -/
def U64 : Nat := 18446744073709551616

/-- The number of byte values. -/
def BYTE : Nat := 256

/-- How a call of the C code ends: it returns `a`, the process is terminated by
`exit(1)`, or the behaviour is undefined (an access outside a block, a shift by
the width of the word or more). -/
inductive Outcome (α : Type) where
  | ok (a : α)
  | fatal
  | undefined
  deriving DecidableEq, Repr

/-- The storage of components (`component_store_t`). -/
structure component_store_t where
  type_count : Nat
  cap : Nat
  size : Nat
  data_size_array : List Nat
  data_offset_array : List Nat
  data : List Nat
  deriving DecidableEq, Repr

/-- The storage of entities (`entity_store_t`). -/
structure entity_store_t where
  mask_array : List Nat
  flag_array : List Nat
  count : Nat
  cap : Nat
  deriving DecidableEq, Repr

/-- The result of a query (`query_result_t` of `ecs.h`); `list` is the block the
pointer refers to, empty for the null pointer. -/
structure query_result_t where
  count : Nat
  cap : Nat
  list : List Nat
  deriving DecidableEq, Repr

/-- Modelled from the spec: `array_stack.h` is not part of the sources.  The id
pool is "a growable stack of recycled entity identifiers"; its top is the head
of the list. -/
abbrev array_stack_t := List Nat

/-- Modelled from the spec: `as_create` of `array_stack.h`, an empty pool. -/
def as_create : array_stack_t := []

/-- Modelled from the spec: `count` of the pool, the "current number of
recyclable ids". -/
def as_count (st : array_stack_t) : Nat := st.length

/-- Modelled from the spec: `as_push` of `array_stack.h`, "stores id for later
reuse". -/
def as_push (st : array_stack_t) (id : Nat) : array_stack_t := id :: st

/-- Modelled from the spec: `as_pop` of `array_stack.h`, "removes and returns
the most recently pushed id (LIFO), undefined/error if empty". -/
def as_pop : array_stack_t → Option (Nat × array_stack_t)
  | [] => none
  | id :: rest => some (id, rest)

/-- The state of the registry (`state_t`). -/
structure state_t where
  component_store : component_store_t
  entity_store : entity_store_t
  query_result : query_result_t
  entity_pool : array_stack_t
  deriving DecidableEq, Repr

/-- The contents of the three blocks that `ecs_init` obtains from `malloc` and
does not fill: cell `i` of a fresh block holds the value at `i`, reduced to the
width of the cell. -/
structure Junk where
  data : Nat → Nat
  mask : Nat → Nat
  flag : Nat → Nat

/-- What the four `realloc` calls of a growing `ecs_create` do: `none` is a
failed call (null pointer), `some j` a successful one whose new cells hold the
values of `j`. -/
structure Alloc where
  flag : Option (Nat → Nat)
  mask : Option (Nat → Nat)
  data : Option (Nat → Nat)
  list : Option (Nat → Nat)

/-- A block of `n` cells of width `w` as `malloc` returns it. -/
def malloc (n : Nat) (junk : Nat → Nat) (w : Nat) : List Nat :=
  (List.range n).map (fun i => junk i % w)

/-- A successful `realloc` of `old` to `n` cells of width `w`: the cells that
fit are kept, the others are fresh. -/
def realloc (old : List Nat) (n : Nat) (junk : Nat → Nat) (w : Nat) : List Nat :=
  (List.range n).map (fun i => old.getD i (junk i % w))

/-- The value of `1 << k` as a `uint32_t`: bit `k` alone, the sign bit included
(`1 << 31` is taken as the compilers compute it); a shift by 32 or more is
undefined. -/
def shl1 (k : Nat) : Outcome Nat :=
  if k < 32 then .ok (2 ^ k) else .undefined

/-- The value of `~x` as a `uint32_t`. -/
def not32 (x : Nat) : Nat := U32 - 1 - x % U32

/-- The loop of `ecs_init` over the sizes passed to it: `offsets[i] = size;
size += sizes[i]`, the sum taken in `size_t`. -/
def init_loop : List Nat → List Nat → Nat → List Nat × Nat
  | [], offsets, size => (offsets, size)
  | a :: rest, offsets, size => init_loop rest (offsets ++ [size]) ((size + a) % U64)

/-- The call `ecs_init(n, sizes...)` on the zeroed static state, `n` being the
number of sizes passed, each a `size_t`.  The allocations are taken to succeed
(the code does not test them); more than 32 sizes overflow the local arrays.
The byte count `INITIAL_CAPACITY * size` of the data block is a `size_t`.  The
query result is not touched and stays zeroed, its list the null pointer. -/
def ecs_init (sizes : List Nat) (junk : Junk) : Outcome state_t :=
  if sizes.length ≤ 32 then
    .ok
      { entity_pool := as_create
        component_store :=
          { type_count := sizes.length
            cap := INITIAL_CAPACITY
            data := malloc (INITIAL_CAPACITY * (init_loop sizes [] 0).2 % U64) junk.data BYTE
            data_size_array := sizes
            data_offset_array := (init_loop sizes [] 0).1
            size := (init_loop sizes [] 0).2 }
        entity_store :=
          { count := 0
            cap := INITIAL_CAPACITY
            mask_array := malloc INITIAL_CAPACITY junk.mask U32
            flag_array := malloc INITIAL_CAPACITY junk.flag U32 }
        query_result := { count := 0, cap := 0, list := [] } }
  else .undefined

/-- The growth branch of `ecs_create`: the four `realloc` calls, the test of
three of them, and the stores of the new blocks and capacities.  The doubled
capacity is a `uint32_t`, the byte count of the data block a `size_t`. -/
def grow (s : state_t) (a : Alloc) : Outcome state_t :=
  match a.flag, a.mask, a.data with
  | some jf, some jm, some jd =>
    .ok
      { s with
        entity_store :=
          { s.entity_store with
            flag_array := realloc s.entity_store.flag_array (s.entity_store.cap * 2 % U32) jf U32
            mask_array := realloc s.entity_store.mask_array (s.entity_store.cap * 2 % U32) jm U32
            cap := s.entity_store.cap * 2 % U32 }
        query_result :=
          { s.query_result with
            list :=
              match a.list with
              | some jl => realloc s.query_result.list (s.entity_store.cap * 2 % U32) jl U32
              | none => [] }
        component_store :=
          { s.component_store with
            data := realloc s.component_store.data
              (s.component_store.cap * 2 % U32 * s.component_store.size % U64) jd BYTE
            cap := s.component_store.cap * 2 % U32 } }
  | _, _, _ => .fatal

/-- The end of `ecs_create`: `mask_array[id] = 0; flag_array[id] =
ENTITY_FLAG_ALIVE;` and the return of `id`. -/
def issue (s : state_t) (id : Nat) : Outcome (state_t × Nat) :=
  if id < s.entity_store.mask_array.length ∧ id < s.entity_store.flag_array.length then
    .ok
      ({ s with
          entity_store :=
            { s.entity_store with
              mask_array := s.entity_store.mask_array.set id 0
              flag_array := s.entity_store.flag_array.set id ENTITY_FLAG_ALIVE } },
        id)
  else .undefined

/-- The call `ecs_create()`. -/
def ecs_create (s : state_t) (a : Alloc) : Outcome (state_t × Nat) :=
  if as_count s.entity_pool > 0 then
    match as_pop s.entity_pool with
    | some (id, rest) => issue { s with entity_pool := rest } id
    | none => .undefined
  else
    let id := s.entity_store.count
    let s1 : state_t :=
      { s with entity_store := { s.entity_store with count := (s.entity_store.count + 1) % U32 } }
    if s1.entity_store.cap = id then
      match grow s1 a with
      | .ok s2 => issue s2 id
      | .fatal => .fatal
      | .undefined => .undefined
    else issue s1 id

/-- The call `ecs_get(entity_id, component_id)`: the offset from the start of
the data block of the address returned, `entity_id * size + offset` computed in
`size_t`. -/
def ecs_get (s : state_t) (entity_id component_id : Nat) : Outcome Nat :=
  match s.component_store.data_offset_array[component_id]? with
  | some off => .ok ((entity_id * s.component_store.size + off) % U64)
  | none => .undefined

/-- The call `memcpy(dst + ptr, src, n)`. -/
def memcpy (dst : List Nat) (ptr : Nat) (src : List Nat) (n : Nat) : Outcome (List Nat) :=
  if ptr + n ≤ dst.length ∧ n ≤ src.length then
    .ok (dst.take ptr ++ src.take n ++ dst.drop (ptr + n))
  else .undefined

/-- The `n` bytes of the data block at offset `ptr`. -/
def read_bytes (s : state_t) (ptr n : Nat) : Outcome (List Nat) :=
  if ptr + n ≤ s.component_store.data.length then
    .ok ((s.component_store.data.drop ptr).take n)
  else .undefined

/-- The call `ecs_add(entity_id, component_id, data)`. -/
def ecs_add (s : state_t) (entity_id component_id : Nat) (data : List Nat) : Outcome state_t :=
  match s.component_store.data_size_array[component_id]? with
  | none => .undefined
  | some size =>
    match ecs_get s entity_id component_id with
    | .ok ptr =>
      match s.entity_store.mask_array[entity_id]?, shl1 component_id with
      | some m, .ok b =>
        match memcpy s.component_store.data ptr data size with
        | .ok d =>
          .ok
            { s with
              entity_store :=
                { s.entity_store with
                  mask_array := s.entity_store.mask_array.set entity_id ((m ||| b) % U32) }
              component_store := { s.component_store with data := d } }
        | _ => .undefined
      | _, _ => .undefined
    | _ => .undefined

/-- The call `ecs_remove(entity_id, component_id)`. -/
def ecs_remove (s : state_t) (entity_id component_id : Nat) : Outcome state_t :=
  match s.entity_store.mask_array[entity_id]?, shl1 component_id with
  | some m, .ok b =>
    .ok
      { s with
        entity_store :=
          { s.entity_store with
            mask_array := s.entity_store.mask_array.set entity_id (m &&& not32 b) } }
  | _, _ => .undefined

/-- The call `ecs_has(entity_id, component_id)`. -/
def ecs_has (s : state_t) (entity_id component_id : Nat) : Outcome Nat :=
  match s.entity_store.mask_array[entity_id]?, shl1 component_id with
  | some m, .ok b => .ok (if 0 ≠ m &&& b then 1 else 0)
  | _, _ => .undefined

/-- The call `ecs_kill(entity_id)`. -/
def ecs_kill (s : state_t) (entity_id : Nat) : Outcome state_t :=
  match s.entity_store.flag_array[entity_id]? with
  | none => .undefined
  | some f =>
    if f &&& ENTITY_FLAG_ALIVE ≠ 0 then
      if entity_id < s.entity_store.mask_array.length then
        .ok
          { s with
            entity_store :=
              { s.entity_store with
                flag_array := s.entity_store.flag_array.set entity_id (f &&& not32 ENTITY_FLAG_ALIVE)
                mask_array := s.entity_store.mask_array.set entity_id 0 }
            entity_pool := as_push s.entity_pool entity_id }
      else .undefined
    else .ok s

/-- The first loop of `ecs_query`: `mask |= (1 << type)` for each type passed. -/
def query_mask : List Nat → Nat → Outcome Nat
  | [], mask => .ok mask
  | t :: rest, mask =>
    match shl1 t with
    | .ok b => query_mask rest ((mask ||| b) % U32)
    | _ => .undefined

/-- The second loop of `ecs_query`, over the ids `i` still to visit. -/
def query_loop (es : entity_store_t) (mask : Nat) :
    List Nat → query_result_t → Outcome query_result_t
  | [], qr => .ok qr
  | i :: rest, qr =>
    match es.flag_array[i]? with
    | none => .undefined
    | some f =>
      if f &&& ENTITY_FLAG_ALIVE ≠ 0 then
        match es.mask_array[i]? with
        | none => .undefined
        | some m =>
          if mask = m &&& mask then
            if qr.count < qr.list.length then
              query_loop es mask rest
                { qr with list := qr.list.set qr.count i, count := (qr.count + 1) % U32 }
            else .undefined
          else query_loop es mask rest qr
      else query_loop es mask rest qr

/-- The call `ecs_query(n, types...)`, `n` being the number of types passed; the
pointer returned refers to the `query_result` of the state returned. -/
def ecs_query (s : state_t) (types : List Nat) : Outcome state_t :=
  match query_mask types 0 with
  | .ok mask =>
    match query_loop s.entity_store mask (List.range s.entity_store.count)
        { s.query_result with count := 0 } with
    | .ok qr => .ok { s with query_result := qr }
    | .fatal => .fatal
    | .undefined => .undefined
  | _ => .undefined

/-- The ids of a query result: positions `0 .. count-1` of its list. -/
def result_ids (qr : query_result_t) : List Nat := qr.list.take qr.count

/-- The flag word of entity `e` (0 outside the flag block). -/
def flag_of (s : state_t) (e : Nat) : Nat := s.entity_store.flag_array.getD e 0

/-- The membership mask of entity `e` (0 outside the mask block). -/
def mask_of (s : state_t) (e : Nat) : Nat := s.entity_store.mask_array.getD e 0

/-- Entity `e` has been issued and its alive flag is set. -/
def alive (s : state_t) (e : Nat) : Prop :=
  e < s.entity_store.count ∧ flag_of s e &&& ENTITY_FLAG_ALIVE ≠ 0

instance (s : state_t) (e : Nat) : Decidable (alive s e) := by
  unfold alive; infer_instance

/-- The mask of entity `e` has the bit of every type of `types` set. -/
def has_all (s : state_t) (e : Nat) (types : List Nat) : Prop :=
  ∀ t ∈ types, (mask_of s e).testBit t = true

instance (s : state_t) (e : Nat) (types : List Nat) : Decidable (has_all s e types) := by
  unfold has_all; infer_instance

/-- The bytes stored for component `t` of entity `e`: what a read of `size[t]`
bytes through the pointer `ecs_get(e, t)` yields. -/
def component_bytes (s : state_t) (e t : Nat) : Outcome (List Nat) :=
  match ecs_get s e t, s.component_store.data_size_array[t]? with
  | .ok ptr, some size => read_bytes s ptr size
  | _, _ => .undefined

/-- A call of the public interface. -/
inductive Op where
  | create (a : Alloc)
  | get (e t : Nat)
  | add (e t : Nat) (data : List Nat)
  | remove (e t : Nat)
  | has (e t : Nat)
  | kill (e : Nat)
  | query (types : List Nat)

/-- The state after a call, values returned dropped. -/
def step (s : state_t) : Op → Outcome state_t
  | .create a =>
    match ecs_create s a with
    | .ok r => .ok r.1
    | .fatal => .fatal
    | .undefined => .undefined
  | .get e t =>
    match ecs_get s e t with
    | .ok _ => .ok s
    | .fatal => .fatal
    | .undefined => .undefined
  | .add e t data => ecs_add s e t data
  | .remove e t => ecs_remove s e t
  | .has e t =>
    match ecs_has s e t with
    | .ok _ => .ok s
    | .fatal => .fatal
    | .undefined => .undefined
  | .kill e => ecs_kill s e
  | .query types => ecs_query s types

/-- The call is made on an issued id and on registered types. -/
def Op.valid (s : state_t) : Op → Prop
  | .create _ => True
  | .get e t => e < s.entity_store.count ∧ t < s.component_store.type_count
  | .add e t _ => e < s.entity_store.count ∧ t < s.component_store.type_count
  | .remove e t => e < s.entity_store.count ∧ t < s.component_store.type_count
  | .has e t => e < s.entity_store.count ∧ t < s.component_store.type_count
  | .kill e => e < s.entity_store.count
  | .query types => ∀ t ∈ types, t < s.component_store.type_count

instance (s : state_t) (op : Op) : Decidable (op.valid s) := by
  cases op <;> unfold Op.valid <;> infer_instance

/-- The states the registry can be in: those that `ecs_init` returns, and those
that a call on an issued id and registered types returns from such a state. -/
inductive Reachable : state_t → Prop where
  | init (sizes : List Nat) (junk : Junk) (s : state_t) :
      ecs_init sizes junk = .ok s → Reachable s
  | step (s : state_t) (op : Op) (s' : state_t) :
      Reachable s → op.valid s → step s op = .ok s' → Reachable s'

/-- A run of calls from `s`, each on an id issued and on types registered when
it is made, each returning. -/
inductive Run : state_t → List Op → state_t → Prop where
  | nil (s : state_t) : Run s [] s
  | cons (s : state_t) (op : Op) (s1 : state_t) (ops : List Op) (s2 : state_t) :
      op.valid s → step s op = .ok s1 → Run s1 ops s2 → Run s (op :: ops) s2

/-- The facts that hold of every state of the registry. -/
structure Inv (s : state_t) : Prop where
  flag_len : s.entity_store.flag_array.length = s.entity_store.cap
  mask_len : s.entity_store.mask_array.length = s.entity_store.cap
  count_le : s.entity_store.count ≤ s.entity_store.cap
  cap_lt : s.entity_store.cap < U32
  ccap : s.component_store.cap = s.entity_store.cap
  data_len : s.component_store.data.length =
    s.component_store.cap * s.component_store.size % U64
  tc_le : s.component_store.type_count ≤ 32
  size_len : s.component_store.data_size_array.length = s.component_store.type_count
  offs : s.component_store.data_offset_array = (init_loop s.component_store.data_size_array [] 0).1
  size_eq : s.component_store.size = (init_loop s.component_store.data_size_array [] 0).2
  mask_lt : ∀ m ∈ s.entity_store.mask_array, m < U32
  pool_nodup : s.entity_pool.Nodup
  pool_dead : ∀ i ∈ s.entity_pool, i < s.entity_store.count ∧ flag_of s i &&& ENTITY_FLAG_ALIVE = 0
  qlist : s.query_result.list = [] ∨ s.query_result.list.length = s.entity_store.cap
  cap_ge : INITIAL_CAPACITY ≤ s.entity_store.cap
  cap_pow : ∃ k, s.entity_store.cap = INITIAL_CAPACITY * 2 ^ k
  cap_min : s.entity_store.cap = INITIAL_CAPACITY ∨ s.entity_store.cap < 2 * s.entity_store.count
  pool_all : ∀ i, i < s.entity_store.count → flag_of s i &&& ENTITY_FLAG_ALIVE = 0 →
    i ∈ s.entity_pool

/-- The test of the second loop of `ecs_query` on entity `i`. -/
def matches_query (es : entity_store_t) (mask i : Nat) : Bool :=
  decide (es.flag_array.getD i 0 &&& ENTITY_FLAG_ALIVE ≠ 0 ∧
    mask = es.mask_array.getD i 0 &&& mask)

/-- The value a call returned, `d` when it did not return. -/
def Outcome.get {α : Type} (o : Outcome α) (d : α) : α :=
  match o with
  | .ok a => a
  | _ => d

/-- The zeroed static state of the C file (`static state_t state = {0}`). -/
def state0 : state_t :=
  { component_store :=
      { type_count := 0, cap := 0, size := 0, data_size_array := [],
        data_offset_array := [], data := [] }
    entity_store := { mask_array := [], flag_array := [], count := 0, cap := 0 }
    query_result := { count := 0, cap := 0, list := [] }
    entity_pool := [] }

/-- The calls of `ops` made in turn from `s`; undefined when one of them is not
on an issued id and registered types. -/
def run_ops (s : state_t) : List Op → Outcome state_t
  | [] => .ok s
  | op :: ops =>
    if op.valid s then
      match step s op with
      | .ok s1 => run_ops s1 ops
      | .fatal => .fatal
      | .undefined => .undefined
    else .undefined

/-- The call writes the bytes of component `t` of entity `e`. -/
def Op.writes (e t : Nat) : Op → Bool
  | .add e' t' _ => decide (e' = e ∧ t' = t)
  | _ => false

/-- What no call changes: the table of types; and the entity count never decreases. -/
structure Static (s s' : state_t) : Prop where
  type_count : s'.component_store.type_count = s.component_store.type_count
  sizes : s'.component_store.data_size_array = s.component_store.data_size_array
  offsets : s'.component_store.data_offset_array = s.component_store.data_offset_array
  size : s'.component_store.size = s.component_store.size
  count : s.entity_store.count ≤ s'.entity_store.count

/-- The data block of `s'` extends the one of `s`. -/
def Extends (s s' : state_t) : Prop :=
  s.component_store.data.length ≤ s'.component_store.data.length ∧
  ∀ i, i < s.component_store.data.length →
    s'.component_store.data[i]? = s.component_store.data[i]?

/-- Fresh memory for the examples: every bit set in the words, 0xAA in the bytes. -/
def demo_junk : Junk :=
  { data := fun _ => 170, mask := fun _ => 4294967295, flag := fun _ => 4294967295 }

/-- An allocator for the examples: every `realloc` succeeds. -/
def demo_alloc : Alloc :=
  { flag := some (fun _ => 4294967295), mask := some (fun _ => 4294967295),
    data := some (fun _ => 170), list := some (fun _ => 4294967295) }

/-- The registry after `ecs_init(2, 4, 8)`. -/
def demo_init : state_t := (ecs_init [4, 8] demo_junk).get state0

/-- The registry after `ecs_init(2, 4, 8)`, `ecs_create()` and the addition of
both components to entity 0. -/
def demo_added : state_t :=
  (run_ops demo_init [.create demo_alloc, .add 0 0 [1, 2, 3, 4],
    .add 0 1 [5, 6, 7, 8, 9, 10, 11, 12]]).get state0

/-- The registry of `demo_added` after 31 more calls of `ecs_create()`: 32 entities,
the capacity reached. -/
def demo_full : state_t :=
  (run_ops demo_added (List.replicate 31 (.create demo_alloc))).get state0

/-- The registry of `demo_added` after 32 more calls of `ecs_create()`, the last
of which grows the blocks. -/
def demo_grown : state_t :=
  (run_ops demo_added (List.replicate 32 (.create demo_alloc))).get state0

/-- The registry of `demo_grown` after `ecs_kill(7)` and `ecs_kill(5)`. -/
def demo_killed : state_t :=
  (run_ops demo_grown [.kill 7, .kill 5]).get state0

/-- The registry of `demo_killed` after one more `ecs_create()`. -/
def demo_reissued : state_t :=
  (run_ops demo_killed [.create demo_alloc]).get state0

/-- A run of calls for the examples, from a registry that holds entity 0 only. -/
def demo_ops : List Op :=
  [.create demo_alloc, .add 1 0 [7, 7, 7, 7], .add 0 1 [1, 2, 3, 4, 5, 6, 7, 8], .remove 0 0,
    .has 0 0, .kill 1, .query [0], .create demo_alloc, .get 0 0, .add 1 1 [8, 7, 6, 5, 4, 3, 2, 1]]

/-- The call, when it is an `ecs_add`, is made on an alive entity. -/
def Op.adds_alive (s : state_t) : Op → Prop
  | .add e _ _ => alive s e
  | _ => True

instance (s : state_t) (op : Op) : Decidable (op.adds_alive s) := by
  cases op <;> unfold Op.adds_alive <;> infer_instance

/-- The states reached from `ecs_init` by calls on issued ids and registered
types that add components to alive entities only. -/
inductive ReachableLive : state_t → Prop where
  | init (sizes : List Nat) (junk : Junk) (s : state_t) :
      ecs_init sizes junk = .ok s → ReachableLive s
  | step (s : state_t) (op : Op) (s' : state_t) :
      ReachableLive s → op.valid s → op.adds_alive s → step s op = .ok s' → ReachableLive s'

/-- Every issued id whose alive flag is clear has an empty mask. -/
def dead_masks_empty (s : state_t) : Prop :=
  ∀ e, e < s.entity_store.count → flag_of s e &&& ENTITY_FLAG_ALIVE = 0 → mask_of s e = 0

/-- The registry after `ecs_init(2, 4, 8)`, `ecs_create()`, `ecs_kill(0)` and an
`ecs_add(0, 0, ...)` on the dead entity. -/
def demo_dead_added : state_t :=
  (run_ops demo_init [.create demo_alloc, .kill 0, .add 0 0 [1, 2, 3, 4]]).get state0

/-- The calls of `ops` made in turn from `s`; undefined when one of them is not
on an issued id and registered types, or adds to an entity that is not alive. -/
def run_live (s : state_t) : List Op → Outcome state_t
  | [] => .ok s
  | op :: ops =>
    if op.valid s ∧ op.adds_alive s then
      match step s op with
      | .ok s1 => run_live s1 ops
      | .fatal => .fatal
      | .undefined => .undefined
    else .undefined

/-- A run of calls that adds to alive entities only. -/
def demo_live_ops : List Op :=
  [.create demo_alloc, .add 0 0 [1, 2, 3, 4], .kill 0, .create demo_alloc,
    .create demo_alloc, .add 1 1 [1, 2, 3, 4, 5, 6, 7, 8], .remove 0 0, .kill 1]

/-- A registry reached by adding to alive entities only, in which entity 1
carried a component and was killed. -/
def demo_live_killed : state_t :=
  (run_live demo_init demo_live_ops).get state0

/-- The call is an `ecs_kill`. -/
def Op.is_kill : Op → Bool
  | .kill _ => true
  | _ => false

/-- The call is an `ecs_create`. -/
def Op.is_create : Op → Bool
  | .create _ => true
  | _ => false

/-- The calls of `ops` made in turn from `s`, with the ids that the calls of
`ecs_create` among them return, in order. -/
def run_created (s : state_t) : List Op → Outcome (state_t × List Nat)
  | [] => .ok (s, [])
  | .create a :: ops =>
    match ecs_create s a with
    | .ok (s1, id) =>
      match run_created s1 ops with
      | .ok (s2, ids) => .ok (s2, id :: ids)
      | .fatal => .fatal
      | .undefined => .undefined
    | .fatal => .fatal
    | .undefined => .undefined
  | op :: ops =>
    if op.valid s then
      match step s op with
      | .ok s1 => run_created s1 ops
      | .fatal => .fatal
      | .undefined => .undefined
    else .undefined

/-- The three `realloc` calls that `ecs_create` tests succeed. -/
def Alloc.tested_ok (a : Alloc) : Prop :=
  a.flag.isSome = true ∧ a.mask.isSome = true ∧ a.data.isSome = true

instance (a : Alloc) : Decidable a.tested_ok := by
  unfold Alloc.tested_ok; infer_instance

/-- The registry of `demo_added` after `ecs_remove(0, 0)`. -/
def demo_removed : state_t := (ecs_remove demo_added 0 0).get state0

/-- The registry of `demo_grown` after `ecs_remove(0, 0)`. -/
def demo_grown_removed : state_t := (ecs_remove demo_grown 0 0).get state0

/-- An allocator whose `realloc` of the query result list fails while the three
others succeed. -/
def demo_alloc_no_list : Alloc :=
  { flag := some (fun _ => 4294967295), mask := some (fun _ => 4294967295),
    data := some (fun _ => 170), list := none }

/-- The number of alive entities. -/
def live_count (s : state_t) : Nat :=
  ((List.range s.entity_store.count).filter (fun i => decide (alive s i))).length

/-- The data block of `s` fits `size_t`: the capacity times the sum of the sizes
of the types is below `2^64`, so that no byte count of the block and no offset
into it wraps. -/
def block_fits (s : state_t) : Prop :=
  s.entity_store.cap * s.component_store.data_size_array.sum < U64

instance (s : state_t) : Decidable (block_fits s) := by
  unfold block_fits; infer_instance

/-- The registry after `ecs_init(2, (size_t)-4, 8)`: the sum of the two sizes
wraps to 4 in `size_t`. -/
def demo_wrap : state_t := (ecs_init [18446744073709551612, 8] demo_junk).get state0

/-- The registry of `demo_wrap` after three calls of `ecs_create()`. -/
def demo_wrap_created : state_t :=
  (run_ops demo_wrap (List.replicate 3 (.create demo_alloc))).get state0

/-! ## Blocks and words -/

theorem malloc_length (n : Nat) (j : Nat → Nat) (w : Nat) : (malloc n j w).length = n := by
  simp [malloc]

theorem realloc_length (old : List Nat) (n : Nat) (j : Nat → Nat) (w : Nat) :
    (realloc old n j w).length = n := by
  simp [realloc]

theorem realloc_getD_of_lt (old : List Nat) (n : Nat) (j : Nat → Nat) (w i d : Nat)
    (h1 : i < old.length) (h2 : i < n) : (realloc old n j w).getD i d = old.getD i d := by
  simp [realloc, List.getD, List.getElem?_map, List.getElem?_range h2, h1]

theorem realloc_getElem?_of_lt (old : List Nat) (n : Nat) (j : Nat → Nat) (w i : Nat)
    (h1 : i < old.length) (h2 : i < n) : (realloc old n j w)[i]? = old[i]? := by
  simp [realloc, List.getD, List.getElem?_map, List.getElem?_range h2, h1]

theorem shl1_ok {k b : Nat} (h : shl1 k = .ok b) : k < 32 ∧ b = 2 ^ k := by
  unfold shl1 at h
  split at h
  · exact ⟨by assumption, by cases h; rfl⟩
  · cases h

theorem shl1_of_lt {k : Nat} (h : k < 32) : shl1 k = .ok (2 ^ k) := by
  simp [shl1, h]

theorem ecs_remove_ok {s s' : state_t} {e t : Nat} (h : ecs_remove s e t = .ok s') :
    ∃ m, s.entity_store.mask_array[e]? = some m ∧ t < 32 ∧
      s' = { s with entity_store := { s.entity_store with
              mask_array := s.entity_store.mask_array.set e (m &&& not32 (2 ^ t)) } } := by
  unfold ecs_remove at h
  split at h
  · rename_i m b hm hb
    obtain ⟨ht, rfl⟩ := shl1_ok hb
    exact ⟨m, hm, ht, by cases h; rfl⟩
  · cases h

theorem not32_lt (x : Nat) : not32 x < U32 := by
  unfold not32 U32; omega

theorem and_not32_lt (m x : Nat) : m &&& not32 x < U32 := 
  Nat.lt_of_le_of_lt Nat.and_le_right (not32_lt x)


theorem mem_set_lt {l : List Nat} {i v B : Nat} (hl : ∀ m ∈ l, m < B) (hv : v < B) :
    ∀ m ∈ l.set i v, m < B := by
  intro m hm
  rcases List.mem_or_eq_of_mem_set hm with h | h
  · exact hl m h
  · exact h ▸ hv

theorem Inv_set_mask {s : state_t} (hi : Inv s) (e v : Nat) (hv : v < U32) :
    Inv { s with entity_store := { s.entity_store with
            mask_array := s.entity_store.mask_array.set e v } } := by
  refine ⟨?_, ?_, ?_, ?_, ?_, ?_, ?_, ?_, ?_, ?_, ?_, ?_, ?_, ?_, ?_, ?_, ?_, ?_⟩
  · exact hi.flag_len
  · simpa using hi.mask_len
  · exact hi.count_le
  · exact hi.cap_lt
  · exact hi.ccap
  · exact hi.data_len
  · exact hi.tc_le
  · exact hi.size_len
  · exact hi.offs
  · exact hi.size_eq
  · exact mem_set_lt hi.mask_lt hv
  · exact hi.pool_nodup
  · exact hi.pool_dead
  · exact hi.qlist
  · exact hi.cap_ge
  · exact hi.cap_pow
  · exact hi.cap_min
  · exact hi.pool_all

theorem Inv_set_data {s : state_t} (hi : Inv s) (d : List Nat)
    (hd : d.length = s.component_store.data.length) :
    Inv { s with component_store := { s.component_store with data := d } } := by
  refine ⟨?_, ?_, ?_, ?_, ?_, ?_, ?_, ?_, ?_, ?_, ?_, ?_, ?_, ?_, ?_, ?_, ?_, ?_⟩
  · exact hi.flag_len
  · exact hi.mask_len
  · exact hi.count_le
  · exact hi.cap_lt
  · exact hi.ccap
  · exact hd.trans hi.data_len
  · exact hi.tc_le
  · exact hi.size_len
  · exact hi.offs
  · exact hi.size_eq
  · exact hi.mask_lt
  · exact hi.pool_nodup
  · exact hi.pool_dead
  · exact hi.qlist
  · exact hi.cap_ge
  · exact hi.cap_pow
  · exact hi.cap_min
  · exact hi.pool_all

theorem Inv_set_query {s : state_t} (hi : Inv s) (qr : query_result_t)
    (hq : qr.list = [] ∨ qr.list.length = s.entity_store.cap) :
    Inv { s with query_result := qr } := by
  refine ⟨?_, ?_, ?_, ?_, ?_, ?_, ?_, ?_, ?_, ?_, ?_, ?_, ?_, ?_, ?_, ?_, ?_, ?_⟩
  · exact hi.flag_len
  · exact hi.mask_len
  · exact hi.count_le
  · exact hi.cap_lt
  · exact hi.ccap
  · exact hi.data_len
  · exact hi.tc_le
  · exact hi.size_len
  · exact hi.offs
  · exact hi.size_eq
  · exact hi.mask_lt
  · exact hi.pool_nodup
  · exact hi.pool_dead
  · exact hq
  · exact hi.cap_ge
  · exact hi.cap_pow
  · exact hi.cap_min
  · exact hi.pool_all

/-! ## The ways the operations return -/

theorem getD_set_eq (l : List Nat) (i j v d : Nat) :
    (l.set i v).getD j d = if i = j ∧ i < l.length then v else l.getD j d := by
  simp only [List.getD_eq_getElem?_getD, List.getElem?_set]
  by_cases h : i = j
  · subst h
    by_cases h2 : i < l.length
    · simp [h2]
    · simp [h2, List.getElem?_eq_none (Nat.le_of_not_lt h2)]
  · simp [h]

theorem issue_ok {s s' : state_t} {id r : Nat} (h : issue s id = .ok (s', r)) :
    id < s.entity_store.mask_array.length ∧ id < s.entity_store.flag_array.length ∧ r = id ∧
    s' = { s with entity_store := { s.entity_store with
              mask_array := s.entity_store.mask_array.set id 0
              flag_array := s.entity_store.flag_array.set id ENTITY_FLAG_ALIVE } } := by
  unfold issue at h
  split at h
  · rename_i hc
    cases h
    exact ⟨hc.1, hc.2, rfl, rfl⟩
  · cases h

theorem issue_of_lt {s : state_t} {id : Nat} (h1 : id < s.entity_store.mask_array.length)
    (h2 : id < s.entity_store.flag_array.length) :
    issue s id = .ok ({ s with entity_store := { s.entity_store with
              mask_array := s.entity_store.mask_array.set id 0
              flag_array := s.entity_store.flag_array.set id ENTITY_FLAG_ALIVE } }, id) := by
  simp [issue, h1, h2]

theorem grow_ok {s s' : state_t} {a : Alloc} (h : grow s a = .ok s') :
    ∃ jf jm jd, a.flag = some jf ∧ a.mask = some jm ∧ a.data = some jd ∧
    s' = { s with
        entity_store :=
          { s.entity_store with
            flag_array := realloc s.entity_store.flag_array (s.entity_store.cap * 2 % U32) jf U32
            mask_array := realloc s.entity_store.mask_array (s.entity_store.cap * 2 % U32) jm U32
            cap := s.entity_store.cap * 2 % U32 }
        query_result :=
          { s.query_result with
            list :=
              match a.list with
              | some jl => realloc s.query_result.list (s.entity_store.cap * 2 % U32) jl U32
              | none => [] }
        component_store :=
          { s.component_store with
            data := realloc s.component_store.data
              (s.component_store.cap * 2 % U32 * s.component_store.size % U64) jd BYTE
            cap := s.component_store.cap * 2 % U32 } } := by
  unfold grow at h
  split at h
  · rename_i jf jm jd hf hm hd
    cases h
    exact ⟨jf, jm, jd, hf, hm, hd, rfl⟩
  · cases h

/-- The three ways `ecs_create` returns. -/
theorem ecs_create_ok {s s' : state_t} {a : Alloc} {r : Nat} (h : ecs_create s a = .ok (s', r)) :
    (∃ rest, s.entity_pool = r :: rest ∧ issue { s with entity_pool := rest } r = .ok (s', r)) ∨
    (s.entity_pool = [] ∧ r = s.entity_store.count ∧ s.entity_store.cap ≠ s.entity_store.count ∧
      issue { s with entity_store := { s.entity_store with
          count := (s.entity_store.count + 1) % U32 } } r = .ok (s', r)) ∨
    (s.entity_pool = [] ∧ r = s.entity_store.count ∧ s.entity_store.cap = s.entity_store.count ∧
      ∃ s2, grow { s with entity_store := { s.entity_store with
          count := (s.entity_store.count + 1) % U32 } } a = .ok s2 ∧ issue s2 r = .ok (s', r)) := by
  unfold ecs_create at h
  split at h
  · rename_i hc
    split at h
    · rename_i id rest hp
      left
      have hr := (issue_ok h).2.2.1
      subst hr
      refine ⟨rest, ?_, h⟩
      cases hpool : s.entity_pool with
      | nil => rw [hpool] at hp; cases hp
      | cons x xs => rw [hpool] at hp; cases hp; rfl
    · cases h
  · rename_i hc
    have hnil : s.entity_pool = [] := by
      cases hpool : s.entity_pool with
      | nil => rfl
      | cons x xs => rw [hpool] at hc; simp [as_count] at hc
    right
    simp only at h
    split at h
    · rename_i hcap
      right
      split at h
      · rename_i s2 hg
        have hr := (issue_ok h).2.2.1
        subst hr
        exact ⟨hnil, rfl, hcap, s2, hg, h⟩
      · cases h
      · cases h
    · rename_i hcap
      left
      have hr := (issue_ok h).2.2.1
      subst hr
      exact ⟨hnil, rfl, hcap, h⟩

theorem ecs_get_ok {s : state_t} {e t ptr : Nat} (h : ecs_get s e t = .ok ptr) :
    ∃ off, s.component_store.data_offset_array[t]? = some off ∧
      ptr = (e * s.component_store.size + off) % U64 := by
  unfold ecs_get at h
  split at h
  · rename_i off ho
    cases h
    exact ⟨off, ho, rfl⟩
  · cases h

theorem ecs_get_of {s : state_t} {e t off : Nat}
    (h : s.component_store.data_offset_array[t]? = some off) :
    ecs_get s e t = .ok ((e * s.component_store.size + off) % U64) := by
  simp [ecs_get, h]

theorem memcpy_ok {dst src d : List Nat} {ptr n : Nat} (h : memcpy dst ptr src n = .ok d) :
    ptr + n ≤ dst.length ∧ n ≤ src.length ∧
      d = dst.take ptr ++ src.take n ++ dst.drop (ptr + n) := by
  unfold memcpy at h
  split at h
  · rename_i hc
    cases h
    exact ⟨hc.1, hc.2, rfl⟩
  · cases h

theorem memcpy_of {dst src : List Nat} {ptr n : Nat} (h1 : ptr + n ≤ dst.length)
    (h2 : n ≤ src.length) :
    memcpy dst ptr src n = .ok (dst.take ptr ++ src.take n ++ dst.drop (ptr + n)) := by
  simp [memcpy, h1, h2]

theorem memcpy_length {dst src d : List Nat} {ptr n : Nat} (h : memcpy dst ptr src n = .ok d) :
    d.length = dst.length := by
  obtain ⟨h1, h2, rfl⟩ := memcpy_ok h
  simp only [List.length_append, List.length_take, List.length_drop]
  omega

theorem ecs_add_ok {s s' : state_t} {e t : Nat} {p : List Nat} (h : ecs_add s e t p = .ok s') :
    ∃ size off m d, s.component_store.data_size_array[t]? = some size ∧
      s.component_store.data_offset_array[t]? = some off ∧
      s.entity_store.mask_array[e]? = some m ∧ t < 32 ∧
      memcpy s.component_store.data ((e * s.component_store.size + off) % U64) p size = .ok d ∧
      s' = { s with
              entity_store :=
                { s.entity_store with
                  mask_array := s.entity_store.mask_array.set e ((m ||| 2 ^ t) % U32) }
              component_store := { s.component_store with data := d } } := by
  unfold ecs_add at h
  split at h
  · cases h
  · rename_i size hs
    split at h
    · rename_i ptr hg
      obtain ⟨off, ho, rfl⟩ := ecs_get_ok hg
      split at h
      · rename_i m b hm hb
        obtain ⟨ht, rfl⟩ := shl1_ok hb
        split at h
        · rename_i d hd
          cases h
          exact ⟨size, off, m, d, hs, ho, hm, ht, hd, rfl⟩
        · cases h
      · cases h
    · cases h

theorem ecs_add_of {s : state_t} {e t size off m : Nat} {p d : List Nat}
    (hs : s.component_store.data_size_array[t]? = some size)
    (ho : s.component_store.data_offset_array[t]? = some off)
    (hm : s.entity_store.mask_array[e]? = some m) (ht : t < 32)
    (hd : memcpy s.component_store.data ((e * s.component_store.size + off) % U64) p size =
      .ok d) :
    ecs_add s e t p = .ok { s with
              entity_store :=
                { s.entity_store with
                  mask_array := s.entity_store.mask_array.set e ((m ||| 2 ^ t) % U32) }
              component_store := { s.component_store with data := d } } := by
  simp [ecs_add, hs, ecs_get_of ho, hm, shl1_of_lt ht, hd]

theorem ecs_remove_of {s : state_t} {e t m : Nat}
    (hm : s.entity_store.mask_array[e]? = some m) (ht : t < 32) :
    ecs_remove s e t = .ok { s with entity_store := { s.entity_store with
              mask_array := s.entity_store.mask_array.set e (m &&& not32 (2 ^ t)) } } := by
  simp [ecs_remove, hm, shl1_of_lt ht]

theorem ecs_has_ok {s : state_t} {e t r : Nat} (h : ecs_has s e t = .ok r) :
    ∃ m, s.entity_store.mask_array[e]? = some m ∧ t < 32 ∧
      r = if 0 ≠ m &&& 2 ^ t then 1 else 0 := by
  unfold ecs_has at h
  split at h
  · rename_i m b hm hb
    obtain ⟨ht, rfl⟩ := shl1_ok hb
    cases h
    exact ⟨m, hm, ht, rfl⟩
  · cases h

theorem ecs_has_of {s : state_t} {e t m : Nat}
    (hm : s.entity_store.mask_array[e]? = some m) (ht : t < 32) :
    ecs_has s e t = .ok (if 0 ≠ m &&& 2 ^ t then 1 else 0) := by
  simp [ecs_has, hm, shl1_of_lt ht]

theorem ecs_kill_ok {s s' : state_t} {e : Nat} (h : ecs_kill s e = .ok s') :
    ∃ f, s.entity_store.flag_array[e]? = some f ∧
      ((f &&& ENTITY_FLAG_ALIVE = 0 ∧ s' = s) ∨
       (f &&& ENTITY_FLAG_ALIVE ≠ 0 ∧ e < s.entity_store.mask_array.length ∧
        s' = { s with
            entity_store :=
              { s.entity_store with
                flag_array := s.entity_store.flag_array.set e (f &&& not32 ENTITY_FLAG_ALIVE)
                mask_array := s.entity_store.mask_array.set e 0 }
            entity_pool := as_push s.entity_pool e })) := by
  unfold ecs_kill at h
  split at h
  · cases h
  · rename_i f hf
    refine ⟨f, hf, ?_⟩
    split at h
    · rename_i ha
      split at h
      · rename_i hl
        cases h
        exact Or.inr ⟨ha, hl, rfl⟩
      · cases h
    · rename_i ha
      cases h
      exact Or.inl ⟨by simpa using ha, rfl⟩

theorem ecs_kill_of_dead {s : state_t} {e f : Nat}
    (hf : s.entity_store.flag_array[e]? = some f) (ha : f &&& ENTITY_FLAG_ALIVE = 0) :
    ecs_kill s e = .ok s := by
  simp [ecs_kill, hf, ha]

theorem ecs_kill_of_alive {s : state_t} {e f : Nat}
    (hf : s.entity_store.flag_array[e]? = some f) (ha : f &&& ENTITY_FLAG_ALIVE ≠ 0)
    (hl : e < s.entity_store.mask_array.length) :
    ecs_kill s e = .ok { s with
            entity_store :=
              { s.entity_store with
                flag_array := s.entity_store.flag_array.set e (f &&& not32 ENTITY_FLAG_ALIVE)
                mask_array := s.entity_store.mask_array.set e 0 }
            entity_pool := as_push s.entity_pool e } := by
  simp [ecs_kill, hf, ha, hl]

theorem ecs_query_ok {s s' : state_t} {types : List Nat} (h : ecs_query s types = .ok s') :
    ∃ mask qr, query_mask types 0 = .ok mask ∧
      query_loop s.entity_store mask (List.range s.entity_store.count)
        { s.query_result with count := 0 } = .ok qr ∧
      s' = { s with query_result := qr } := by
  unfold ecs_query at h
  split at h
  · rename_i mask hm
    split at h
    · rename_i qr hq
      cases h
      exact ⟨mask, qr, hm, hq, rfl⟩
    · cases h
    · cases h
  · cases h

theorem ecs_query_of {s : state_t} {types : List Nat} {mask : Nat} {qr : query_result_t}
    (hm : query_mask types 0 = .ok mask)
    (hq : query_loop s.entity_store mask (List.range s.entity_store.count)
        { s.query_result with count := 0 } = .ok qr) :
    ecs_query s types = .ok { s with query_result := qr } := by
  simp [ecs_query, hm, hq]

/-! ## The invariant -/

theorem query_loop_length {es : entity_store_t} {mask : Nat} :
    ∀ (l : List Nat) (qr qr' : query_result_t),
      query_loop es mask l qr = .ok qr' → qr'.list.length = qr.list.length ∧ qr'.cap = qr.cap := by
  intro l
  induction l with
  | nil => intro qr qr' h; simp [query_loop] at h; subst h; exact ⟨rfl, rfl⟩
  | cons i rest ih =>
    intro qr qr' h
    unfold query_loop at h
    split at h
    · cases h
    · split at h
      · split at h
        · cases h
        · split at h
          · split at h
            · have := ih _ _ h
              simpa using this
            · cases h
          · exact ih _ _ h
      · exact ih _ _ h

theorem Inv_remove {s s' : state_t} {e t : Nat} (hi : Inv s) (h : ecs_remove s e t = .ok s') :
    Inv s' := by
  obtain ⟨m, _, _, rfl⟩ := ecs_remove_ok h
  exact Inv_set_mask hi e _ (and_not32_lt _ _)

theorem Inv_add {s s' : state_t} {e t : Nat} {p : List Nat} (hi : Inv s)
    (h : ecs_add s e t p = .ok s') : Inv s' := by
  obtain ⟨size, off, m, d, _, _, _, _, hd, rfl⟩ := ecs_add_ok h
  exact Inv_set_data (Inv_set_mask hi e _ (Nat.mod_lt _ (by decide))) d (memcpy_length hd)

theorem Inv_query {s s' : state_t} {types : List Nat} (hi : Inv s)
    (h : ecs_query s types = .ok s') : Inv s' := by
  obtain ⟨mask, qr, _, hq, rfl⟩ := ecs_query_ok h
  have hl := (query_loop_length _ _ _ hq).1
  refine Inv_set_query hi qr ?_
  rcases hi.qlist with h0 | h1
  · left
    simp only [h0, List.length_nil] at hl
    exact List.eq_nil_of_length_eq_zero hl
  · right
    exact hl.trans h1

theorem flag_of_set_flag (s : state_t) (e i v : Nat) (es : entity_store_t)
    (cs : component_store_t) (q : query_result_t) (pool : array_stack_t)
    (hes : es.flag_array = s.entity_store.flag_array.set e v) :
    flag_of ⟨cs, es, q, pool⟩ i =
      if e = i ∧ e < s.entity_store.flag_array.length then v else flag_of s i := by
  simp only [flag_of, hes, getD_set_eq]

theorem and_not32_alive (f : Nat) : (f &&& not32 ENTITY_FLAG_ALIVE) &&& ENTITY_FLAG_ALIVE = 0 := by
  rw [Nat.land_assoc]
  have : not32 ENTITY_FLAG_ALIVE &&& ENTITY_FLAG_ALIVE = 0 := by decide
  rw [this]
  simp

theorem Inv_kill {s s' : state_t} {e : Nat} (hi : Inv s) (hc : e < s.entity_store.count)
    (h : ecs_kill s e = .ok s') : Inv s' := by
  obtain ⟨f, hf, hk | ⟨ha, hl, rfl⟩⟩ := ecs_kill_ok h
  · rw [hk.2]; exact hi
  · have hfo : flag_of s e = f := by
      simp [flag_of, List.getD_eq_getElem?_getD, hf]
    refine ⟨?_, ?_, ?_, ?_, ?_, ?_, ?_, ?_, ?_, ?_, ?_, ?_, ?_, ?_, ?_, ?_, ?_, ?_⟩
    · simpa using hi.flag_len
    · simpa using hi.mask_len
    · exact hi.count_le
    · exact hi.cap_lt
    · exact hi.ccap
    · exact hi.data_len
    · exact hi.tc_le
    · exact hi.size_len
    · exact hi.offs
    · exact hi.size_eq
    · exact mem_set_lt hi.mask_lt (by decide)
    · show (e :: s.entity_pool).Nodup
      refine List.nodup_cons.mpr ⟨?_, hi.pool_nodup⟩
      intro hmem
      have := (hi.pool_dead e hmem).2
      rw [hfo] at this
      exact ha this
    · intro i hmem
      have hmem' : i = e ∨ i ∈ s.entity_pool := by
        simpa [as_push] using hmem
      rw [flag_of_set_flag s e i _ _ _ _ _ rfl]
      constructor
      · rcases hmem' with h1 | h1
        · subst h1; exact hc
        · exact (hi.pool_dead i h1).1
      · split
        · exact and_not32_alive f
        · rename_i hne
          rcases hmem' with h1 | h1
          · subst h1
            rw [hfo]
            exfalso
            apply hne
            refine ⟨rfl, ?_⟩
            rw [hi.flag_len]
            exact Nat.lt_of_lt_of_le hc hi.count_le
          · exact (hi.pool_dead i h1).2
    · exact hi.qlist
    · exact hi.cap_ge
    · exact hi.cap_pow
    · exact hi.cap_min
    · intro i hic hdead
      rw [flag_of_set_flag s e i _ _ _ _ _ rfl] at hdead
      show i ∈ e :: s.entity_pool
      by_cases hie : e = i
      · subst hie; exact List.mem_cons_self _ _
      · rw [if_neg (fun hc => hie hc.1)] at hdead
        exact List.mem_cons_of_mem _ (hi.pool_all i hic hdead)

theorem realloc_lt {old : List Nat} {n w : Nat} {j : Nat → Nat} (hw : 0 < w)
    (ho : ∀ m ∈ old, m < w) : ∀ m ∈ realloc old n j w, m < w := by
  intro m hm
  simp only [realloc, List.mem_map, List.mem_range] at hm
  obtain ⟨i, _, rfl⟩ := hm
  rw [List.getD_eq_getElem?_getD]
  cases hi : old[i]? with
  | none => simpa using Nat.mod_lt _ hw
  | some v => simpa using ho v (List.getElem?_mem hi)

theorem malloc_lt {n w : Nat} {j : Nat → Nat} (hw : 0 < w) : ∀ m ∈ malloc n j w, m < w := by
  intro m hm
  simp only [malloc, List.mem_map, List.mem_range] at hm
  obtain ⟨i, _, rfl⟩ := hm
  exact Nat.mod_lt _ hw

theorem Inv_issue_pool {s s' : state_t} {id r : Nat} {rest : List Nat} (hi : Inv s)
    (hp : s.entity_pool = id :: rest)
    (h : issue { s with entity_pool := rest } id = .ok (s', r)) : Inv s' := by
  obtain ⟨h1, h2, _, rfl⟩ := issue_ok h
  have hnd : (id :: rest).Nodup := hp ▸ hi.pool_nodup
  refine ⟨?_, ?_, ?_, ?_, ?_, ?_, ?_, ?_, ?_, ?_, ?_, ?_, ?_, ?_, ?_, ?_, ?_, ?_⟩
  · simpa using hi.flag_len
  · simpa using hi.mask_len
  · exact hi.count_le
  · exact hi.cap_lt
  · exact hi.ccap
  · exact hi.data_len
  · exact hi.tc_le
  · exact hi.size_len
  · exact hi.offs
  · exact hi.size_eq
  · exact mem_set_lt hi.mask_lt (by decide)
  · exact (List.nodup_cons.mp hnd).2
  · intro i hmem
    have hne : id ≠ i := by
      rintro rfl
      exact (List.nodup_cons.mp hnd).1 hmem
    have hd := hi.pool_dead i (by rw [hp]; exact List.mem_cons_of_mem _ hmem)
    rw [flag_of_set_flag s id i _ _ _ _ _ rfl]
    refine ⟨hd.1, ?_⟩
    rw [if_neg (fun hc => hne hc.1)]
    exact hd.2
  · exact hi.qlist
  · exact hi.cap_ge
  · exact hi.cap_pow
  · exact hi.cap_min
  · intro i hic hdead
    rw [flag_of_set_flag s id i _ _ _ _ _ rfl] at hdead
    by_cases hie : id = i
    · rw [if_pos ⟨hie, h2⟩] at hdead
      exact absurd hdead (by decide)
    · rw [if_neg (fun hc => hie hc.1)] at hdead
      have hmem := hi.pool_all i hic hdead
      rw [hp] at hmem
      rcases List.mem_cons.mp hmem with h | h
      · exact absurd h.symm hie
      · exact h

theorem Inv_issue_fresh {s s' : state_t} {r : Nat} (hi : Inv s)
    (hp : s.entity_pool = []) (hcap : s.entity_store.cap ≠ s.entity_store.count)
    (h : issue { s with entity_store := { s.entity_store with
          count := (s.entity_store.count + 1) % U32 } } s.entity_store.count = .ok (s', r)) :
    Inv s' := by
  obtain ⟨h1, h2, _, rfl⟩ := issue_ok h
  have hlt : s.entity_store.count < s.entity_store.cap :=
    Nat.lt_of_le_of_ne hi.count_le (Ne.symm hcap)
  have hU := hi.cap_lt
  have hmod : (s.entity_store.count + 1) % U32 = s.entity_store.count + 1 :=
    Nat.mod_eq_of_lt (by omega)
  refine ⟨?_, ?_, ?_, ?_, ?_, ?_, ?_, ?_, ?_, ?_, ?_, ?_, ?_, ?_, ?_, ?_, ?_, ?_⟩
  · simpa using hi.flag_len
  · simpa using hi.mask_len
  · show (s.entity_store.count + 1) % U32 ≤ s.entity_store.cap
    omega
  · exact hi.cap_lt
  · exact hi.ccap
  · exact hi.data_len
  · exact hi.tc_le
  · exact hi.size_len
  · exact hi.offs
  · exact hi.size_eq
  · exact mem_set_lt hi.mask_lt (by decide)
  · exact hi.pool_nodup
  · intro i hmem
    have : i ∈ s.entity_pool := hmem
    rw [hp] at this
    cases this
  · exact hi.qlist
  · exact hi.cap_ge
  · exact hi.cap_pow
  · show s.entity_store.cap = INITIAL_CAPACITY ∨
      s.entity_store.cap < 2 * ((s.entity_store.count + 1) % U32)
    rcases hi.cap_min with h | h
    · exact Or.inl h
    · exact Or.inr (by omega)
  · intro i hic hdead
    have hic' : i < (s.entity_store.count + 1) % U32 := hic
    rw [hmod] at hic'
    rw [flag_of_set_flag s s.entity_store.count i _ _ _ _ _ rfl] at hdead
    by_cases hie : s.entity_store.count = i
    · rw [if_pos ⟨hie, h2⟩] at hdead
      exact absurd hdead (by decide)
    · rw [if_neg (fun hc => hie hc.1)] at hdead
      exact hi.pool_all i (by omega) hdead

theorem Inv_issue_grow {s s2 s' : state_t} {a : Alloc} {r : Nat} (hi : Inv s)
    (hp : s.entity_pool = []) (hcap : s.entity_store.cap = s.entity_store.count)
    (hg : grow { s with entity_store := { s.entity_store with
          count := (s.entity_store.count + 1) % U32 } } a = .ok s2)
    (h : issue s2 s.entity_store.count = .ok (s', r)) : Inv s' := by
  obtain ⟨jf, jm, jd, _, _, _, rfl⟩ := grow_ok hg
  obtain ⟨h1, h2, _, rfl⟩ := issue_ok h
  simp only [realloc_length] at h1
  have hU : s.entity_store.cap * 2 % U32 < U32 := Nat.mod_lt _ (by decide)
  have hmod : (s.entity_store.count + 1) % U32 = s.entity_store.count + 1 :=
    Nat.mod_eq_of_lt (by omega)
  have hcU := hi.cap_lt
  have h2U : s.entity_store.cap * 2 < U32 := by
    by_contra hc2
    have : s.entity_store.cap * 2 % U32 = s.entity_store.cap * 2 - U32 := by
      rw [Nat.mod_eq_sub_mod (by omega)]
      exact Nat.mod_eq_of_lt (by omega)
    omega
  have hmod2 : s.entity_store.cap * 2 % U32 = s.entity_store.cap * 2 := Nat.mod_eq_of_lt h2U
  refine ⟨?_, ?_, ?_, ?_, ?_, ?_, ?_, ?_, ?_, ?_, ?_, ?_, ?_, ?_, ?_, ?_, ?_, ?_⟩
  · simp [realloc_length]
  · simp [realloc_length]
  · show (s.entity_store.count + 1) % U32 ≤ s.entity_store.cap * 2 % U32
    omega
  · exact hU
  · show s.component_store.cap * 2 % U32 = s.entity_store.cap * 2 % U32
    rw [hi.ccap]
  · simp [realloc_length]
  · exact hi.tc_le
  · exact hi.size_len
  · exact hi.offs
  · exact hi.size_eq
  · exact mem_set_lt (realloc_lt (by decide) hi.mask_lt) (by decide)
  · exact hi.pool_nodup
  · intro i hmem
    have : i ∈ s.entity_pool := hmem
    rw [hp] at this
    cases this
  · cases hl : a.list with
    | none => exact Or.inl (by simp [hl])
    | some jl => exact Or.inr (by simp [hl, realloc_length])
  · show INITIAL_CAPACITY ≤ s.entity_store.cap * 2 % U32
    have := hi.cap_ge
    omega
  · obtain ⟨k, hk⟩ := hi.cap_pow
    refine ⟨k + 1, ?_⟩
    show s.entity_store.cap * 2 % U32 = INITIAL_CAPACITY * 2 ^ (k + 1)
    rw [hmod2, hk, Nat.pow_succ, Nat.mul_assoc]
  · right
    show s.entity_store.cap * 2 % U32 < 2 * ((s.entity_store.count + 1) % U32)
    omega
  · intro i hic hdead
    have hic' : i < (s.entity_store.count + 1) % U32 := hic
    rw [hmod] at hic'
    simp only [flag_of, getD_set_eq, realloc_length] at hdead
    by_cases hie : s.entity_store.count = i
    · rw [if_pos ⟨hie, h1⟩] at hdead
      exact absurd hdead (by decide)
    · rw [if_neg (fun hc => hie hc.1),
        realloc_getD_of_lt _ _ _ _ _ _ (by rw [hi.flag_len]; omega) (by omega)] at hdead
      exact hi.pool_all i (by omega) hdead

theorem Inv_create {s s' : state_t} {a : Alloc} {r : Nat} (hi : Inv s)
    (h : ecs_create s a = .ok (s', r)) : Inv s' := by
  rcases ecs_create_ok h with ⟨rest, hp, h1⟩ | ⟨hp, hr, hcap, h1⟩ | ⟨hp, hr, hcap, s2, hg, h1⟩
  · exact Inv_issue_pool hi hp h1
  · subst hr; exact Inv_issue_fresh hi hp hcap h1
  · subst hr; exact Inv_issue_grow hi hp hcap hg h1

theorem Inv_init {sizes : List Nat} {junk : Junk} {s : state_t}
    (h : ecs_init sizes junk = .ok s) : Inv s := by
  unfold ecs_init at h
  split at h
  · rename_i hl
    cases h
    refine ⟨?_, ?_, ?_, ?_, ?_, ?_, ?_, ?_, ?_, ?_, ?_, ?_, ?_, ?_, ?_, ?_, ?_, ?_⟩
    · exact malloc_length _ _ _
    · exact malloc_length _ _ _
    · exact Nat.zero_le _
    · show INITIAL_CAPACITY < U32
      decide
    · rfl
    · exact malloc_length _ _ _
    · exact hl
    · rfl
    · rfl
    · rfl
    · exact malloc_lt (by decide)
    · exact List.nodup_nil
    · intro i hmem; cases hmem
    · exact Or.inl rfl
    · exact Nat.le_refl _
    · exact ⟨0, rfl⟩
    · exact Or.inl rfl
    · intro i hic _
      exact absurd hic (Nat.not_lt_zero _)
  · cases h

theorem Inv_step {s s' : state_t} {op : Op} (hi : Inv s) (hv : op.valid s)
    (h : step s op = .ok s') : Inv s' := by
  cases op with
  | create a =>
    simp only [step] at h
    split at h
    · rename_i r hr
      cases h
      exact @Inv_create s r.1 a r.2 hi hr
    · cases h
    · cases h
  | get e t =>
    simp only [step] at h
    split at h
    · cases h; exact hi
    · cases h
    · cases h
  | add e t p => exact Inv_add hi h
  | remove e t => exact Inv_remove hi h
  | has e t =>
    simp only [step] at h
    split at h
    · cases h; exact hi
    · cases h
    · cases h
  | kill e => exact Inv_kill hi hv h
  | query types => exact Inv_query hi h

theorem reachable_inv {s : state_t} (h : Reachable s) : Inv s := by
  induction h with
  | init sizes junk s h => exact Inv_init h
  | step s op s' _ hv h ih => exact Inv_step ih hv h

theorem run_inv {s s' : state_t} {ops : List Op} (h : Run s ops s') (hi : Inv s) : Inv s' := by
  induction h with
  | nil s => exact hi
  | cons s op s1 ops s2 hv h _ ih => exact ih (Inv_step hi hv h)

theorem run_reachable {s s' : state_t} {ops : List Op} (h : Run s ops s') (hr : Reachable s) :
    Reachable s' := by
  induction h with
  | nil s => exact hr
  | cons s op s1 ops s2 hv h _ ih => exact ih (Reachable.step _ _ _ hr hv h)

/-! ## The query -/

theorem take_set_succ (l : List Nat) (c v : Nat) (h : c < l.length) :
    (l.set c v).take (c + 1) = l.take c ++ [v] := by
  induction l generalizing c with
  | nil => simp at h
  | cons x xs ih =>
    cases c with
    | zero => simp
    | succ c =>
      simp only [List.set_cons_succ, List.take_succ_cons, List.cons_append, List.cons.injEq, true_and]
      exact ih c (by simpa using h)

theorem take_set_of_le (l : List Nat) (c k v : Nat) (h : k ≤ c) :
    (l.set c v).take k = l.take k := by
  induction l generalizing c k with
  | nil => simp
  | cons x xs ih =>
    cases k with
    | zero => simp
    | succ k =>
      cases c with
      | zero => omega
      | succ c =>
        simp only [List.set_cons_succ, List.take_succ_cons, List.cons.injEq, true_and]
        exact ih c k (by omega)

theorem query_loop_ids {es : entity_store_t} {mask : Nat} :
    ∀ (l : List Nat) (qr qr' : query_result_t), qr.count + l.length < U32 →
      query_loop es mask l qr = .ok qr' →
      result_ids qr' = result_ids qr ++ l.filter (matches_query es mask) := by
  intro l
  induction l with
  | nil =>
    intro qr qr' _ h
    simp [query_loop] at h
    subst h
    simp
  | cons i rest ih =>
    intro qr qr' hU h
    simp only [List.length_cons] at hU
    unfold query_loop at h
    split at h
    · cases h
    · rename_i f hf
      have hfd : es.flag_array.getD i 0 = f := by
        simp [List.getD_eq_getElem?_getD, hf]
      split at h
      · rename_i ha
        split at h
        · cases h
        · rename_i m hm
          have hmd : es.mask_array.getD i 0 = m := by
            simp [List.getD_eq_getElem?_getD, hm]
          split at h
          · rename_i hmask
            split at h
            · rename_i hlt
              have hmod : (qr.count + 1) % U32 = qr.count + 1 := Nat.mod_eq_of_lt (by omega)
              rw [ih _ _ (by simp only [hmod]; omega) h]
              have hp : matches_query es mask i = true := by
                simp only [matches_query, hfd, hmd, decide_eq_true_eq]
                exact ⟨ha, hmask⟩
              simp only [result_ids, hmod, take_set_succ _ _ _ hlt, List.filter_cons, hp, if_true,
                List.append_assoc, List.singleton_append]
            · cases h
          · rename_i hmask
            rw [ih _ _ (by omega) h]
            have hp : matches_query es mask i = false := by
              simp only [matches_query, hfd, hmd, decide_eq_false_iff_not]
              exact fun hc => hmask hc.2
            simp [List.filter_cons, hp]
      · rename_i ha
        rw [ih _ _ (by omega) h]
        have hp : matches_query es mask i = false := by
          simp only [matches_query, hfd, decide_eq_false_iff_not]
          exact fun hc => ha hc.1
        simp [List.filter_cons, hp]

theorem query_loop_total (es : entity_store_t) (mask : Nat) :
    ∀ (l : List Nat) (qr : query_result_t), qr.count + l.length < U32 →
      (∀ i ∈ l, i < es.flag_array.length ∧ i < es.mask_array.length) →
      qr.count + l.length ≤ qr.list.length →
      ∃ qr', query_loop es mask l qr = .ok qr' := by
  intro l
  induction l with
  | nil => intro qr _ _ _; exact ⟨qr, rfl⟩
  | cons i rest ih =>
    intro qr hU hb hl
    simp only [List.length_cons] at hU hl
    obtain ⟨hbf, hbm⟩ := hb i (List.mem_cons_self _ _)
    have hb' : ∀ k ∈ rest, k < es.flag_array.length ∧ k < es.mask_array.length :=
      fun k hk => hb k (List.mem_cons_of_mem _ hk)
    have hmod : (qr.count + 1) % U32 = qr.count + 1 := Nat.mod_eq_of_lt (by omega)
    unfold query_loop
    rw [List.getElem?_eq_getElem hbf, List.getElem?_eq_getElem hbm]
    simp only
    split
    · split
      · rw [if_pos (by omega)]
        exact ih _ (by simp only [hmod]; omega) hb' (by simp only [hmod, List.length_set]; omega)
      · exact ih _ (by omega) hb' (by omega)
    · exact ih _ (by omega) hb' (by omega)

theorem U32_eq : U32 = 2 ^ 32 := by decide

theorem two_pow_lt_U32 {t : Nat} (h : t < 32) : 2 ^ t < U32 := by
  rw [U32_eq]
  exact Nat.pow_lt_pow_right (by decide) h

theorem or_bit_mod {m t : Nat} (hm : m < U32) (ht : t < 32) :
    (m ||| 2 ^ t) % U32 = m ||| 2 ^ t := by
  apply Nat.mod_eq_of_lt
  rw [U32_eq] at hm ⊢
  exact Nat.or_lt_two_pow hm (Nat.pow_lt_pow_right (by decide) ht)

/-- Bit `i` of `(m | (1 << t))` reduced to 32 bits, `t < 32`. -/
theorem testBit_or_bit_mod (m t i : Nat) :
    ((m ||| 2 ^ t) % U32).testBit i = (decide (i < 32) && (m.testBit i || decide (t = i))) := by
  rw [U32_eq, Nat.testBit_mod_two_pow, Nat.testBit_or, Nat.testBit_two_pow]

/-- Bit `i` of `m & ~(1 << t)` for a 32-bit `m`, `t < 32`. -/
theorem testBit_and_not_bit {m t : Nat} (ht : t < 32) (i : Nat) :
    (m &&& not32 (2 ^ t)).testBit i = (m.testBit i && decide (i < 32) && !decide (t = i)) := by
  have h2 : 2 ^ t < 2 ^ 32 := Nat.pow_lt_pow_right (by decide) ht
  have : not32 (2 ^ t) = 2 ^ 32 - (2 ^ t + 1) := by
    unfold not32
    rw [U32_eq, Nat.mod_eq_of_lt h2]
    omega
  rw [Nat.testBit_and, this, Nat.testBit_two_pow_sub_succ h2, Nat.testBit_two_pow, Bool.and_assoc]

theorem and_bit_ne_zero_iff (m t : Nat) : m &&& 2 ^ t ≠ 0 ↔ m.testBit t = true := by
  constructor
  · intro h
    by_contra hc
    apply h
    apply Nat.eq_of_testBit_eq
    intro i
    rw [Nat.testBit_and, Nat.testBit_two_pow, Nat.zero_testBit]
    by_cases hti : t = i
    · subst hti; simp [hc]
    · simp [hti]
  · intro h hz
    have := congrArg (fun x => x.testBit t) hz
    simp [Nat.testBit_and, Nat.testBit_two_pow, h] at this

theorem query_mask_ok :
    ∀ (types : List Nat) (acc mask : Nat), acc < U32 → query_mask types acc = .ok mask →
      (∀ t ∈ types, t < 32) ∧ mask < U32 ∧
      ∀ i, mask.testBit i = (acc.testBit i || decide (i ∈ types)) := by
  intro types
  induction types with
  | nil =>
    intro acc mask ha h
    simp [query_mask] at h
    subst h
    simp [ha]
  | cons t rest ih =>
    intro acc mask ha h
    unfold query_mask at h
    split at h
    · rename_i b hb
      obtain ⟨ht, rfl⟩ := shl1_ok hb
      obtain ⟨h1, h2, h3⟩ := ih _ _ (Nat.mod_lt _ (by decide)) h
      refine ⟨?_, h2, ?_⟩
      · intro x hx
        rcases List.mem_cons.mp hx with rfl | hx
        · exact ht
        · exact h1 x hx
      · intro i
        rw [h3 i, or_bit_mod ha ht, Nat.testBit_or, Nat.testBit_two_pow]
        by_cases hti : t = i
        · subst hti; simp
        · have : ¬ i = t := fun h => hti h.symm
          simp [hti, this]
    · cases h

theorem query_mask_total :
    ∀ (types : List Nat) (acc : Nat), (∀ t ∈ types, t < 32) →
      ∃ mask, query_mask types acc = .ok mask := by
  intro types
  induction types with
  | nil => intro acc _; exact ⟨acc, rfl⟩
  | cons t rest ih =>
    intro acc h
    unfold query_mask
    rw [shl1_of_lt (h t (List.mem_cons_self _ _))]
    exact ih _ (fun x hx => h x (List.mem_cons_of_mem _ hx))

theorem mask_test_iff {mask m : Nat} (types : List Nat)
    (hm : ∀ i, mask.testBit i = decide (i ∈ types)) :
    mask = m &&& mask ↔ ∀ t ∈ types, m.testBit t = true := by
  constructor
  · intro h t ht
    have h1 := congrArg (fun x => x.testBit t) h
    simp only [Nat.testBit_and, hm t, ht, decide_True, Bool.and_true] at h1
    exact h1.symm
  · intro h
    apply Nat.eq_of_testBit_eq
    intro i
    rw [Nat.testBit_and, hm i]
    by_cases hi : i ∈ types
    · simp [hi, h i hi]
    · simp [hi]

theorem run_ops_run : ∀ (ops : List Op) (s s' : state_t), run_ops s ops = .ok s' → Run s ops s' := by
  intro ops
  induction ops with
  | nil => intro s s' h; simp [run_ops] at h; subst h; exact Run.nil s
  | cons op ops ih =>
    intro s s' h
    unfold run_ops at h
    split at h
    · rename_i hv
      split at h
      · rename_i s1 hs
        exact Run.cons s op s1 ops s' hv hs (ih _ _ h)
      · cases h
      · cases h
    · cases h

theorem demo_init_reachable : Reachable demo_init :=
  Reachable.init [4, 8] demo_junk demo_init rfl

set_option maxRecDepth 1000000 in
theorem demo_added_reachable : Reachable demo_added :=
  run_reachable (run_ops_run [.create demo_alloc, .add 0 0 [1, 2, 3, 4],
    .add 0 1 [5, 6, 7, 8, 9, 10, 11, 12]] demo_init demo_added rfl) demo_init_reachable

set_option maxRecDepth 1000000 in
theorem demo_grown_reachable : Reachable demo_grown :=
  run_reachable (run_ops_run (List.replicate 32 (.create demo_alloc)) demo_added demo_grown rfl) demo_added_reachable

theorem mem_range_filter_matches (s : state_t) (mask e : Nat) :
    e ∈ (List.range s.entity_store.count).filter (matches_query s.entity_store mask) ↔
      alive s e ∧ mask = mask_of s e &&& mask := by
  simp only [List.mem_filter, List.mem_range, matches_query, decide_eq_true_eq, alive, flag_of,
    mask_of, and_assoc]

theorem ecs_query_result {s s' : state_t} {types : List Nat} (hc : s.entity_store.count < U32)
    (h : ecs_query s types = .ok s') :
    ∃ mask, query_mask types 0 = .ok mask ∧
      result_ids s'.query_result =
        (List.range s.entity_store.count).filter (matches_query s.entity_store mask) := by
  obtain ⟨mask, qr, hm, hq, rfl⟩ := ecs_query_ok h
  refine ⟨mask, hm, ?_⟩
  have := query_loop_ids _ _ _ (by simpa using hc) hq
  simpa [result_ids] using this

/-- Whenever `ecs_query` returns, its result holds exactly the issued, alive ids
whose mask has every requested bit. -/
theorem ecs_query_mem_iff {s s' : state_t} {types : List Nat} (hc : s.entity_store.count < U32)
    (h : ecs_query s types = .ok s') (e : Nat) :
    e ∈ result_ids s'.query_result ↔ alive s e ∧ has_all s e types := by
  obtain ⟨mask, hm, hr⟩ := ecs_query_result hc h
  obtain ⟨_, _, hb⟩ := query_mask_ok _ _ _ (by decide) hm
  rw [hr, mem_range_filter_matches, mask_test_iff types (by simpa using hb)]
  rfl

/-- The query returns when the blocks hold every issued id. -/
theorem ecs_query_total {s : state_t} {types : List Nat} (ht : ∀ t ∈ types, t < 32)
    (hc : s.entity_store.count < U32)
    (hf : s.entity_store.count ≤ s.entity_store.flag_array.length)
    (hm : s.entity_store.count ≤ s.entity_store.mask_array.length)
    (hl : s.entity_store.count ≤ s.query_result.list.length) :
    ∃ s', ecs_query s types = .ok s' := by
  obtain ⟨mask, hmask⟩ := query_mask_total types 0 ht
  obtain ⟨qr, hq⟩ := query_loop_total s.entity_store mask
    (List.range s.entity_store.count) { s.query_result with count := 0 }
    (by simpa using hc)
    (fun i hi => by
      have := List.mem_range.mp hi
      exact ⟨by omega, by omega⟩)
    (by simpa using hl)
  exact ⟨_, ecs_query_of hmask hq⟩

theorem query_loop_null (es : entity_store_t) (mask : Nat) :
    ∀ (l : List Nat) (qr : query_result_t), qr.list = [] →
      (∀ i ∈ l, i < es.flag_array.length ∧ i < es.mask_array.length) →
      (∃ i ∈ l, matches_query es mask i = true) →
      query_loop es mask l qr = .undefined := by
  intro l
  induction l with
  | nil => intro qr _ _ h; obtain ⟨i, hi, _⟩ := h; cases hi
  | cons i rest ih =>
    intro qr hnil hb hex
    obtain ⟨hbf, hbm⟩ := hb i (List.mem_cons_self _ _)
    have hb' : ∀ k ∈ rest, k < es.flag_array.length ∧ k < es.mask_array.length :=
      fun k hk => hb k (List.mem_cons_of_mem _ hk)
    by_cases hp : matches_query es mask i = true
    · simp only [matches_query, decide_eq_true_eq, List.getD_eq_getElem?_getD,
        List.getElem?_eq_getElem hbf, List.getElem?_eq_getElem hbm, Option.getD_some] at hp
      unfold query_loop
      rw [List.getElem?_eq_getElem hbf, List.getElem?_eq_getElem hbm]
      simp only
      rw [if_pos hp.1, if_pos hp.2, hnil]
      simp
    · have hex' : ∃ k ∈ rest, matches_query es mask k = true := by
        obtain ⟨k, hk, hkm⟩ := hex
        rcases List.mem_cons.mp hk with rfl | hk
        · exact absurd hkm hp
        · exact ⟨k, hk, hkm⟩
      have hrec := ih qr hnil hb' hex'
      simp only [matches_query, decide_eq_true_eq, List.getD_eq_getElem?_getD,
        List.getElem?_eq_getElem hbf, List.getElem?_eq_getElem hbm, Option.getD_some] at hp
      unfold query_loop
      rw [List.getElem?_eq_getElem hbf, List.getElem?_eq_getElem hbm]
      simp only
      split
      · split
        · rename_i h1 h2; exact absurd ⟨h1, h2⟩ hp
        · exact hrec
      · exact hrec

/-- While the result list is the null pointer, a query that an entity matches
is undefined. -/
theorem ecs_query_null {s : state_t} {types : List Nat} (hr : Reachable s)
    (hnil : s.query_result.list = []) (ht : ∀ t ∈ types, t < s.component_store.type_count)
    (e : Nat) (ha : alive s e) (hh : has_all s e types) :
    ecs_query s types = .undefined := by
  have hi := reachable_inv hr
  obtain ⟨mask, hmask⟩ := query_mask_total types 0
    (fun t h => Nat.lt_of_lt_of_le (ht t h) hi.tc_le)
  obtain ⟨_, _, hb⟩ := query_mask_ok _ _ _ (by decide) hmask
  have hq := query_loop_null s.entity_store mask
    (List.range s.entity_store.count) { s.query_result with count := 0 } hnil
    (fun i hi' => by
      have := List.mem_range.mp hi'
      have h1 := hi.flag_len
      have h2 := hi.mask_len
      have h3 := hi.count_le
      exact ⟨by omega, by omega⟩)
    ⟨e, List.mem_range.mpr ha.1, by
      simp only [matches_query, decide_eq_true_eq]
      exact ⟨ha.2, (mask_test_iff types (by simpa using hb)).mpr hh⟩⟩
  simp [ecs_query, hmask, hq]

set_option maxRecDepth 1000000 in
/-- C1, at a failing input.  After `ecs_init(2, 4, 8)`, `ecs_create()`, `ecs_add(0, 0, ...)`
and `ecs_add(0, 1, ...)` entity 0 is alive and carries both components, yet
`ecs_query(2, 0, 1)` stores through the result list that `ecs_init` left null:
the call is undefined and returns no result holding id 0. -/
theorem C1_query_before_growth_undefined :
    Reachable demo_added ∧ alive demo_added 0 ∧ has_all demo_added 0 [0, 1] ∧
      ecs_query demo_added [0, 1] = .undefined :=
  ⟨demo_added_reachable, by decide, by decide, rfl⟩

/-- C2.  In every state of the registry and for every list of types, the ids
that `ecs_query` returns (positions `0 .. count-1` of the result list) are
strictly ascending and without duplicates; and the query does return when the
types are below 32 and the flag, mask and result blocks hold every issued id. -/
theorem C2_query_result_ascending (s : state_t) (types : List Nat)
    (hc : s.entity_store.count < U32) :
    (∀ s', ecs_query s types = .ok s' →
      (result_ids s'.query_result).Pairwise (· < ·) ∧ (result_ids s'.query_result).Nodup) ∧
    ((∀ t ∈ types, t < 32) →
      s.entity_store.count ≤ s.entity_store.flag_array.length →
      s.entity_store.count ≤ s.entity_store.mask_array.length →
      s.entity_store.count ≤ s.query_result.list.length →
      ∃ s', ecs_query s types = .ok s') := by
  refine ⟨?_, fun ht hf hm hl => ecs_query_total ht hc hf hm hl⟩
  intro s' h
  obtain ⟨mask, _, hr⟩ := ecs_query_result hc h
  have hp : (result_ids s'.query_result).Pairwise (· < ·) := by
    rw [hr]
    exact List.Pairwise.filter _ (List.pairwise_lt_range _)
  exact ⟨hp, hp.imp (fun h => Nat.ne_of_lt h)⟩

set_option maxRecDepth 1000000 in
theorem C2_query_result_ascending_witness :
    result_ids ((ecs_query demo_grown []).get state0).query_result = List.range 33 ∧
    (result_ids ((ecs_query demo_grown []).get state0).query_result).Pairwise (· < ·) ∧
    ∃ s', ecs_query demo_grown [0, 1] = .ok s' :=
  ⟨rfl,
    ((C2_query_result_ascending demo_grown [] (by decide)).1
      ((ecs_query demo_grown []).get state0) rfl).1,
    (C2_query_result_ascending demo_grown [0, 1] (by decide)).2 (by decide) (by decide)
      (by decide) (by decide)⟩

/-! ## The layout of the bundles -/

theorem init_loop_kept : ∀ (l o : List Nat) (c i : Nat), i < o.length →
    (init_loop l o c).1[i]? = o[i]? := by
  intro l
  induction l with
  | nil => intro o c i _; simp [init_loop]
  | cons b l ihl =>
    intro o c i hi
    simp only [init_loop]
    rw [ihl (o ++ [c]) ((c + b) % U64) i (by simp; omega)]
    exact List.getElem?_append_left hi

/-- The loop of `ecs_init` stores one offset for each size. -/
theorem init_loop_length : ∀ (sizes offsets : List Nat) (acc : Nat),
    (init_loop sizes offsets acc).1.length = offsets.length + sizes.length := by
  intro sizes
  induction sizes with
  | nil => intro offsets acc; simp [init_loop]
  | cons a rest ih =>
    intro offsets acc
    simp only [init_loop, ih, List.length_append, List.length_cons, List.length_nil]
    omega

/-- While the sum of the sizes is below `2^64` the loop of `ecs_init` computes
the exact sums: the stride is the sum of the sizes, and the offset of type `t`
is the sum of the sizes before it. -/
theorem init_loop_spec : ∀ (sizes offsets : List Nat) (acc : Nat), acc + sizes.sum < U64 →
    (init_loop sizes offsets acc).2 = acc + sizes.sum ∧
    ∀ t, t < sizes.length →
      (init_loop sizes offsets acc).1[offsets.length + t]? = some (acc + (sizes.take t).sum) := by
  intro sizes
  induction sizes with
  | nil => intro offsets acc _; simp [init_loop]
  | cons a rest ih =>
    intro offsets acc hlt
    rw [List.sum_cons] at hlt
    have hmod : (acc + a) % U64 = acc + a := Nat.mod_eq_of_lt (by omega)
    obtain ⟨h1, h3⟩ := ih (offsets ++ [acc]) (acc + a) (by omega)
    refine ⟨?_, ?_⟩
    · simp only [init_loop, hmod, h1, List.sum_cons]; omega
    · intro t ht
      simp only [init_loop, hmod]
      cases t with
      | zero =>
        rw [init_loop_kept rest (offsets ++ [acc]) (acc + a) (offsets.length + 0) (by simp)]
        simp
      | succ t =>
        have := h3 t (by simpa using ht)
        simp only [List.length_append, List.length_cons, List.length_nil] at this
        rw [show offsets.length + (t + 1) = offsets.length + (0 + 1) + t by omega, this]
        simp only [List.take_succ_cons, List.sum_cons]
        congr 1
        omega

theorem sum_take_le_sum_take (l : List Nat) {a b : Nat} (h : a ≤ b) :
    (l.take a).sum ≤ (l.take b).sum := by
  have h1 := List.sum_take_add_sum_drop (l.take b) a
  rw [List.take_take, Nat.min_eq_left h] at h1
  omega

theorem sum_take_succ_of_get (l : List Nat) {t sz : Nat} (h : l[t]? = some sz) :
    (l.take (t + 1)).sum = (l.take t).sum + sz := by
  have ht : t < l.length := by
    by_contra hc
    rw [List.getElem?_eq_none (Nat.le_of_not_lt hc)] at h
    cases h
  rw [List.sum_take_succ l t ht]
  rw [List.getElem?_eq_getElem ht] at h
  cases h
  rfl

theorem sum_take_le_sum (l : List Nat) (a : Nat) : (l.take a).sum ≤ l.sum := by
  have h1 := List.sum_take_add_sum_drop l a
  omega

/-- Every registered type has a size and an offset in the tables. -/
theorem table_get {s : state_t} (hi : Inv s) {t : Nat} (ht : t < s.component_store.type_count) :
    ∃ sz off, s.component_store.data_size_array[t]? = some sz ∧
      s.component_store.data_offset_array[t]? = some off := by
  have htl : t < s.component_store.data_size_array.length := by rw [hi.size_len]; exact ht
  have hol : t < s.component_store.data_offset_array.length := by
    rw [hi.offs, init_loop_length]; simpa using htl
  exact ⟨_, _, List.getElem?_eq_getElem htl, List.getElem?_eq_getElem hol⟩

/-- When the data block fits `size_t`, so does one bundle. -/
theorem fits_sum {s : state_t} (hi : Inv s) (hf : block_fits s) :
    s.component_store.data_size_array.sum < U64 := by
  unfold block_fits at hf
  have hc : 1 ≤ s.entity_store.cap := Nat.le_trans (by decide) hi.cap_ge
  have := Nat.mul_le_mul_right s.component_store.data_size_array.sum hc
  omega

/-- The layout that `ecs_init` computes when the data block fits `size_t`: the
offset of type `t` is the sum of the sizes before it, and the component ends
inside the bundle. -/
theorem layout_get {s : state_t} (hi : Inv s) (hf : block_fits s) {t : Nat}
    (ht : t < s.component_store.type_count) :
    ∃ sz, s.component_store.data_size_array[t]? = some sz ∧
      s.component_store.data_offset_array[t]? =
        some ((s.component_store.data_size_array.take t).sum) ∧
      (s.component_store.data_size_array.take t).sum + sz ≤ s.component_store.size ∧
      s.component_store.size = s.component_store.data_size_array.sum := by
  have htl : t < s.component_store.data_size_array.length := by rw [hi.size_len]; exact ht
  obtain ⟨h1, h3⟩ := init_loop_spec s.component_store.data_size_array [] 0
    (by have := fits_sum hi hf; omega)
  refine ⟨s.component_store.data_size_array[t], List.getElem?_eq_getElem htl, ?_, ?_, ?_⟩
  · rw [hi.offs]
    simpa using h3 t htl
  · rw [hi.size_eq, h1, ← sum_take_succ_of_get _ (List.getElem?_eq_getElem htl)]
    simpa using sum_take_le_sum _ _
  · rw [hi.size_eq, h1]; simp

theorem mask_get {s : state_t} (hi : Inv s) {e : Nat} (he : e < s.entity_store.count) :
    ∃ m, s.entity_store.mask_array[e]? = some m ∧ m < U32 ∧ mask_of s e = m := by
  have hl : e < s.entity_store.mask_array.length := by
    rw [hi.mask_len]; exact Nat.lt_of_lt_of_le he hi.count_le
  refine ⟨s.entity_store.mask_array[e], List.getElem?_eq_getElem hl,
    hi.mask_lt _ (List.getElem_mem _), ?_⟩
  simp [mask_of, List.getD_eq_getElem?_getD, List.getElem?_eq_getElem hl]

theorem flag_get {s : state_t} (hi : Inv s) {e : Nat} (he : e < s.entity_store.count) :
    ∃ f, s.entity_store.flag_array[e]? = some f ∧ flag_of s e = f := by
  have hl : e < s.entity_store.flag_array.length := by
    rw [hi.flag_len]; exact Nat.lt_of_lt_of_le he hi.count_le
  refine ⟨s.entity_store.flag_array[e], List.getElem?_eq_getElem hl, ?_⟩
  simp [flag_of, List.getD_eq_getElem?_getD, List.getElem?_eq_getElem hl]

/-- The byte count of the data block is a `size_t`. -/
theorem data_length_lt {s : state_t} (hi : Inv s) : s.component_store.data.length < U64 := by
  rw [hi.data_len]
  exact Nat.mod_lt _ (by decide)

/-- When the data block fits `size_t` it holds one bundle for each id below the
capacity. -/
theorem data_length_fits {s : state_t} (hi : Inv s) (hf : block_fits s) :
    s.component_store.data.length = s.entity_store.cap * s.component_store.size := by
  obtain ⟨h1, _⟩ := init_loop_spec s.component_store.data_size_array [] 0
    (by have := fits_sum hi hf; omega)
  rw [hi.data_len, hi.ccap]
  apply Nat.mod_eq_of_lt
  rw [hi.size_eq, h1, Nat.zero_add]
  exact hf

/-- The slot of component `t` of the bundle `e` lies inside the data block, for
every bundle below the capacity, when the block fits `size_t`. -/
theorem slot_in_capacity {s : state_t} (hi : Inv s) (hf : block_fits s) {e t sz : Nat}
    (he : e < s.entity_store.cap) (ht : t < s.component_store.type_count)
    (hs : s.component_store.data_size_array[t]? = some sz) :
    e * s.component_store.size + (s.component_store.data_size_array.take t).sum + sz ≤
      s.component_store.data.length := by
  obtain ⟨sz', hs', _, hle, _⟩ := layout_get hi hf ht
  rw [hs] at hs'
  cases hs'
  rw [data_length_fits hi hf]
  have hc : e + 1 ≤ s.entity_store.cap := he
  have := Nat.mul_le_mul_right s.component_store.size hc
  rw [Nat.add_mul] at this
  omega

/-- The slot of component `t` of an issued id lies inside the data block. -/
theorem slot_in_block {s : state_t} (hi : Inv s) (hf : block_fits s) {e t sz : Nat}
    (he : e < s.entity_store.count) (ht : t < s.component_store.type_count)
    (hs : s.component_store.data_size_array[t]? = some sz) :
    e * s.component_store.size + (s.component_store.data_size_array.take t).sum + sz ≤
      s.component_store.data.length :=
  slot_in_capacity hi hf (Nat.lt_of_lt_of_le he hi.count_le) ht hs

/-- The offset of a slot inside the data block does not wrap. -/
theorem slot_mod {s : state_t} (hi : Inv s) {x sz : Nat}
    (h : x + sz ≤ s.component_store.data.length) : x % U64 = x :=
  Nat.mod_eq_of_lt (by have := data_length_lt hi; omega)

/-- When the data block fits `size_t`, `ecs_add` on an issued id and a
registered type returns when the payload holds the bytes of the component. -/
theorem ecs_add_total {s : state_t} (hi : Inv s) (hf : block_fits s) {e t : Nat}
    (he : e < s.entity_store.count)
    (ht : t < s.component_store.type_count) {p : List Nat}
    (hp : ∀ sz, s.component_store.data_size_array[t]? = some sz → sz ≤ p.length) :
    ∃ sz m, s.component_store.data_size_array[t]? = some sz ∧
      s.entity_store.mask_array[e]? = some m ∧ m < U32 ∧
      ecs_add s e t p = .ok { s with
        entity_store :=
          { s.entity_store with
            mask_array := s.entity_store.mask_array.set e ((m ||| 2 ^ t) % U32) }
        component_store :=
          { s.component_store with
            data := s.component_store.data.take
                (e * s.component_store.size + (s.component_store.data_size_array.take t).sum) ++
              p.take sz ++
              s.component_store.data.drop
                (e * s.component_store.size + (s.component_store.data_size_array.take t).sum +
                  sz) } } := by
  obtain ⟨sz, hs, ho, _, _⟩ := layout_get hi hf ht
  obtain ⟨m, hm, hmlt, _⟩ := mask_get hi he
  have hb := slot_in_block hi hf he ht hs
  refine ⟨sz, m, hs, hm, hmlt, ?_⟩
  have hd := @memcpy_of s.component_store.data p
    ((e * s.component_store.size + (s.component_store.data_size_array.take t).sum) % U64) sz
    (by rw [slot_mod hi hb]; exact hb) (hp sz hs)
  rw [slot_mod hi hb] at hd
  refine (ecs_add_of hs ho hm (Nat.lt_of_lt_of_le ht hi.tc_le)
    (by rw [slot_mod hi hb]; exact hd)).trans ?_
  rfl

/-! ## Adding, removing and testing a component -/

theorem getElem?_set_self_of_lt (l : List Nat) {i : Nat} (v : Nat) (h : i < l.length) :
    (l.set i v)[i]? = some v := by
  simp [List.getElem?_set, h]

theorem has_bit_set {m t : Nat} (ht : t < 32) :
    (if 0 ≠ (m ||| 2 ^ t) % U32 &&& 2 ^ t then 1 else 0) = 1 := by
  have : ((m ||| 2 ^ t) % U32).testBit t = true := by
    rw [testBit_or_bit_mod]; simp [ht]
  rw [if_pos]
  exact Ne.symm ((and_bit_ne_zero_iff _ _).mpr this)

theorem has_bit_clear {m t : Nat} (ht : t < 32) :
    (if 0 ≠ (m &&& not32 (2 ^ t)) &&& 2 ^ t then 1 else 0) = 0 := by
  have : (m &&& not32 (2 ^ t)).testBit t = false := by
    rw [testBit_and_not_bit ht]; simp
  rw [if_neg]
  intro h
  have := (and_bit_ne_zero_iff _ _).mp (Ne.symm h)
  simp_all

set_option maxRecDepth 1000000 in
/-- The data block of the registry `demo_added` fits `size_t`. -/
theorem demo_added_fits : block_fits demo_added := by decide

/-- C3.  In every reachable state, for every issued id `e`, every registered
type `t` and every payload: after every `ecs_add(e, t, data)` that returns,
`ecs_has(e, t)` is 1; `ecs_remove(e, t)` returns and `ecs_has(e, t)` is then 0,
whatever the mask was before; and `ecs_add(e, t, data)` does return when the
data block fits `size_t` (capacity times the sum of the sizes below `2^64`) and
the payload holds the bytes of the component. -/
theorem C3_has_after_add_and_remove (s : state_t) (hr : Reachable s) (e t : Nat)
    (he : e < s.entity_store.count) (ht : t < s.component_store.type_count) (data : List Nat) :
    (∀ s', ecs_add s e t data = .ok s' → ecs_has s' e t = .ok 1) ∧
    (∃ s', ecs_remove s e t = .ok s' ∧ ecs_has s' e t = .ok 0) ∧
    (block_fits s →
      (∀ sz, s.component_store.data_size_array[t]? = some sz → sz ≤ data.length) →
      ∃ s', ecs_add s e t data = .ok s' ∧ ecs_has s' e t = .ok 1) := by
  have hi := reachable_inv hr
  have ht32 : t < 32 := Nat.lt_of_lt_of_le ht hi.tc_le
  obtain ⟨m, hm, _, _⟩ := mask_get hi he
  have hl : e < s.entity_store.mask_array.length := by
    rw [hi.mask_len]; exact Nat.lt_of_lt_of_le he hi.count_le
  have hhas : ∀ s', ecs_add s e t data = .ok s' → ecs_has s' e t = .ok 1 := by
    intro s' hadd
    obtain ⟨_, _, m', _, _, _, hm', _, _, rfl⟩ := ecs_add_ok hadd
    rw [ecs_has_of (getElem?_set_self_of_lt _ _ hl) ht32, has_bit_set ht32]
  refine ⟨hhas, ?_, ?_⟩
  · refine ⟨_, ecs_remove_of hm ht32, ?_⟩
    rw [ecs_has_of (getElem?_set_self_of_lt _ _ hl) ht32, has_bit_clear ht32]
  · intro hf hd
    obtain ⟨sz, m', _, hm', _, hadd⟩ := ecs_add_total hi hf he ht hd
    exact ⟨_, hadd, hhas _ hadd⟩

set_option maxRecDepth 1000000 in
theorem C3_has_after_add_and_remove_witness :
    (∀ s', ecs_add demo_added 0 1 [9, 9, 9, 9, 9, 9, 9, 9] = .ok s' → ecs_has s' 0 1 = .ok 1) ∧
    (∃ s', ecs_remove demo_added 0 1 = .ok s' ∧ ecs_has s' 0 1 = .ok 0) ∧
    (∃ s', ecs_add demo_added 0 1 [9, 9, 9, 9, 9, 9, 9, 9] = .ok s' ∧ ecs_has s' 0 1 = .ok 1) :=
  have h := C3_has_after_add_and_remove demo_added demo_added_reachable 0 1 (by decide)
    (by decide) [9, 9, 9, 9, 9, 9, 9, 9]
  ⟨h.1, h.2.1, h.2.2 demo_added_fits (by intro sz h; cases h; decide)⟩

/-! ## The bytes of a component -/

theorem read_written (dst src : List Nat) (ptr n : Nat) (h1 : ptr + n ≤ dst.length)
    (h2 : n ≤ src.length) :
    ((dst.take ptr ++ src.take n ++ dst.drop (ptr + n)).drop ptr).take n = src.take n := by
  have hA : (dst.take ptr).length = ptr := by
    rw [List.length_take]; omega
  have hB : (src.take n).length = n := by
    rw [List.length_take]; omega
  rw [List.append_assoc, List.drop_left' hA, List.take_left' hB]

/-- Cell `i` of a block after `memcpy`. -/
theorem written_getElem? (dst src : List Nat) (ptr n i : Nat) (h1 : ptr + n ≤ dst.length)
    (h2 : n ≤ src.length) :
    (dst.take ptr ++ src.take n ++ dst.drop (ptr + n))[i]? =
      if ptr ≤ i ∧ i < ptr + n then src[i - ptr]? else dst[i]? := by
  have hA : (dst.take ptr).length = ptr := by
    rw [List.length_take]; omega
  have hB : (src.take n).length = n := by
    rw [List.length_take]; omega
  by_cases hlt : i < ptr
  · rw [if_neg (by omega), List.append_assoc, List.getElem?_append_left (by omega),
      List.getElem?_take_of_lt hlt]
  · rw [List.append_assoc, List.getElem?_append_right (by omega), hA]
    by_cases hlt2 : i < ptr + n
    · rw [if_pos ⟨by omega, hlt2⟩, List.getElem?_append_left (by omega),
        List.getElem?_take_of_lt (by omega)]
    · rw [if_neg (by omega), List.getElem?_append_right (by omega), hB, List.getElem?_drop]
      congr 1
      omega

/-- Reading a range that `memcpy` did not write. -/
theorem read_unwritten (dst src : List Nat) (ptr n q k : Nat) (h1 : ptr + n ≤ dst.length)
    (h2 : n ≤ src.length) (hdis : q + k ≤ ptr ∨ ptr + n ≤ q) :
    ((dst.take ptr ++ src.take n ++ dst.drop (ptr + n)).drop q).take k =
      (dst.drop q).take k := by
  apply List.ext_getElem?
  intro j
  by_cases hj : j < k
  · rw [List.getElem?_take_of_lt hj, List.getElem?_take_of_lt hj, List.getElem?_drop,
      List.getElem?_drop, written_getElem? _ _ _ _ _ h1 h2, if_neg (by omega)]
  · rw [List.getElem?_take_eq_none (by omega), List.getElem?_take_eq_none (by omega)]

/-- The bytes of a component, read where `ecs_get` points. -/
theorem component_bytes_at {s : state_t} {e t off sz : Nat}
    (ho : s.component_store.data_offset_array[t]? = some off)
    (hs : s.component_store.data_size_array[t]? = some sz)
    (hb : (e * s.component_store.size + off) % U64 + sz ≤ s.component_store.data.length) :
    component_bytes s e t =
      .ok ((s.component_store.data.drop ((e * s.component_store.size + off) % U64)).take sz) := by
  simp [component_bytes, ecs_get_of ho, hs, read_bytes, hb]

/-- The bytes of a component can be read only inside the data block. -/
theorem component_bytes_ok {s : state_t} {e t : Nat} {b : List Nat}
    (h : component_bytes s e t = .ok b) :
    ∃ off sz, s.component_store.data_offset_array[t]? = some off ∧
      s.component_store.data_size_array[t]? = some sz ∧
      (e * s.component_store.size + off) % U64 + sz ≤ s.component_store.data.length ∧
      b = (s.component_store.data.drop ((e * s.component_store.size + off) % U64)).take sz := by
  unfold component_bytes at h
  split at h
  · rename_i ptr sz hg hs
    obtain ⟨off, ho, rfl⟩ := ecs_get_ok hg
    unfold read_bytes at h
    split at h
    · rename_i hb
      cases h
      exact ⟨off, sz, ho, hs, hb, rfl⟩
    · cases h
  · cases h

/-- The bytes of a component whose slot lies inside a data block that fits
`size_t`. -/
theorem component_bytes_of {s : state_t} {e t off sz : Nat}
    (ho : s.component_store.data_offset_array[t]? = some off)
    (hs : s.component_store.data_size_array[t]? = some sz)
    (hb : e * s.component_store.size + off + sz ≤ s.component_store.data.length)
    (hU : s.component_store.data.length < U64) :
    component_bytes s e t =
      .ok ((s.component_store.data.drop (e * s.component_store.size + off)).take sz) := by
  have hmod : (e * s.component_store.size + off) % U64 = e * s.component_store.size + off :=
    Nat.mod_eq_of_lt (by omega)
  have := component_bytes_at (e := e) ho hs (by rw [hmod]; exact hb)
  rw [hmod] at this
  exact this

/-- When the data block fits `size_t`, the bytes of a component of an issued id
can be read. -/
theorem component_bytes_total {s : state_t} (hi : Inv s) (hf : block_fits s) {e t : Nat}
    (he : e < s.entity_store.cap) (ht : t < s.component_store.type_count) :
    ∃ sz, s.component_store.data_size_array[t]? = some sz ∧
      component_bytes s e t = .ok ((s.component_store.data.drop
        (e * s.component_store.size + (s.component_store.data_size_array.take t).sum)).take sz) := by
  obtain ⟨sz, hs, ho, _, _⟩ := layout_get hi hf ht
  exact ⟨sz, hs, component_bytes_of ho hs (slot_in_capacity hi hf he ht hs) (data_length_lt hi)⟩

/-- After a returning `ecs_add(e, t, p)` with `p` of `size[t]` bytes, the bytes
of the component are `p`. -/
theorem add_read {s s' : state_t} {e t : Nat} {p : List Nat}
    (hp : s.component_store.data_size_array[t]? = some p.length)
    (h : ecs_add s e t p = .ok s') : component_bytes s' e t = .ok p := by
  obtain ⟨sz, off, m, d, hs, ho, _, _, hd, rfl⟩ := ecs_add_ok h
  rw [hp] at hs
  cases hs
  obtain ⟨h1, h2, rfl⟩ := memcpy_ok hd
  refine (component_bytes_at (by exact ho) (by exact hp)
    (by simp only [List.length_append, List.length_take, List.length_drop]; omega)).trans ?_
  simp only
  rw [read_written _ _ _ _ h1 (Nat.le_refl _), List.take_length]

theorem ecs_add_static {s s' : state_t} {e t : Nat} {p : List Nat}
    (h : ecs_add s e t p = .ok s') :
    Static s s' ∧ s'.entity_store.count = s.entity_store.count ∧
      s'.entity_store.cap = s.entity_store.cap := by
  obtain ⟨_, _, _, _, _, _, _, _, _, rfl⟩ := ecs_add_ok h
  exact ⟨⟨rfl, rfl, rfl, rfl, Nat.le_refl _⟩, rfl, rfl⟩

theorem add_then_read {s : state_t} (hr : Reachable s) (hf : block_fits s) {e t : Nat}
    (he : e < s.entity_store.count) (ht : t < s.component_store.type_count) {p : List Nat}
    (hp : s.component_store.data_size_array[t]? = some p.length) :
    ∃ s', ecs_add s e t p = .ok s' ∧ Reachable s' ∧ component_bytes s' e t = .ok p ∧
      s'.entity_store.count = s.entity_store.count ∧
      s'.component_store.type_count = s.component_store.type_count ∧
      s'.component_store.data_size_array = s.component_store.data_size_array ∧
      block_fits s' := by
  have hi := reachable_inv hr
  have hle : ∀ sz, s.component_store.data_size_array[t]? = some sz → sz ≤ p.length :=
    fun sz h => by rw [hp] at h; cases h; exact Nat.le_refl _
  obtain ⟨sz, m, hs, _, _, hadd⟩ := ecs_add_total hi hf he ht hle
  exact ⟨_, hadd, Reachable.step s (.add e t p) _ hr ⟨he, ht⟩ hadd, add_read hp hadd, rfl, rfl,
    rfl, hf⟩

/-- C4.  In every reachable state, for every issued id `e`, registered type `t`
and payload `p` of exactly `size[t]` bytes: after every `ecs_add(e, t, p)` that
returns, the `size[t]` bytes read at `ecs_get(e, t)` are `p`; the same holds
when another payload `q` was added first, so the second add overwrites the
first; and the calls of `ecs_add` do return when the data block fits `size_t`
(capacity times the sum of the sizes below `2^64`). -/
theorem C4_add_get_round_trip (s : state_t) (hr : Reachable s) (e t : Nat)
    (he : e < s.entity_store.count) (ht : t < s.component_store.type_count) (p : List Nat)
    (hp : s.component_store.data_size_array[t]? = some p.length) :
    (∀ s', ecs_add s e t p = .ok s' → component_bytes s' e t = .ok p) ∧
    (∀ (q : List Nat) (s1 s2 : state_t), q.length = p.length → ecs_add s e t q = .ok s1 →
      ecs_add s1 e t p = .ok s2 → component_bytes s1 e t = .ok q ∧ component_bytes s2 e t = .ok p) ∧
    (block_fits s →
      (∃ s', ecs_add s e t p = .ok s' ∧ component_bytes s' e t = .ok p) ∧
      ∀ q : List Nat, q.length = p.length →
        ∃ s1 s2, ecs_add s e t q = .ok s1 ∧ component_bytes s1 e t = .ok q ∧
          ecs_add s1 e t p = .ok s2 ∧ component_bytes s2 e t = .ok p) := by
  refine ⟨fun s' h => add_read hp h, ?_, ?_⟩
  · intro q s1 s2 hq h1 h2
    have hq' : s.component_store.data_size_array[t]? = some q.length := by rw [hq]; exact hp
    refine ⟨add_read hq' h1, add_read ?_ h2⟩
    rw [(ecs_add_static h1).1.sizes]
    exact hp
  · intro hf
    constructor
    · obtain ⟨s', h1, _, h2, _⟩ := add_then_read hr hf he ht hp
      exact ⟨s', h1, h2⟩
    · intro q hq
      have hq' : s.component_store.data_size_array[t]? = some q.length := by rw [hq]; exact hp
      obtain ⟨s1, h1, hr1, hb1, hc, htc, hsz, hf1⟩ := add_then_read hr hf he ht hq'
      have he1 : e < s1.entity_store.count := by rw [hc]; exact he
      have ht1 : t < s1.component_store.type_count := by rw [htc]; exact ht
      have hp1 : s1.component_store.data_size_array[t]? = some p.length := by rw [hsz]; exact hp
      obtain ⟨s2, h2, _, hb2, _⟩ := add_then_read hr1 hf1 he1 ht1 hp1
      exact ⟨s1, s2, h1, hb1, h2, hb2⟩

set_option maxRecDepth 1000000 in
theorem C4_add_get_round_trip_witness :
    (∀ s', ecs_add demo_added 0 0 [21, 22, 23, 24] = .ok s' →
      component_bytes s' 0 0 = .ok [21, 22, 23, 24]) ∧
    (∃ s', ecs_add demo_added 0 0 [21, 22, 23, 24] = .ok s' ∧
      component_bytes s' 0 0 = .ok [21, 22, 23, 24]) ∧
    (∀ q : List Nat, q.length = [21, 22, 23, 24].length →
      ∃ s1 s2, ecs_add demo_added 0 0 q = .ok s1 ∧ component_bytes s1 0 0 = .ok q ∧
        ecs_add s1 0 0 [21, 22, 23, 24] = .ok s2 ∧
        component_bytes s2 0 0 = .ok [21, 22, 23, 24]) :=
  have h := C4_add_get_round_trip demo_added demo_added_reachable 0 0 (by decide) (by decide)
    [21, 22, 23, 24] rfl
  ⟨h.1, (h.2.2 demo_added_fits).1, (h.2.2 demo_added_fits).2⟩

/-! ## What a call leaves unchanged -/

theorem Static_refl (s : state_t) : Static s s := ⟨rfl, rfl, rfl, rfl, Nat.le_refl _⟩

theorem Extends_refl (s : state_t) : Extends s s := ⟨Nat.le_refl _, fun _ _ => rfl⟩

theorem Extends_of_eq {s s' : state_t} (h : s'.component_store.data = s.component_store.data) :
    Extends s s' := ⟨by rw [h], fun _ _ => by rw [h]⟩

theorem issue_static {s s' : state_t} {id r : Nat} (h : issue s id = .ok (s', r)) :
    Static s s' ∧ s'.component_store = s.component_store ∧
      s'.entity_store.count = s.entity_store.count := by
  obtain ⟨_, _, _, rfl⟩ := issue_ok h
  exact ⟨⟨rfl, rfl, rfl, rfl, Nat.le_refl _⟩, rfl, rfl⟩

/-- The capacity after a returning `ecs_create`: unchanged, or doubled when the
pool was empty and the count had reached it. -/
theorem ecs_create_cap {s s' : state_t} {a : Alloc} {r : Nat} (hi : Inv s)
    (h : ecs_create s a = .ok (s', r)) :
    s'.entity_store.cap = s.entity_store.cap ∨
      (s.entity_pool = [] ∧ s.entity_store.count = s.entity_store.cap ∧
        s'.entity_store.cap = 2 * s.entity_store.cap) := by
  rcases ecs_create_ok h with ⟨rest, _, h1⟩ | ⟨_, _, _, h1⟩ | ⟨hp, _, hcap, s2, hg, h1⟩
  · obtain ⟨_, _, _, rfl⟩ := issue_ok h1
    exact Or.inl rfl
  · obtain ⟨_, _, _, rfl⟩ := issue_ok h1
    exact Or.inl rfl
  · obtain ⟨hl1, _, _, hs'⟩ := issue_ok h1
    obtain ⟨jf, jm, jd, _, _, _, rfl⟩ := grow_ok hg
    simp only [realloc_length] at hl1
    have hU := hi.cap_lt
    have h2 : s.entity_store.cap * 2 < U32 := by
      by_contra hc2
      have : s.entity_store.cap * 2 % U32 = s.entity_store.cap * 2 - U32 := by
        rw [Nat.mod_eq_sub_mod (by omega)]
        exact Nat.mod_eq_of_lt (by omega)
      omega
    right
    refine ⟨hp, hcap.symm, ?_⟩
    rw [hs']
    show s.entity_store.cap * 2 % U32 = 2 * s.entity_store.cap
    rw [Nat.mod_eq_of_lt h2]; omega

/-- The data block after a returning `ecs_create`: the same block, or, when the
call grew the blocks, the old block reallocated to the byte count
`2 * capacity * size` taken in `size_t`. -/
theorem ecs_create_data {s s' : state_t} {a : Alloc} {r : Nat} (hi : Inv s)
    (h : ecs_create s a = .ok (s', r)) :
    s'.component_store.data = s.component_store.data ∨
      ∃ jd, s'.entity_store.cap = 2 * s.entity_store.cap ∧
        s'.component_store.data = realloc s.component_store.data
          (2 * s.entity_store.cap * s.component_store.size % U64) jd BYTE := by
  rcases ecs_create_cap hi h with hc | ⟨_, _, hc⟩
  · rcases ecs_create_ok h with ⟨rest, _, h1⟩ | ⟨_, _, _, h1⟩ | ⟨hp, _, hcap, s2, hg, h1⟩
    · obtain ⟨_, _, _, rfl⟩ := issue_ok h1
      exact Or.inl rfl
    · obtain ⟨_, _, _, rfl⟩ := issue_ok h1
      exact Or.inl rfl
    · obtain ⟨hl1, _, _, hs'⟩ := issue_ok h1
      obtain ⟨jf, jm, jd, _, _, _, rfl⟩ := grow_ok hg
      simp only [realloc_length] at hl1
      rw [hs'] at hc
      have hc' : s.entity_store.cap * 2 % U32 = s.entity_store.cap := hc
      omega
  · rcases ecs_create_ok h with ⟨rest, _, h1⟩ | ⟨_, _, _, h1⟩ | ⟨hp, _, hcap, s2, hg, h1⟩
    · obtain ⟨_, _, _, rfl⟩ := issue_ok h1
      exact Or.inl rfl
    · obtain ⟨_, _, _, rfl⟩ := issue_ok h1
      exact Or.inl rfl
    · obtain ⟨hl1, _, _, hs'⟩ := issue_ok h1
      obtain ⟨jf, jm, jd, _, _, _, rfl⟩ := grow_ok hg
      rw [hs'] at hc
      have hc' : s.entity_store.cap * 2 % U32 = 2 * s.entity_store.cap := hc
      right
      refine ⟨jd, by rw [hs']; exact hc', ?_⟩
      rw [hs']
      show realloc s.component_store.data
        (s.component_store.cap * 2 % U32 * s.component_store.size % U64) jd BYTE = _
      rw [hi.ccap, hc']

/-- A `realloc` to at least as many cells keeps every cell. -/
theorem realloc_keeps (old : List Nat) (n : Nat) (j : Nat → Nat) (w : Nat) (h : old.length ≤ n) :
    old.length ≤ (realloc old n j w).length ∧
      ∀ i, i < old.length → (realloc old n j w)[i]? = old[i]? :=
  ⟨by rw [realloc_length]; exact h,
    fun i hi => realloc_getElem?_of_lt _ _ _ _ _ hi (Nat.lt_of_lt_of_le hi h)⟩

/-- A returning `ecs_create` keeps every cell of the data block when twice its
byte count is a `size_t`. -/
theorem ecs_create_extends {s s' : state_t} {a : Alloc} {r : Nat} (hi : Inv s)
    (h : ecs_create s a = .ok (s', r)) (hb : 2 * s.component_store.data.length < U64) :
    Extends s s' := by
  rcases ecs_create_data hi h with hd | ⟨jd, _, hd⟩
  · exact Extends_of_eq hd
  · unfold Extends
    rw [hd]
    apply realloc_keeps
    have hl := hi.data_len
    rw [hi.ccap] at hl
    rw [hl] at hb ⊢
    rw [Nat.mul_assoc]
    generalize s.entity_store.cap * s.component_store.size = x at hb ⊢
    unfold U64 at hb ⊢
    omega

/-- A data block that fits `size_t` after a returning `ecs_create` did so
before, and twice the byte count of the block before a growth is a `size_t`. -/
theorem ecs_create_fits {s s' : state_t} {a : Alloc} {r : Nat} (hi : Inv s)
    (h : ecs_create s a = .ok (s', r)) (hst : Static s s') (hf : block_fits s') :
    block_fits s ∧ Extends s s' := by
  have hfs : block_fits s := by
    unfold block_fits at hf ⊢
    rw [hst.sizes] at hf
    rcases ecs_create_cap hi h with hc | ⟨_, _, hc⟩
    · rw [hc] at hf; exact hf
    · rw [hc] at hf
      have := Nat.mul_le_mul_right s.component_store.data_size_array.sum
        (show s.entity_store.cap ≤ 2 * s.entity_store.cap by omega)
      omega
  refine ⟨hfs, ?_⟩
  rcases ecs_create_data hi h with hd | ⟨jd, hc, _⟩
  · exact Extends_of_eq hd
  · apply ecs_create_extends hi h
    rw [data_length_fits hi hfs]
    unfold block_fits at hf
    rw [hst.sizes, hc] at hf
    have hsum : s.component_store.size = s.component_store.data_size_array.sum := by
      obtain ⟨h1, _⟩ := init_loop_spec s.component_store.data_size_array [] 0
        (by have := fits_sum hi hfs; omega)
      rw [hi.size_eq, h1, Nat.zero_add]
    rw [hsum, ← Nat.mul_assoc]
    exact hf

/-- What `ecs_create` does to the entity count, the table of types and the data block. -/
theorem ecs_create_frame {s s' : state_t} {a : Alloc} {r : Nat} (hi : Inv s)
    (h : ecs_create s a = .ok (s', r)) :
    Static s s' ∧
      ((s.entity_pool ≠ [] ∧ s'.entity_store.count = s.entity_store.count) ∨
       (s.entity_pool = [] ∧ r = s.entity_store.count ∧
        s'.entity_store.count = s.entity_store.count + 1)) := by
  rcases ecs_create_ok h with ⟨rest, hp, h1⟩ | ⟨hp, hr, hcap, h1⟩ | ⟨hp, hr, hcap, s2, hg, h1⟩
  · obtain ⟨_, _, _, rfl⟩ := issue_ok h1
    exact ⟨⟨rfl, rfl, rfl, rfl, Nat.le_refl _⟩, Or.inl ⟨by simp [hp], rfl⟩⟩
  · obtain ⟨_, _, _, rfl⟩ := issue_ok h1
    have hlt : s.entity_store.count < s.entity_store.cap :=
      Nat.lt_of_le_of_ne hi.count_le (Ne.symm hcap)
    have hU := hi.cap_lt
    have hmod : (s.entity_store.count + 1) % U32 = s.entity_store.count + 1 :=
      Nat.mod_eq_of_lt (by omega)
    refine ⟨⟨rfl, rfl, rfl, rfl, ?_⟩, Or.inr ⟨hp, hr, hmod⟩⟩
    show s.entity_store.count ≤ (s.entity_store.count + 1) % U32
    omega
  · obtain ⟨jf, jm, jd, _, _, _, rfl⟩ := grow_ok hg
    obtain ⟨hl1, _, _, rfl⟩ := issue_ok h1
    simp only [realloc_length] at hl1
    have hU : s.entity_store.cap * 2 % U32 < U32 := Nat.mod_lt _ (by decide)
    have hmod : (s.entity_store.count + 1) % U32 = s.entity_store.count + 1 :=
      Nat.mod_eq_of_lt (by omega)
    refine ⟨⟨rfl, rfl, rfl, rfl, ?_⟩, Or.inr ⟨hp, hr, hmod⟩⟩
    show s.entity_store.count ≤ (s.entity_store.count + 1) % U32
    omega

theorem ecs_kill_frame {s s' : state_t} {e : Nat} (h : ecs_kill s e = .ok s') :
    Static s s' ∧ s'.component_store = s.component_store ∧
      s'.entity_store.count = s.entity_store.count := by
  obtain ⟨f, _, ⟨_, rfl⟩ | ⟨_, _, rfl⟩⟩ := ecs_kill_ok h
  · exact ⟨Static_refl _, rfl, rfl⟩
  · exact ⟨⟨rfl, rfl, rfl, rfl, Nat.le_refl _⟩, rfl, rfl⟩

theorem ecs_remove_frame {s s' : state_t} {e t : Nat} (h : ecs_remove s e t = .ok s') :
    Static s s' ∧ s'.component_store = s.component_store ∧
      s'.entity_store.count = s.entity_store.count := by
  obtain ⟨m, _, _, rfl⟩ := ecs_remove_ok h
  exact ⟨⟨rfl, rfl, rfl, rfl, Nat.le_refl _⟩, rfl, rfl⟩

theorem ecs_query_frame {s s' : state_t} {types : List Nat} (h : ecs_query s types = .ok s') :
    Static s s' ∧ s'.component_store = s.component_store ∧
      s'.entity_store = s.entity_store ∧ s'.entity_pool = s.entity_pool := by
  obtain ⟨mask, qr, _, _, rfl⟩ := ecs_query_ok h
  exact ⟨⟨rfl, rfl, rfl, rfl, Nat.le_refl _⟩, rfl, rfl, rfl⟩

/-- The capacity after a returning call: unchanged, or doubled by `ecs_create`. -/
theorem step_cap {s s' : state_t} {op : Op} (hi : Inv s) (h : step s op = .ok s') :
    s'.entity_store.cap = s.entity_store.cap ∨
      (op.is_create = true ∧ s.entity_store.count = s.entity_store.cap ∧
        s'.entity_store.cap = 2 * s.entity_store.cap) := by
  cases op with
  | create a =>
    simp only [step] at h
    split at h
    · rename_i r hr
      cases h
      have hcr : ecs_create s a = .ok (r.1, r.2) := hr
      rcases ecs_create_cap hi hcr with h1 | ⟨_, h2, h3⟩
      · exact Or.inl h1
      · exact Or.inr ⟨rfl, h2, h3⟩
    · cases h
    · cases h
  | get e t =>
    simp only [step] at h
    split at h
    · cases h; exact Or.inl rfl
    · cases h
    · cases h
  | has e t =>
    simp only [step] at h
    split at h
    · cases h; exact Or.inl rfl
    · cases h
    · cases h
  | add e t p =>
    obtain ⟨_, _, _, _, _, _, _, _, _, rfl⟩ := ecs_add_ok h
    exact Or.inl rfl
  | remove e t =>
    obtain ⟨_, _, _, rfl⟩ := ecs_remove_ok h
    exact Or.inl rfl
  | kill e =>
    obtain ⟨f, _, ⟨_, rfl⟩ | ⟨_, _, rfl⟩⟩ := ecs_kill_ok h
    · exact Or.inl rfl
    · exact Or.inl rfl
  | query types =>
    obtain ⟨_, _, hes, _⟩ := ecs_query_frame h
    exact Or.inl (by rw [hes])

/-- The bytes of a component depend on the component store only. -/
theorem component_bytes_congr {s s' : state_t} (h : s'.component_store = s.component_store)
    (e t : Nat) : component_bytes s' e t = component_bytes s e t := by
  unfold component_bytes ecs_get read_bytes
  rw [h]

/-- Bytes that can be read stay what they are when the data block is extended. -/
theorem bytes_of_extends {s s' : state_t} {e t : Nat} {b : List Nat}
    (hst : Static s s') (hex : Extends s s') (h : component_bytes s e t = .ok b) :
    component_bytes s' e t = .ok b := by
  obtain ⟨off, sz, ho, hs, hb, rfl⟩ := component_bytes_ok h
  refine (component_bytes_at (by rw [hst.offsets]; exact ho) (by rw [hst.sizes]; exact hs)
    (by rw [hst.size]; exact Nat.le_trans hb hex.1)).trans ?_
  rw [hst.size]
  congr 1
  apply List.ext_getElem?
  intro j
  by_cases hj : j < sz
  · rw [List.getElem?_take_of_lt hj, List.getElem?_take_of_lt hj, List.getElem?_drop,
      List.getElem?_drop]
    exact hex.2 _ (by omega)
  · rw [List.getElem?_take_eq_none (by omega), List.getElem?_take_eq_none (by omega)]

/-- Two distinct slots of a data block that fits `size_t` do not overlap. -/
theorem slots_disjoint {s : state_t} (hi : Inv s) (hf : block_fits s) (e e' : Nat)
    {t t' sz sz' : Nat}
    (ht : t < s.component_store.type_count) (ht' : t' < s.component_store.type_count)
    (hs : s.component_store.data_size_array[t]? = some sz)
    (hs' : s.component_store.data_size_array[t']? = some sz')
    (hne : ¬ (e' = e ∧ t' = t)) :
    e * s.component_store.size + (s.component_store.data_size_array.take t).sum + sz ≤
        e' * s.component_store.size + (s.component_store.data_size_array.take t').sum ∨
    e' * s.component_store.size + (s.component_store.data_size_array.take t').sum + sz' ≤
        e * s.component_store.size + (s.component_store.data_size_array.take t).sum := by
  obtain ⟨z, hz, _, hle, _⟩ := layout_get hi hf ht
  obtain ⟨z', hz', _, hle', _⟩ := layout_get hi hf ht'
  rw [hs] at hz; cases hz
  rw [hs'] at hz'; cases hz'
  rcases Nat.lt_trichotomy e e' with h | h | h
  · left
    have := Nat.mul_le_mul_right s.component_store.size (Nat.succ_le_of_lt h)
    rw [Nat.succ_mul] at this
    omega
  · subst h
    rcases Nat.lt_trichotomy t t' with h | h | h
    · left
      have h1 := sum_take_le_sum_take s.component_store.data_size_array (Nat.succ_le_of_lt h)
      rw [sum_take_succ_of_get _ hs] at h1
      omega
    · exact absurd ⟨rfl, h.symm⟩ hne
    · right
      have h1 := sum_take_le_sum_take s.component_store.data_size_array (Nat.succ_le_of_lt h)
      rw [sum_take_succ_of_get _ hs'] at h1
      omega
  · right
    have := Nat.mul_le_mul_right s.component_store.size (Nat.succ_le_of_lt h)
    rw [Nat.succ_mul] at this
    omega

/-- In a data block that fits `size_t`, a returning `ecs_add` to another slot
leaves the bytes of component `t` of the bundle `e`. -/
theorem bytes_of_add_other {s s' : state_t} (hi : Inv s) (hf : block_fits s) {e t e' t' : Nat}
    {p : List Nat}
    (he : e < s.entity_store.cap) (ht : t < s.component_store.type_count)
    (he' : e' < s.entity_store.cap) (ht' : t' < s.component_store.type_count)
    (hne : ¬ (e' = e ∧ t' = t)) (h : ecs_add s e' t' p = .ok s') :
    component_bytes s' e t = component_bytes s e t := by
  obtain ⟨sz', off', m, d, hs', ho', _, _, hd, rfl⟩ := ecs_add_ok h
  obtain ⟨h1, h2, rfl⟩ := memcpy_ok hd
  obtain ⟨sz, hs, ho, _, _⟩ := layout_get hi hf ht
  obtain ⟨z', hz', hoff', _, _⟩ := layout_get hi hf ht'
  rw [hs'] at hz'; cases hz'
  rw [ho'] at hoff'; cases hoff'
  have hU := data_length_lt hi
  have hmod := slot_mod hi (slot_in_capacity hi hf he' ht' hs')
  rw [hmod] at h1
  have hb := slot_in_capacity hi hf he ht hs
  have hdis := slots_disjoint hi hf e e' ht ht' hs hs' hne
  rw [component_bytes_of ho hs hb hU]
  refine (component_bytes_of (by exact ho) (by exact hs)
    (by simp only [List.length_append, List.length_take, List.length_drop]; omega)
    (by simp only [List.length_append, List.length_take, List.length_drop]; omega)).trans ?_
  simp only [hmod]
  rw [read_unwritten _ _ _ _ _ _ h1 h2 (by omega)]

/-- A returning call changes neither the table of types nor lowers the count. -/
theorem step_static {s s' : state_t} {op : Op} (hi : Inv s) (h : step s op = .ok s') :
    Static s s' := by
  cases op with
  | create a =>
    simp only [step] at h
    split at h
    · rename_i r hr
      cases h
      exact (@ecs_create_frame s r.1 a r.2 hi hr).1
    · cases h
    · cases h
  | get e' t' =>
    simp only [step] at h
    split at h
    · cases h; exact Static_refl _
    · cases h
    · cases h
  | add e' t' p => exact (ecs_add_static h).1
  | remove e' t' => exact (ecs_remove_frame h).1
  | has e' t' =>
    simp only [step] at h
    split at h
    · cases h; exact Static_refl _
    · cases h
    · cases h
  | kill e' => exact (ecs_kill_frame h).1
  | query types => exact (ecs_query_frame h).1

/-- A data block that fits `size_t` after a returning call did so before it. -/
theorem step_fits {s s' : state_t} {op : Op} (hi : Inv s) (h : step s op = .ok s')
    (hf : block_fits s') : block_fits s := by
  have hst := step_static hi h
  unfold block_fits at hf ⊢
  rw [hst.sizes] at hf
  rcases step_cap hi h with hc | ⟨_, _, hc⟩
  · rw [hc] at hf; exact hf
  · rw [hc] at hf
    have := Nat.mul_le_mul_right s.component_store.data_size_array.sum
      (show s.entity_store.cap ≤ 2 * s.entity_store.cap by omega)
    omega

/-- A data block that fits `size_t` at the end of a run did so from its start. -/
theorem run_fits {s s' : state_t} {ops : List Op} (hrun : Run s ops s') (hi : Inv s)
    (hf : block_fits s') : block_fits s := by
  induction hrun with
  | nil s => exact hf
  | cons s op s1 ops s2 hv h _ ih => exact step_fits hi h (ih (Inv_step hi hv h) hf)

/-- A call that does not write the bytes of component `t` of `e` leaves them,
when the data block fits `size_t` after the call. -/
theorem step_bytes {s s' : state_t} (hi : Inv s) (hf' : block_fits s') {e t : Nat}
    (he : e < s.entity_store.count)
    (ht : t < s.component_store.type_count) {op : Op} (hv : op.valid s)
    (hw : op.writes e t = false) (h : step s op = .ok s') :
    component_bytes s' e t = component_bytes s e t := by
  have hf := step_fits hi h hf'
  have hec : e < s.entity_store.cap := Nat.lt_of_lt_of_le he hi.count_le
  cases op with
  | create a =>
    simp only [step] at h
    split at h
    · rename_i r hr
      cases h
      have hcr : ecs_create s a = .ok (r.1, r.2) := hr
      obtain ⟨hst, _⟩ := ecs_create_frame hi hcr
      obtain ⟨_, hex⟩ := ecs_create_fits hi hcr hst hf'
      obtain ⟨sz, _, hb⟩ := component_bytes_total hi hf hec ht
      rw [hb]
      exact bytes_of_extends hst hex hb
    · cases h
    · cases h
  | get e' t' =>
    simp only [step] at h
    split at h
    · cases h; rfl
    · cases h
    · cases h
  | add e' t' p =>
    have hne : ¬ (e' = e ∧ t' = t) := by simpa [Op.writes] using hw
    exact bytes_of_add_other hi hf hec ht (Nat.lt_of_lt_of_le hv.1 hi.count_le) hv.2 hne h
  | remove e' t' => exact component_bytes_congr (ecs_remove_frame h).2.1 e t
  | has e' t' =>
    simp only [step] at h
    split at h
    · cases h; rfl
    · cases h
    · cases h
  | kill e' => exact component_bytes_congr (ecs_kill_frame h).2.1 e t
  | query types => exact component_bytes_congr (ecs_query_frame h).2.1 e t

theorem run_bytes {s s' : state_t} {ops : List Op} (hrun : Run s ops s') (hi : Inv s)
    (hf : block_fits s') {e t : Nat}
    (he : e < s.entity_store.count) (ht : t < s.component_store.type_count)
    (hw : ∀ op ∈ ops, op.writes e t = false) :
    component_bytes s' e t = component_bytes s e t := by
  induction hrun with
  | nil s => rfl
  | cons s op s1 ops s2 hv h hrest ih =>
    have hi1 := Inv_step hi hv h
    have hst := step_static hi h
    have hb := step_bytes hi (run_fits hrest hi1 hf) he ht hv (hw op (List.mem_cons_self _ _)) h
    rw [ih hi1 hf (Nat.lt_of_lt_of_le he hst.count) (by rw [hst.type_count]; exact ht)
      (fun o ho => hw o (List.mem_cons_of_mem _ ho)), hb]

set_option maxRecDepth 1000000 in
theorem demo_wrap_created_reachable : Reachable demo_wrap_created :=
  run_reachable (run_ops_run (List.replicate 3 (.create demo_alloc)) demo_wrap demo_wrap_created
    rfl) (Reachable.init [18446744073709551612, 8] demo_junk demo_wrap rfl)

set_option maxRecDepth 1000000 in
/-- C5, refuted as stated.  After `ecs_init(2, (size_t)-4, 8)` the sum of the
sizes wraps to the stride 4 and the offset of type 1 is `2^64 - 4`, so that the
address of component 1 of entity `e` is `4 * e - 4` in `size_t`: the 8 bytes of
entity 1 start at offset 0 of the data block of 128 bytes and those of entity 2
at offset 4.  With three entities created, `ecs_add(1, 1, p)` returns and the
bytes of `(1, 1)` are `p`; the call `ecs_add(2, 1, q)`, an add to another pair
on an issued id and a registered type, returns and has overwritten the last four
bytes of `(1, 1)`. -/
theorem C5_add_to_other_entity_overwrites :
    Reachable demo_wrap_created ∧ demo_wrap_created.entity_store.count = 3 ∧
    demo_wrap_created.component_store.type_count = 2 ∧
    demo_wrap_created.component_store.data_size_array = [18446744073709551612, 8] ∧
    demo_wrap_created.component_store.data_offset_array = [0, 18446744073709551612] ∧
    demo_wrap_created.component_store.size = 4 ∧
    demo_wrap_created.component_store.data.length = 128 ∧
    ecs_get demo_wrap_created 1 1 = .ok 0 ∧ ecs_get demo_wrap_created 2 1 = .ok 4 ∧
    ∃ s1 s2, ecs_add demo_wrap_created 1 1 [1, 2, 3, 4, 5, 6, 7, 8] = .ok s1 ∧
      component_bytes s1 1 1 = .ok [1, 2, 3, 4, 5, 6, 7, 8] ∧
      Run s1 [.add 2 1 [9, 9, 9, 9, 9, 9, 9, 9]] s2 ∧
      (∀ op ∈ [Op.add 2 1 [9, 9, 9, 9, 9, 9, 9, 9]], op.writes 1 1 = false) ∧
      component_bytes s2 1 1 = .ok [1, 2, 3, 4, 9, 9, 9, 9] ∧
      component_bytes s2 1 1 ≠ .ok [1, 2, 3, 4, 5, 6, 7, 8] :=
  ⟨demo_wrap_created_reachable, rfl, rfl, rfl, rfl, rfl, rfl, rfl, rfl, _, _, rfl, rfl,
    run_ops_run [.add 2 1 [9, 9, 9, 9, 9, 9, 9, 9]] _ _ rfl, by decide, rfl, by decide⟩

/-- C5, amended.  In every reachable state, after `ecs_add(e, t, p)` on an
issued id and a registered type, the bytes at `ecs_get(e, t)` are still `p`
after any run of calls on issued ids and registered types (create, get, add,
remove, has, kill, query), each of which returns, that holds no further
`ecs_add(e, t, ...)`, provided the data block fits `size_t` at the end of the
run: the capacity times the sum of the sizes is below `2^64`.  This covers the
runs that do not recreate `e` after a kill. -/
theorem C5_bytes_kept_until_next_add (s : state_t) (hr : Reachable s) (e t : Nat)
    (he : e < s.entity_store.count) (ht : t < s.component_store.type_count) (p : List Nat)
    (hp : s.component_store.data_size_array[t]? = some p.length)
    (s1 : state_t) (h1 : ecs_add s e t p = .ok s1)
    (ops : List Op) (s2 : state_t) (hrun : Run s1 ops s2)
    (hw : ∀ op ∈ ops, op.writes e t = false) (hf : block_fits s2) :
    component_bytes s2 e t = .ok p := by
  have hr1 : Reachable s1 := Reachable.step s (.add e t p) s1 hr ⟨he, ht⟩ h1
  obtain ⟨hst, hc, _⟩ := ecs_add_static h1
  rw [run_bytes hrun (reachable_inv hr1) hf (by rw [hc]; exact he)
    (by rw [hst.type_count]; exact ht) hw]
  exact add_read hp h1

set_option maxRecDepth 1000000 in
theorem C5_bytes_kept_until_next_add_witness :
    component_bytes
      ((run_ops ((ecs_add demo_added 0 0 [31, 32, 33, 34]).get state0) demo_ops).get state0)
      0 0 = .ok [31, 32, 33, 34] :=
  C5_bytes_kept_until_next_add demo_added demo_added_reachable 0 0 (by decide) (by decide)
    [31, 32, 33, 34] rfl ((ecs_add demo_added 0 0 [31, 32, 33, 34]).get state0) rfl demo_ops
    ((run_ops ((ecs_add demo_added 0 0 [31, 32, 33, 34]).get state0) demo_ops).get state0)
    (run_ops_run _ _ _ rfl) (by decide) (by decide)

/-! ## Creating and killing entities -/

set_option maxRecDepth 1000000 in
theorem demo_full_reachable : Reachable demo_full :=
  run_reachable (run_ops_run (List.replicate 31 (.create demo_alloc)) demo_added demo_full rfl)
    demo_added_reachable

theorem issue_others {s s' : state_t} {id r : Nat} (h : issue s id = .ok (s', r)) (e : Nat)
    (hne : e ≠ id) : mask_of s' e = mask_of s e ∧ flag_of s' e = flag_of s e := by
  obtain ⟨_, _, _, rfl⟩ := issue_ok h
  simp only [mask_of, flag_of, getD_set_eq]
  have : ¬ id = e := fun h => hne h.symm
  simp [this]

theorem issue_issued {s s' : state_t} {id r : Nat} (h : issue s id = .ok (s', r)) :
    r = id ∧ mask_of s' id = 0 ∧ flag_of s' id = ENTITY_FLAG_ALIVE ∧
      s'.entity_store.mask_array[id]? = some 0 := by
  obtain ⟨h1, h2, hr, rfl⟩ := issue_ok h
  refine ⟨hr, ?_, ?_, ?_⟩
  · simp [mask_of, getD_set_eq, h1]
  · simp [flag_of, getD_set_eq, h2]
  · exact getElem?_set_self_of_lt _ _ h1

/-- The call `ecs_create` changes the mask and the flag of no issued id but the
one it returns. -/
theorem ecs_create_others {s s' : state_t} {a : Alloc} {r : Nat} (hi : Inv s)
    (h : ecs_create s a = .ok (s', r)) (e : Nat) (hne : e ≠ r) (he : e < s.entity_store.cap) :
    mask_of s' e = mask_of s e ∧ flag_of s' e = flag_of s e := by
  rcases ecs_create_ok h with ⟨rest, _, h1⟩ | ⟨_, _, _, h1⟩ | ⟨_, hr, hcap, s2, hg, h1⟩
  · exact issue_others h1 e hne
  · exact issue_others h1 e hne
  · obtain ⟨hm, hf⟩ := issue_others h1 e hne
    obtain ⟨hl1, _, _, _⟩ := issue_ok h1
    obtain ⟨jf, jm, jd, _, _, _, rfl⟩ := grow_ok hg
    simp only [realloc_length] at hl1
    rw [hm, hf]
    have hlt : e < s.entity_store.cap * 2 % U32 := by omega
    constructor
    · exact realloc_getD_of_lt _ _ _ _ _ _ (by rw [hi.mask_len]; exact he) hlt
    · exact realloc_getD_of_lt _ _ _ _ _ _ (by rw [hi.flag_len]; exact he) hlt

/-- The id that `ecs_create` returns has an empty mask and the alive flag. -/
theorem ecs_create_issued {s s' : state_t} {a : Alloc} {r : Nat}
    (h : ecs_create s a = .ok (s', r)) :
    mask_of s' r = 0 ∧ flag_of s' r = ENTITY_FLAG_ALIVE ∧
      s'.entity_store.mask_array[r]? = some 0 := by
  rcases ecs_create_ok h with ⟨rest, _, h1⟩ | ⟨_, _, _, h1⟩ | ⟨_, _, _, s2, _, h1⟩
  · exact (issue_issued h1).2
  · exact (issue_issued h1).2
  · exact (issue_issued h1).2

/-- The growth branch of `ecs_create` returns when the three tested `realloc`
calls succeed and the doubled capacity is a `uint32_t`. -/
theorem ecs_create_grow_total {s : state_t} {a : Alloc}
    (hpool : s.entity_pool = []) (hcap : s.entity_store.count = s.entity_store.cap)
    (hpos : 0 < s.entity_store.cap)
    (ha : a.flag.isSome = true ∧ a.mask.isSome = true ∧ a.data.isSome = true)
    (hU : s.entity_store.cap * 2 < U32) :
    ∃ s', ecs_create s a = .ok (s', s.entity_store.count) := by
  obtain ⟨hf, hm, hd⟩ := ha
  obtain ⟨jf, hjf⟩ := Option.isSome_iff_exists.mp hf
  obtain ⟨jm, hjm⟩ := Option.isSome_iff_exists.mp hm
  obtain ⟨jd, hjd⟩ := Option.isSome_iff_exists.mp hd
  have hmod : s.entity_store.cap * 2 % U32 = s.entity_store.cap * 2 := Nat.mod_eq_of_lt hU
  unfold ecs_create
  rw [if_neg (by simp [hpool, as_count])]
  simp only
  rw [if_pos hcap.symm]
  simp only [grow, hjf, hjm, hjd]
  unfold issue
  simp only [realloc_length]
  rw [if_pos (by omega)]
  exact ⟨_, rfl⟩

theorem set_self_of_getElem? (l : List Nat) {i v : Nat} (h : l[i]? = some v) : l.set i v = l := by
  apply List.ext_getElem?
  intro j
  rw [List.getElem?_set]
  by_cases hij : i = j
  · subst hij
    rw [if_pos rfl, h]
    have : i < l.length := by
      by_contra hc
      rw [List.getElem?_eq_none (Nat.le_of_not_lt hc)] at h
      cases h
    simp [this]
  · rw [if_neg hij]

theorem alive_iff_flag {s : state_t} {e f : Nat} (hf : flag_of s e = f) :
    alive s e ↔ e < s.entity_store.count ∧ f &&& ENTITY_FLAG_ALIVE ≠ 0 := by
  rw [← hf]; rfl

/-- C7.  In every reachable state, for every alive entity `e` and whatever the
allocator does, `ecs_kill(e)` returns a state in which `e` is dead and on top of
the pool, the `ecs_create()` that follows returns `e`, and the entity reissued
has an empty mask (`ecs_has(e, t)` is 0 for every type `t`) and its alive flag
set, whatever mask `e` had before the kill. -/
theorem C7_create_after_kill_reuses_id (s : state_t) (hr : Reachable s) (e : Nat)
    (ha : alive s e) (a : Alloc) :
    ∃ s1 s2, ecs_kill s e = .ok s1 ∧ ¬ alive s1 e ∧ s1.entity_pool = e :: s.entity_pool ∧
      ecs_create s1 a = .ok (s2, e) ∧
      mask_of s2 e = 0 ∧ flag_of s2 e = ENTITY_FLAG_ALIVE ∧ alive s2 e ∧
      ∀ t, t < 32 → ecs_has s2 e t = .ok 0 := by
  have hi := reachable_inv hr
  obtain ⟨he, hfa⟩ := ha
  obtain ⟨f, hf, hfo⟩ := flag_get hi he
  rw [hfo] at hfa
  have hlm : e < s.entity_store.mask_array.length := by
    rw [hi.mask_len]; exact Nat.lt_of_lt_of_le he hi.count_le
  have hlf : e < s.entity_store.flag_array.length := by
    rw [hi.flag_len]; exact Nat.lt_of_lt_of_le he hi.count_le
  have hk := ecs_kill_of_alive hf hfa hlm
  have hc : ecs_create
      { s with
        entity_store :=
          { s.entity_store with
            flag_array := s.entity_store.flag_array.set e (f &&& not32 ENTITY_FLAG_ALIVE)
            mask_array := s.entity_store.mask_array.set e 0 }
        entity_pool := as_push s.entity_pool e } a =
      .ok ({ s with
        entity_store :=
          { s.entity_store with
            flag_array := (s.entity_store.flag_array.set e
              (f &&& not32 ENTITY_FLAG_ALIVE)).set e ENTITY_FLAG_ALIVE
            mask_array := (s.entity_store.mask_array.set e 0).set e 0 } }, e) := by
    simp [ecs_create, as_count, as_push, as_pop, issue, hlm, hlf]
  refine ⟨_, _, hk, ?_, rfl, hc, ?_, ?_, ?_, ?_⟩
  · intro hal
    have hfl : flag_of { s with
        entity_store :=
          { s.entity_store with
            flag_array := s.entity_store.flag_array.set e (f &&& not32 ENTITY_FLAG_ALIVE)
            mask_array := s.entity_store.mask_array.set e 0 }
        entity_pool := as_push s.entity_pool e } e = f &&& not32 ENTITY_FLAG_ALIVE := by
      rw [flag_of_set_flag s e e _ _ _ _ _ rfl, if_pos ⟨rfl, hlf⟩]
    exact hal.2 (by rw [hfl]; exact and_not32_alive f)
  · simp [mask_of, getD_set_eq, hlm]
  · simp [flag_of, getD_set_eq, hlf]
  · refine ⟨he, ?_⟩
    simp [flag_of, getD_set_eq, hlf, ENTITY_FLAG_ALIVE]
  · intro t ht
    have hm : ((s.entity_store.mask_array.set e 0).set e 0)[e]? = some 0 :=
      getElem?_set_self_of_lt _ _ (by simpa using hlm)
    rw [ecs_has_of (by exact hm) ht]
    simp

set_option maxRecDepth 1000000 in
theorem C7_create_after_kill_reuses_id_witness :
    mask_of demo_grown 0 = 3 ∧
    ∃ s1 s2, ecs_kill demo_grown 0 = .ok s1 ∧ ¬ alive s1 0 ∧
      s1.entity_pool = 0 :: demo_grown.entity_pool ∧
      ecs_create s1 demo_alloc = .ok (s2, 0) ∧
      mask_of s2 0 = 0 ∧ flag_of s2 0 = ENTITY_FLAG_ALIVE ∧ alive s2 0 ∧
      ∀ t, t < 32 → ecs_has s2 0 t = .ok 0 :=
  ⟨rfl, C7_create_after_kill_reuses_id demo_grown demo_grown_reachable 0 (by decide) demo_alloc⟩

set_option maxRecDepth 1000000 in
theorem demo_killed_reachable : Reachable demo_killed :=
  run_reachable (run_ops_run [.kill 7, .kill 5] demo_grown demo_killed rfl) demo_grown_reachable

/-- The call `ecs_create` returns when the pool holds an id or the capacity is
not reached. -/
theorem ecs_create_total {s : state_t} (hi : Inv s) (a : Alloc)
    (h : s.entity_pool ≠ [] ∨ s.entity_store.count < s.entity_store.cap) :
    ∃ s' id, ecs_create s a = .ok (s', id) := by
  cases hp : s.entity_pool with
  | cons x rest =>
    have hx := (hi.pool_dead x (by rw [hp]; exact List.mem_cons_self _ _)).1
    have hc := hi.count_le
    have h1 : x < s.entity_store.mask_array.length := by rw [hi.mask_len]; omega
    have h2 : x < s.entity_store.flag_array.length := by rw [hi.flag_len]; omega
    unfold ecs_create
    rw [if_pos (by simp [hp, as_count]), hp]
    simp only [as_pop]
    exact ⟨_, _, issue_of_lt h1 h2⟩
  | nil =>
    rcases h with h | h
    · exact absurd hp h
    · have h1 : s.entity_store.count < s.entity_store.mask_array.length := by
        rw [hi.mask_len]; exact h
      have h2 : s.entity_store.count < s.entity_store.flag_array.length := by
        rw [hi.flag_len]; exact h
      unfold ecs_create
      rw [if_neg (by simp [hp, as_count])]
      simp only
      rw [if_neg (by omega)]
      exact ⟨_, _, issue_of_lt h1 h2⟩

/-- C8.  In every reachable state, the id that a returning `ecs_create()` hands
out was not alive before the call: it is the top of the pool, a dead issued id,
or, the pool being empty, the old entity count, an id not issued so far.  After
the call the alive entities are those alive before and the one returned, so no
id stands for two alive entities.  The call returns when the pool holds an id
or the capacity is not reached. -/
theorem C8_created_id_not_alive (s : state_t) (hr : Reachable s) (a : Alloc) :
    (∀ s' id, ecs_create s a = .ok (s', id) →
      ¬ alive s id ∧
      ((∃ rest, s.entity_pool = id :: rest ∧ id < s.entity_store.count) ∨
        (s.entity_pool = [] ∧ id = s.entity_store.count)) ∧
      ∀ e, alive s' e ↔ alive s e ∨ e = id) ∧
    (s.entity_pool ≠ [] ∨ s.entity_store.count < s.entity_store.cap →
      ∃ s' id, ecs_create s a = .ok (s', id)) := by
  have hi := reachable_inv hr
  refine ⟨?_, ecs_create_total hi a⟩
  intro s' id h
  have hi' := Inv_create hi h
  obtain ⟨_, hc⟩ := ecs_create_frame hi h
  obtain ⟨_, hfl, _⟩ := ecs_create_issued h
  have hnot : ¬ alive s id := by
    rcases hc with ⟨hne, _⟩ | ⟨_, hid, _⟩
    · rcases ecs_create_ok h with ⟨rest, hp, _⟩ | ⟨hp, _⟩ | ⟨hp, _⟩
      · intro hal
        exact hal.2 (hi.pool_dead id (by rw [hp]; exact List.mem_cons_self _ _)).2
      · exact absurd hp hne
      · exact absurd hp hne
    · intro hal
      have := hal.1
      omega
  have hwhere : (∃ rest, s.entity_pool = id :: rest ∧ id < s.entity_store.count) ∨
      (s.entity_pool = [] ∧ id = s.entity_store.count) := by
    rcases ecs_create_ok h with ⟨rest, hp, _⟩ | ⟨hp, hid, _⟩ | ⟨hp, hid, _⟩
    · exact Or.inl ⟨rest, hp,
        (hi.pool_dead id (by rw [hp]; exact List.mem_cons_self _ _)).1⟩
    · exact Or.inr ⟨hp, hid⟩
    · exact Or.inr ⟨hp, hid⟩
  refine ⟨hnot, hwhere, ?_⟩
  intro e
  have hcl := hi.count_le
  by_cases hne : e = id
  · subst hne
    constructor
    · intro _; exact Or.inr rfl
    · intro _
      refine ⟨?_, by rw [hfl]; decide⟩
      rcases hc with ⟨hne', hcount⟩ | ⟨_, hid, hcount⟩
      · rcases hwhere with ⟨_, _, hlt⟩ | ⟨hp, _⟩
        · omega
        · exact absurd hp hne'
      · omega
  · constructor
    · intro hal
      left
      have hlt : e < s.entity_store.count := by
        have := hal.1
        rcases hc with ⟨_, hcount⟩ | ⟨_, hid, hcount⟩ <;> omega
      obtain ⟨_, hf⟩ := ecs_create_others hi h e hne (by omega)
      exact ⟨hlt, by rw [← hf]; exact hal.2⟩
    · intro hal
      rcases hal with hal | hal
      · obtain ⟨_, hf⟩ := ecs_create_others hi h e hne (by have := hal.1; omega)
        refine ⟨?_, by rw [hf]; exact hal.2⟩
        have := hal.1
        rcases hc with ⟨_, hcount⟩ | ⟨_, hid, hcount⟩ <;> omega
      · exact absurd hal hne

set_option maxRecDepth 1000000 in
theorem C8_created_id_not_alive_witness :
    ecs_create demo_killed demo_alloc = .ok (demo_reissued, 5) ∧ ¬ alive demo_killed 5 ∧
    ((∃ rest, demo_killed.entity_pool = 5 :: rest ∧ 5 < demo_killed.entity_store.count) ∨
      (demo_killed.entity_pool = [] ∧ 5 = demo_killed.entity_store.count)) ∧
    (∀ e, alive demo_reissued e ↔ alive demo_killed e ∨ e = 5) ∧
    ∃ s' id, ecs_create demo_killed demo_alloc = .ok (s', id) :=
  ⟨rfl, ((C8_created_id_not_alive demo_killed demo_killed_reachable demo_alloc).1
      demo_reissued 5 rfl).1,
    ((C8_created_id_not_alive demo_killed demo_killed_reachable demo_alloc).1
      demo_reissued 5 rfl).2.1,
    ((C8_created_id_not_alive demo_killed demo_killed_reachable demo_alloc).1
      demo_reissued 5 rfl).2.2,
    (C8_created_id_not_alive demo_killed demo_killed_reachable demo_alloc).2
      (Or.inl (by decide))⟩

/-- C9.  In every reachable state and for every issued id `e`, `ecs_kill(e)`
returns, and a second `ecs_kill(e)` returns the very same state: flags, masks,
entity count and pool are those after the first call, and the pool holds `e`
exactly once.  On an id that is already dead the call changes nothing. -/
theorem C9_kill_idempotent (s : state_t) (hr : Reachable s) (e : Nat)
    (he : e < s.entity_store.count) :
    ∃ s1, ecs_kill s e = .ok s1 ∧ ecs_kill s1 e = .ok s1 ∧ ¬ alive s1 e ∧
      s1.entity_pool.count e = 1 ∧
      (alive s e → s1.entity_pool = e :: s.entity_pool) ∧
      (¬ alive s e → s1 = s) := by
  have hi := reachable_inv hr
  obtain ⟨f, hf, hfo⟩ := flag_get hi he
  have hlm : e < s.entity_store.mask_array.length := by
    rw [hi.mask_len]; exact Nat.lt_of_lt_of_le he hi.count_le
  have hlf : e < s.entity_store.flag_array.length := by
    rw [hi.flag_len]; exact Nat.lt_of_lt_of_le he hi.count_le
  by_cases ha : f &&& ENTITY_FLAG_ALIVE = 0
  · have hk := ecs_kill_of_dead hf ha
    have hna : ¬ alive s e := fun hal => hal.2 (by rw [hfo]; exact ha)
    refine ⟨s, hk, hk, hna, ?_, fun hal => absurd hal hna, fun _ => rfl⟩
    exact List.count_eq_one_of_mem hi.pool_nodup (hi.pool_all e he (by rw [hfo]; exact ha))
  · have hk := ecs_kill_of_alive hf ha hlm
    have hi1 := Inv_kill hi he hk
    have hf1 : ({ s with
        entity_store :=
          { s.entity_store with
            flag_array := s.entity_store.flag_array.set e (f &&& not32 ENTITY_FLAG_ALIVE)
            mask_array := s.entity_store.mask_array.set e 0 }
        entity_pool := as_push s.entity_pool e } : state_t).entity_store.flag_array[e]? =
        some (f &&& not32 ENTITY_FLAG_ALIVE) := getElem?_set_self_of_lt _ _ hlf
    have hfl : flag_of { s with
        entity_store :=
          { s.entity_store with
            flag_array := s.entity_store.flag_array.set e (f &&& not32 ENTITY_FLAG_ALIVE)
            mask_array := s.entity_store.mask_array.set e 0 }
        entity_pool := as_push s.entity_pool e } e = f &&& not32 ENTITY_FLAG_ALIVE := by
      rw [flag_of_set_flag s e e _ _ _ _ _ rfl, if_pos ⟨rfl, hlf⟩]
    refine ⟨_, hk, ecs_kill_of_dead hf1 (and_not32_alive f), ?_, ?_, fun _ => rfl, ?_⟩
    · exact fun hal => hal.2 (by rw [hfl]; exact and_not32_alive f)
    · exact List.count_eq_one_of_mem hi1.pool_nodup (List.mem_cons_self _ _)
    · intro hna
      exact absurd ⟨he, by rw [hfo]; exact ha⟩ hna

set_option maxRecDepth 1000000 in
theorem C9_kill_idempotent_witness :
    alive demo_grown 5 ∧
    ∃ s1, ecs_kill demo_grown 5 = .ok s1 ∧ ecs_kill s1 5 = .ok s1 ∧ ¬ alive s1 5 ∧
      s1.entity_pool.count 5 = 1 ∧
      (alive demo_grown 5 → s1.entity_pool = 5 :: demo_grown.entity_pool) ∧
      (¬ alive demo_grown 5 → s1 = demo_grown) :=
  ⟨by decide, C9_kill_idempotent demo_grown demo_grown_reachable 5 (by decide)⟩

theorem and_not_bit_of_clear {m t : Nat} (hm : m < U32) (ht : t < 32)
    (hc : m.testBit t = false) : m &&& not32 (2 ^ t) = m := by
  apply Nat.eq_of_testBit_eq
  intro i
  rw [testBit_and_not_bit ht]
  by_cases hi : i < 32
  · by_cases hti : t = i
    · subst hti; simp [hc]
    · simp [hi, hti]
  · have : m.testBit i = false := by
      apply Nat.testBit_lt_two_pow
      rw [U32_eq] at hm
      exact Nat.lt_of_lt_of_le hm (Nat.pow_le_pow_right (by decide) (by omega))
    simp [this]

/-- C10.  In every reachable state, for every issued id `e` and registered type
`t`, `ecs_remove(e, t)` returns a state that differs from the old one in the
mask word of `e` only, which becomes `mask & ~(1 << t)`: the component store
(all bytes, those of `(e, t)` too), the flags, the entity count and capacity,
the pool and the query result are the same, every other bit of the mask of `e`
and the mask of every other entity are the same, and bit `t` is clear.  When
bit `t` was clear already the state is unchanged, and a second remove returns
the state of the first. -/
theorem C10_remove_clears_one_bit (s : state_t) (hr : Reachable s) (e t : Nat)
    (he : e < s.entity_store.count) (ht : t < s.component_store.type_count) :
    ∃ s', ecs_remove s e t = .ok s' ∧
      s' = { s with entity_store := { s.entity_store with
              mask_array := s.entity_store.mask_array.set e (mask_of s e &&& not32 (2 ^ t)) } } ∧
      s'.component_store = s.component_store ∧
      s'.entity_store.flag_array = s.entity_store.flag_array ∧
      s'.entity_store.count = s.entity_store.count ∧
      s'.entity_store.cap = s.entity_store.cap ∧
      s'.entity_pool = s.entity_pool ∧ s'.query_result = s.query_result ∧
      (∀ e', e' ≠ e → mask_of s' e' = mask_of s e') ∧
      (∀ i, i ≠ t → (mask_of s' e).testBit i = (mask_of s e).testBit i) ∧
      (mask_of s' e).testBit t = false ∧
      ((mask_of s e).testBit t = false → s' = s) ∧
      ecs_remove s' e t = .ok s' := by
  have hi := reachable_inv hr
  have ht32 : t < 32 := Nat.lt_of_lt_of_le ht hi.tc_le
  obtain ⟨m, hm, hmlt, hmo⟩ := mask_get hi he
  have hl : e < s.entity_store.mask_array.length := by
    rw [hi.mask_len]; exact Nat.lt_of_lt_of_le he hi.count_le
  have hm' : mask_of { s with entity_store := { s.entity_store with
      mask_array := s.entity_store.mask_array.set e (m &&& not32 (2 ^ t)) } } e =
      m &&& not32 (2 ^ t) := by
    simp [mask_of, getD_set_eq, hl]
  have hclear : (m &&& not32 (2 ^ t)).testBit t = false := by
    rw [testBit_and_not_bit ht32]; simp
  rw [hmo]
  refine ⟨_, ecs_remove_of hm ht32, rfl, rfl, rfl, rfl, rfl, rfl, rfl, ?_, ?_, ?_, ?_, ?_⟩
  · intro e' hne
    have : ¬ e = e' := fun h => hne h.symm
    simp [mask_of, getD_set_eq, this]
  · intro i hne
    rw [hm', testBit_and_not_bit ht32]
    have hti : ¬ t = i := fun h => hne h.symm
    by_cases hi32 : i < 32
    · simp [hi32, hti]
    · have : m.testBit i = false := by
        apply Nat.testBit_lt_two_pow
        rw [U32_eq] at hmlt
        exact Nat.lt_of_lt_of_le hmlt (Nat.pow_le_pow_right (by decide) (by omega))
      simp [this]
  · rw [hm']; exact hclear
  · intro hc
    rw [and_not_bit_of_clear hmlt ht32 hc, set_self_of_getElem? _ hm]
  · have hget : ({ s with entity_store := { s.entity_store with
        mask_array := s.entity_store.mask_array.set e (m &&& not32 (2 ^ t)) } } :
        state_t).entity_store.mask_array[e]? = some (m &&& not32 (2 ^ t)) :=
      getElem?_set_self_of_lt _ _ hl
    rw [ecs_remove_of hget ht32, and_not_bit_of_clear (and_not32_lt _ _) ht32 hclear]
    congr 3
    simp only [List.set_set]

set_option maxRecDepth 1000000 in
theorem C10_remove_clears_one_bit_witness :
    mask_of demo_grown 0 = 3 ∧
    ∃ s', ecs_remove demo_grown 0 0 = .ok s' ∧
      s' = { demo_grown with entity_store := { demo_grown.entity_store with
              mask_array := demo_grown.entity_store.mask_array.set 0
                (mask_of demo_grown 0 &&& not32 (2 ^ 0)) } } ∧
      s'.component_store = demo_grown.component_store ∧
      s'.entity_store.flag_array = demo_grown.entity_store.flag_array ∧
      s'.entity_store.count = demo_grown.entity_store.count ∧
      s'.entity_store.cap = demo_grown.entity_store.cap ∧
      s'.entity_pool = demo_grown.entity_pool ∧ s'.query_result = demo_grown.query_result ∧
      (∀ e', e' ≠ 0 → mask_of s' e' = mask_of demo_grown e') ∧
      (∀ i, i ≠ 0 → (mask_of s' 0).testBit i = (mask_of demo_grown 0).testBit i) ∧
      (mask_of s' 0).testBit 0 = false ∧
      ((mask_of demo_grown 0).testBit 0 = false → s' = demo_grown) ∧
      ecs_remove s' 0 0 = .ok s' :=
  ⟨rfl, C10_remove_clears_one_bit demo_grown demo_grown_reachable 0 0 (by decide) (by decide)⟩

/-! ## Dead entities -/

theorem reachable_of_live {s : state_t} (h : ReachableLive s) : Reachable s := by
  induction h with
  | init sizes junk s h => exact Reachable.init sizes junk s h
  | step s op s' _ hv _ h ih => exact Reachable.step s op s' ih hv h

theorem mask_of_set_mask (l : List Nat) (e i v : Nat) (es : entity_store_t)
    (cs : component_store_t) (q : query_result_t) (pool : array_stack_t)
    (hes : es.mask_array = l.set e v) :
    mask_of ⟨cs, es, q, pool⟩ i = if e = i ∧ e < l.length then v else l.getD i 0 := by
  simp only [mask_of, hes, getD_set_eq]

theorem dead_masks_step {s s' : state_t} {op : Op} (hi : Inv s) (hd : dead_masks_empty s)
    (hv : op.valid s) (hl : op.adds_alive s) (h : step s op = .ok s') :
    dead_masks_empty s' := by
  cases op with
  | create a =>
    simp only [step] at h
    split at h
    · rename_i r hr
      cases h
      have hcr : ecs_create s a = .ok (r.1, r.2) := hr
      obtain ⟨_, hc⟩ := ecs_create_frame hi hcr
      obtain ⟨hm0, hfl, _⟩ := ecs_create_issued hcr
      intro e he hdead
      by_cases hne : e = r.2
      · subst hne; exact hm0
      · have hlt : e < s.entity_store.count := by
          rcases hc with ⟨_, hcount⟩ | ⟨_, hid, hcount⟩ <;> omega
        have hcl := hi.count_le
        obtain ⟨hm, hf⟩ := ecs_create_others hi hcr e hne (by omega)
        rw [hm]
        exact hd e hlt (by rw [← hf]; exact hdead)
    · cases h
    · cases h
  | get e t =>
    simp only [step] at h
    split at h
    · cases h; exact hd
    · cases h
    · cases h
  | add e t p =>
    obtain ⟨_, _, m, d, _, _, hm, _, _, rfl⟩ := ecs_add_ok h
    have hal : alive s e := hl
    intro i hic hdead
    have hdead' : flag_of s i &&& ENTITY_FLAG_ALIVE = 0 := hdead
    have hne : ¬ e = i := by
      rintro rfl
      exact hal.2 hdead'
    rw [mask_of_set_mask s.entity_store.mask_array e i _ _ _ _ _ rfl, if_neg (fun hc => hne hc.1)]
    exact hd i hic hdead'
  | remove e t =>
    obtain ⟨m, hm, _, rfl⟩ := ecs_remove_ok h
    intro i hic hdead
    have hdead' : flag_of s i &&& ENTITY_FLAG_ALIVE = 0 := hdead
    have h0 := hd i hic hdead'
    rw [mask_of_set_mask s.entity_store.mask_array e i _ _ _ _ _ rfl]
    split
    · rename_i hc
      obtain ⟨rfl, _⟩ := hc
      have : m = 0 := by
        have := h0
        simp only [mask_of, List.getD_eq_getElem?_getD, hm, Option.getD_some] at this
        exact this
      rw [this]
      exact Nat.zero_and _
    · exact h0
  | has e t =>
    simp only [step] at h
    split at h
    · cases h; exact hd
    · cases h
    · cases h
  | kill e =>
    obtain ⟨f, hf, ⟨_, rfl⟩ | ⟨_, hlm, rfl⟩⟩ := ecs_kill_ok h
    · exact hd
    · intro i hic hdead
      rw [mask_of_set_mask s.entity_store.mask_array e i _ _ _ _ _ rfl]
      split
      · rfl
      · rename_i hne
        have hne' : ¬ e = i := fun hc => hne ⟨hc, hlm⟩
        rw [flag_of_set_flag s e i _ _ _ _ _ rfl, if_neg (fun hc => hne' hc.1)] at hdead
        exact hd i hic hdead
  | query types =>
    obtain ⟨_, _, hes, _⟩ := ecs_query_frame h
    intro i hic hdead
    have h1 : flag_of s' i = flag_of s i := by simp only [flag_of, hes]
    have h2 : mask_of s' i = mask_of s i := by simp only [mask_of, hes]
    rw [h2]
    exact hd i (by rw [← hes]; exact hic) (by rw [← h1]; exact hdead)

set_option maxRecDepth 1000000 in
/-- C11, refuted as stated.  After `ecs_init(2, 4, 8)`, `ecs_create()`, `ecs_kill(0)` and
`ecs_add(0, 0, ...)`, all made on the issued id 0 and the registered type 0, the state is
reachable, id 0 is issued, its alive flag is clear, and its mask is 1. -/
theorem C11_dead_id_with_component :
    Reachable demo_dead_added ∧ 0 < demo_dead_added.entity_store.count ∧
      flag_of demo_dead_added 0 &&& ENTITY_FLAG_ALIVE = 0 ∧ mask_of demo_dead_added 0 = 1 ∧
      ¬ dead_masks_empty demo_dead_added :=
  ⟨run_reachable (run_ops_run [.create demo_alloc, .kill 0, .add 0 0 [1, 2, 3, 4]]
      demo_init demo_dead_added rfl) demo_init_reachable,
    by decide, by decide, by decide,
    fun h => absurd (h 0 (by decide) (by decide)) (by decide)⟩

/-- C11, amended.  In every state reached from `ecs_init` by create, get, add,
remove, has, kill and query calls on issued ids and registered types, in which
`ecs_add` is only made on alive entities, every issued id whose alive flag is
clear has an empty mask. -/
theorem C11_dead_ids_have_empty_mask (s : state_t) (h : ReachableLive s) :
    dead_masks_empty s := by
  induction h with
  | init sizes junk s h =>
    intro e he
    have := (Inv_init h).count_le
    unfold ecs_init at h
    split at h
    · cases h; exact absurd he (Nat.not_lt_zero _)
    · cases h
  | step s op s' hr hv hl h ih =>
    exact dead_masks_step (reachable_inv (reachable_of_live hr)) ih hv hl h

theorem run_live_reachable : ∀ (ops : List Op) (s s' : state_t), ReachableLive s →
    run_live s ops = .ok s' → ReachableLive s' := by
  intro ops
  induction ops with
  | nil => intro s s' hr h; simp [run_live] at h; subst h; exact hr
  | cons op ops ih =>
    intro s s' hr h
    unfold run_live at h
    split at h
    · rename_i hv
      split at h
      · rename_i s1 hs
        exact ih s1 s' (ReachableLive.step s op s1 hr hv.1 hv.2 hs) h
      · cases h
      · cases h
    · cases h

set_option maxRecDepth 1000000 in
theorem C11_dead_ids_have_empty_mask_witness :
    1 < demo_live_killed.entity_store.count ∧ ¬ alive demo_live_killed 1 ∧
      mask_of demo_live_killed 1 = 0 :=
  ⟨by decide, by decide,
    C11_dead_ids_have_empty_mask demo_live_killed
      (run_live_reachable demo_live_ops demo_init demo_live_killed
        (ReachableLive.init [4, 8] demo_junk demo_init rfl) rfl)
      1 (by decide) (by decide)⟩

/-! ## Ids in creation order -/

theorem run_created_cons_create {s s2 : state_t} {a : Alloc} {ops : List Op} {ids : List Nat}
    (h : run_created s (.create a :: ops) = .ok (s2, ids)) :
    ∃ s1 id rest, ecs_create s a = .ok (s1, id) ∧ run_created s1 ops = .ok (s2, rest) ∧
      ids = id :: rest := by
  simp only [run_created] at h
  split at h
  · rename_i s1 id hc
    split at h
    · rename_i s2' ids' hr
      cases h
      exact ⟨s1, id, ids', hc, hr, rfl⟩
    · cases h
    · cases h
  · cases h
  · cases h

theorem run_created_cons_other {s s2 : state_t} {op : Op} {ops : List Op} {ids : List Nat}
    (hc : op.is_create = false) (h : run_created s (op :: ops) = .ok (s2, ids)) :
    ∃ s1, op.valid s ∧ step s op = .ok s1 ∧ run_created s1 ops = .ok (s2, ids) := by
  cases op with
  | create a => simp [Op.is_create] at hc
  | get e t | add e t p | remove e t | has e t | kill e | query types =>
    simp only [run_created] at h
    split at h
    · rename_i hv
      split at h
      · rename_i s1 hs
        exact ⟨s1, hv, hs, h⟩
      · cases h
      · cases h
    · cases h

theorem step_create_of {s s1 : state_t} {a : Alloc} {id : Nat}
    (h : ecs_create s a = .ok (s1, id)) : step s (.create a) = .ok s1 := by
  simp [step, h]

/-- A run that collects the created ids is a run. -/
theorem run_created_run : ∀ (ops : List Op) (s s' : state_t) (ids : List Nat),
    run_created s ops = .ok (s', ids) → Run s ops s' := by
  intro ops
  induction ops with
  | nil =>
    intro s s' ids h
    simp only [run_created] at h
    cases h
    exact Run.nil s
  | cons op ops ih =>
    intro s s' ids h
    by_cases hc : op.is_create = true
    · cases op with
      | create a =>
        obtain ⟨s1, id, rest, h1, h2, _⟩ := run_created_cons_create h
        exact Run.cons s _ s1 ops s' trivial (step_create_of h1) (ih s1 s' rest h2)
      | get e t | add e t p | remove e t | has e t | kill e | query types =>
        simp [Op.is_create] at hc
    · obtain ⟨s1, hv, hs, h2⟩ := run_created_cons_other (by simpa using hc) h
      exact Run.cons s op s1 ops s' hv hs (ih s1 s' ids h2)

/-- A call that is neither create nor kill leaves the pool and the entity count. -/
theorem step_other_pool {s s' : state_t} {op : Op} (hc : op.is_create = false)
    (hk : op.is_kill = false) (h : step s op = .ok s') :
    s'.entity_pool = s.entity_pool ∧ s'.entity_store.count = s.entity_store.count := by
  cases op with
  | create a => simp [Op.is_create] at hc
  | kill e => simp [Op.is_kill] at hk
  | get e t =>
    simp only [step] at h
    split at h
    · cases h; exact ⟨rfl, rfl⟩
    · cases h
    · cases h
  | has e t =>
    simp only [step] at h
    split at h
    · cases h; exact ⟨rfl, rfl⟩
    · cases h
    · cases h
  | add e t p =>
    obtain ⟨_, _, _, _, _, _, _, _, _, rfl⟩ := ecs_add_ok h
    exact ⟨rfl, rfl⟩
  | remove e t =>
    obtain ⟨_, _, _, rfl⟩ := ecs_remove_ok h
    exact ⟨rfl, rfl⟩
  | query types =>
    obtain ⟨_, _, hes, hp⟩ := ecs_query_frame h
    exact ⟨hp, by rw [hes]⟩

/-- With an empty pool and no kill, the creates of a run return the ids from the
entity count on, one after the other. -/
theorem run_created_ids : ∀ (ops : List Op) (s s' : state_t) (ids : List Nat), Inv s →
    s.entity_pool = [] → (∀ op ∈ ops, op.is_kill = false) →
    run_created s ops = .ok (s', ids) →
    ids = List.range' s.entity_store.count (ops.countP Op.is_create) ∧
      s'.entity_pool = [] ∧
      s'.entity_store.count = s.entity_store.count + ops.countP Op.is_create := by
  intro ops
  induction ops with
  | nil =>
    intro s s' ids _ hp _ h
    simp only [run_created] at h
    cases h
    simp [hp]
  | cons op ops ih =>
    intro s s' ids hi hp hk h
    have hk' : ∀ o ∈ ops, o.is_kill = false := fun o ho => hk o (List.mem_cons_of_mem _ ho)
    by_cases hc : op.is_create = true
    · cases op with
      | create a =>
        obtain ⟨s1, id, rest, h1, h2, rfl⟩ := run_created_cons_create h
        obtain ⟨_, hfr⟩ := ecs_create_frame hi h1
        rcases hfr with ⟨hne, _⟩ | ⟨_, hid, hcount⟩
        · exact absurd hp hne
        · have hp1 : s1.entity_pool = [] := by
            rcases ecs_create_ok h1 with ⟨r, hpr, _⟩ | ⟨_, _, _, hiss⟩ | ⟨_, _, _, s2, hg, hiss⟩
            · rw [hp] at hpr; cases hpr
            · obtain ⟨_, _, _, rfl⟩ := issue_ok hiss
              exact hp
            · obtain ⟨_, _, _, rfl⟩ := issue_ok hiss
              obtain ⟨_, _, _, _, _, _, rfl⟩ := grow_ok hg
              exact hp
          obtain ⟨hids, hp2, hc2⟩ := ih s1 s' rest (Inv_create hi h1) hp1 hk' h2
          refine ⟨?_, hp2, ?_⟩
          · rw [hids, hcount, hid]
            simp [List.countP_cons, Op.is_create, List.range'_succ]
          · rw [hc2, hcount]
            simp [List.countP_cons, Op.is_create]
            omega
      | get e t | add e t p | remove e t | has e t | kill e | query types =>
        simp [Op.is_create] at hc
    · have hc' : op.is_create = false := by simpa using hc
      obtain ⟨s1, hv, hs, h2⟩ := run_created_cons_other hc' h
      obtain ⟨hp1, hc1⟩ := step_other_pool hc' (hk op (List.mem_cons_self _ _)) hs
      obtain ⟨hids, hp2, hc2⟩ := ih s1 s' ids (Inv_step hi hv hs) (by rw [hp1]; exact hp) hk' h2
      refine ⟨?_, hp2, ?_⟩
      · rw [hids, hc1]; simp [List.countP_cons, hc']
      · rw [hc2, hc1]; simp [List.countP_cons, hc']

theorem init_pool_count {sizes : List Nat} {junk : Junk} {s : state_t}
    (h : ecs_init sizes junk = .ok s) :
    s.entity_pool = [] ∧ s.entity_store.count = 0 ∧ s.entity_store.cap = INITIAL_CAPACITY ∧
      s.component_store.cap = INITIAL_CAPACITY ∧ s.query_result.list = [] ∧
      s.query_result.cap = 0 := by
  unfold ecs_init at h
  split at h
  · cases h; exact ⟨rfl, rfl, rfl, rfl, rfl, rfl⟩
  · cases h

/-- With an empty pool, `ecs_create` returns the entity count when the tested
`realloc` calls succeed and the count is below `2^31`. -/
theorem ecs_create_fresh_total {s : state_t} (hi : Inv s) (hp : s.entity_pool = []) (a : Alloc)
    (ha : a.tested_ok) (hc : s.entity_store.count < 2147483648) :
    ∃ s', ecs_create s a = .ok (s', s.entity_store.count) := by
  by_cases hlt : s.entity_store.count < s.entity_store.cap
  · obtain ⟨s', id, h⟩ := ecs_create_total hi a (Or.inr hlt)
    obtain ⟨_, hfr⟩ := ecs_create_frame hi h
    rcases hfr with ⟨hne, _⟩ | ⟨_, hid, _⟩
    · exact absurd hp hne
    · exact ⟨s', by rw [← hid]; exact h⟩
  · have hcap : s.entity_store.count = s.entity_store.cap :=
      Nat.le_antisymm hi.count_le (Nat.le_of_not_lt hlt)
    exact ecs_create_grow_total hp hcap (Nat.lt_of_lt_of_le (by decide) hi.cap_ge) ha
      (by rw [← hcap]; unfold U32; omega)

theorem run_created_creates_total : ∀ (allocs : List Alloc) (s : state_t), Inv s →
    s.entity_pool = [] → (∀ a ∈ allocs, a.tested_ok) →
    s.entity_store.count + allocs.length ≤ 2147483648 →
    ∃ s', run_created s (allocs.map Op.create) =
      .ok (s', List.range' s.entity_store.count allocs.length) := by
  intro allocs
  induction allocs with
  | nil => intro s _ _ _ _; exact ⟨s, rfl⟩
  | cons a allocs ih =>
    intro s hi hp ha hn
    simp only [List.length_cons] at hn
    obtain ⟨s1, h1⟩ := ecs_create_fresh_total hi hp a (ha a (List.mem_cons_self _ _)) (by omega)
    obtain ⟨_, hfr⟩ := ecs_create_frame hi h1
    have hcount : s1.entity_store.count = s.entity_store.count + 1 := by
      rcases hfr with ⟨hne, _⟩ | ⟨_, _, hcount⟩
      · exact absurd hp hne
      · exact hcount
    have hrun1 : run_created s [.create a] = .ok (s1, [s.entity_store.count]) := by
      simp [run_created, h1]
    have hp1 := (run_created_ids [.create a] s s1 _ hi hp
      (by intro op hop; simp at hop; subst hop; rfl) hrun1).2.1
    obtain ⟨s2, h2⟩ := ih s1 (Inv_create hi h1) hp1
      (fun b hb => ha b (List.mem_cons_of_mem _ hb)) (by omega)
    refine ⟨s2, ?_⟩
    simp only [List.map_cons, run_created, h1, h2, hcount, List.length_cons, List.range'_succ]

/-- At `2^31` issued ids and an empty pool the entity store is full and its
capacity cannot be doubled in 32 bits: no `ecs_create` returns. -/
theorem ecs_create_at_limit {s : state_t} (hi : Inv s) (hp : s.entity_pool = [])
    (hc : s.entity_store.count = 2147483648) (a : Alloc) :
    s.entity_store.cap = 2147483648 ∧ (a.tested_ok → ecs_create s a = .undefined) ∧
      (¬ a.tested_ok → ecs_create s a = .fatal) := by
  have hcap : s.entity_store.cap = 2147483648 := by
    have h1 := hi.count_le
    have h2 := hi.cap_lt
    unfold U32 at h2
    rcases hi.cap_min with h | h
    · rw [h] at h1; unfold INITIAL_CAPACITY at h1; omega
    · obtain ⟨k, hk⟩ := hi.cap_pow
      unfold INITIAL_CAPACITY at hk
      have hk26 : k ≤ 26 := by
        by_contra hcon
        have : 2 ^ 27 ≤ 2 ^ k := Nat.pow_le_pow_right (by decide) (by omega)
        omega
      have hk26' : 26 ≤ k := by
        by_contra hcon
        have : 2 ^ k ≤ 2 ^ 25 := Nat.pow_le_pow_right (by decide) (by omega)
        omega
      have : k = 26 := by omega
      rw [hk, this]
      decide
  have hnp : ¬ as_count s.entity_pool > 0 := by simp [hp, as_count]
  have hgrow : s.entity_store.cap = s.entity_store.count := by rw [hcap, hc]
  refine ⟨hcap, ?_, ?_⟩
  · intro ha
    obtain ⟨hf, hm, hd⟩ := ha
    obtain ⟨jf, hjf⟩ := Option.isSome_iff_exists.mp hf
    obtain ⟨jm, hjm⟩ := Option.isSome_iff_exists.mp hm
    obtain ⟨jd, hjd⟩ := Option.isSome_iff_exists.mp hd
    unfold ecs_create
    rw [if_neg hnp]
    simp only
    rw [if_pos hgrow]
    simp only [grow, hjf, hjm, hjd, issue, realloc_length, hcap]
    simp [U32]
  · intro ha
    unfold ecs_create
    rw [if_neg hnp]
    simp only
    rw [if_pos hgrow]
    unfold grow
    simp only
    unfold Alloc.tested_ok at ha
    cases hf : a.flag with
    | none => rfl
    | some jf =>
      cases hm : a.mask with
      | none => rfl
      | some jm =>
        cases hd : a.data with
        | none => rfl
        | some jd => exact absurd ⟨by simp [hf], by simp [hm], by simp [hd]⟩ ha

theorem run_created_snoc_create {s s2 : state_t} {a : Alloc} : ∀ (ops : List Op) {ids : List Nat},
    run_created s (ops ++ [.create a]) = .ok (s2, ids) →
    ∃ s1 ids1 id, run_created s ops = .ok (s1, ids1) ∧ ecs_create s1 a = .ok (s2, id) := by
  intro ops
  induction ops generalizing s with
  | nil =>
    intro ids h
    obtain ⟨s1, id, rest, h1, h2, _⟩ := run_created_cons_create h
    simp only [run_created] at h2
    cases h2
    exact ⟨s, [], id, rfl, h1⟩
  | cons op ops ih =>
    intro ids h
    rw [List.cons_append] at h
    by_cases hc : op.is_create = true
    · cases op with
      | create b =>
        obtain ⟨s1, id, rest, h1, h2, _⟩ := run_created_cons_create h
        obtain ⟨s3, ids3, id3, h3, h4⟩ := ih h2
        exact ⟨s3, id :: ids3, id3, by simp [run_created, h1, h3], h4⟩
      | get e t | add e t p | remove e t | has e t | kill e | query types =>
        simp [Op.is_create] at hc
    · have hc' : op.is_create = false := by simpa using hc
      obtain ⟨s1, hv, hs, h2⟩ := run_created_cons_other hc' h
      obtain ⟨s3, ids3, id3, h3, h4⟩ := ih h2
      refine ⟨s3, ids3, id3, ?_, h4⟩
      cases op with
      | create b => simp [Op.is_create] at hc'
      | get e t | add e t p | remove e t | has e t | kill e | query types =>
        simp only [run_created]
        rw [if_pos hv, hs]
        exact h3

/-- From a fresh registry the call of `ecs_create` number `2^31 + 1` does not
return, whatever the allocator does. -/
theorem creates_beyond_limit {sizes : List Nat} {junk : Junk} {s0 : state_t}
    (h0 : ecs_init sizes junk = .ok s0) (allocs : List Alloc) (hn : allocs.length = 2147483648)
    (a : Alloc) (s : state_t) (ids : List Nat) :
    run_created s0 ((allocs ++ [a]).map Op.create) ≠ .ok (s, ids) := by
  intro h
  rw [List.map_append, List.map_cons, List.map_nil] at h
  obtain ⟨s1, ids1, id, h1, h2⟩ := run_created_snoc_create _ h
  obtain ⟨hp0, hc0, _⟩ := init_pool_count h0
  obtain ⟨_, hp1, hc1⟩ := run_created_ids _ s0 s1 ids1 (Inv_init h0) hp0
    (by intro op hop; simp only [List.mem_map] at hop; obtain ⟨b, _, rfl⟩ := hop; rfl) h1
  have hcnt : (allocs.map Op.create).countP Op.is_create = allocs.length := by
    rw [List.countP_eq_length.mpr, List.length_map]
    intro op hop
    simp only [List.mem_map] at hop
    obtain ⟨b, _, rfl⟩ := hop
    rfl
  rw [hcnt, hc0, hn] at hc1
  have hi1 := run_inv (run_created_run _ _ _ _ h1) (Inv_init h0)
  obtain ⟨_, hu, hf⟩ := ecs_create_at_limit hi1 hp1 (by omega) a
  by_cases ha : a.tested_ok
  · rw [hu ha] at h2; cases h2
  · rw [hf ha] at h2; cases h2

/-- C12, refuted as stated for `n = 2^31 + 1`.  From the registry of
`ecs_init(2, 4, 8)` and with every `realloc` succeeding, the first `2^31` calls of
`ecs_create()` return `0 .. 2^31 - 1` and fill the capacity `2^31`; doubling it
overflows `uint32_t`, the next call writes outside the blocks, and `2^31 + 1`
calls never return their ids. -/
theorem C12_ids_stop_at_2_31 :
    ∃ s, run_created demo_init ((List.replicate 2147483648 demo_alloc).map Op.create) =
        .ok (s, List.range 2147483648) ∧
      s.entity_store.count = 2147483648 ∧ s.entity_store.cap = 2147483648 ∧
      ecs_create s demo_alloc = .undefined ∧
      ∀ s' ids, run_created demo_init
        ((List.replicate 2147483648 demo_alloc ++ [demo_alloc]).map Op.create) ≠ .ok (s', ids) := by
  have h0 : ecs_init [4, 8] demo_junk = .ok demo_init := rfl
  obtain ⟨hp0, hc0, _⟩ := init_pool_count h0
  have hgood : ∀ a ∈ List.replicate 2147483648 demo_alloc, a.tested_ok := by
    intro a ha
    rw [List.eq_of_mem_replicate ha]
    exact ⟨rfl, rfl, rfl⟩
  obtain ⟨s, hs⟩ := run_created_creates_total (List.replicate 2147483648 demo_alloc) demo_init
    (Inv_init h0) hp0 hgood (by rw [hc0, List.length_replicate])
  rw [hc0, List.length_replicate, ← List.range_eq_range'] at hs
  obtain ⟨_, hp1, hc1⟩ := run_created_ids _ demo_init s _ (Inv_init h0) hp0
    (by intro op hop; simp only [List.mem_map] at hop; obtain ⟨b, _, rfl⟩ := hop; rfl) hs
  have hcnt : ((List.replicate 2147483648 demo_alloc).map Op.create).countP Op.is_create =
      2147483648 := by
    rw [List.countP_eq_length.mpr, List.length_map, List.length_replicate]
    intro op hop
    simp only [List.mem_map] at hop
    obtain ⟨b, _, rfl⟩ := hop
    rfl
  rw [hcnt, hc0] at hc1
  have hi1 := run_inv (run_created_run _ _ _ _ hs) (Inv_init h0)
  obtain ⟨hcap, hu, _⟩ := ecs_create_at_limit hi1 hp1 (by omega) demo_alloc
  exact ⟨s, hs, by omega, hcap, hu ⟨rfl, rfl, rfl⟩,
    creates_beyond_limit h0 _ (List.length_replicate _ _) demo_alloc⟩

/-- C12, amended.  From a freshly initialised registry and in a run without
`ecs_kill`, the calls of `ecs_create()` that return hand out `0, 1, ..., n-1` in
that order, `n` being their number; and `n` calls in a row do all return when
`n` is at most `2^31` and the `realloc` calls that `ecs_create` tests succeed,
across every growth of the capacity. -/
theorem C12_sequential_ids (sizes : List Nat) (junk : Junk) (s0 : state_t)
    (h0 : ecs_init sizes junk = .ok s0) :
    (∀ (ops : List Op) (s : state_t) (ids : List Nat), (∀ op ∈ ops, op.is_kill = false) →
      run_created s0 ops = .ok (s, ids) → ids = List.range (ops.countP Op.is_create)) ∧
    (∀ allocs : List Alloc, (∀ a ∈ allocs, a.tested_ok) → allocs.length ≤ 2147483648 →
      ∃ s, run_created s0 (allocs.map Op.create) = .ok (s, List.range allocs.length)) := by
  obtain ⟨hp0, hc0, _⟩ := init_pool_count h0
  constructor
  · intro ops s ids hk h
    have := (run_created_ids ops s0 s ids (Inv_init h0) hp0 hk h).1
    rw [hc0, ← List.range_eq_range'] at this
    exact this
  · intro allocs ha hn
    obtain ⟨s, hs⟩ := run_created_creates_total allocs s0 (Inv_init h0) hp0 ha
      (by rw [hc0]; omega)
    rw [hc0, ← List.range_eq_range'] at hs
    exact ⟨s, hs⟩

set_option maxRecDepth 1000000 in
theorem C12_sequential_ids_witness :
    ((run_created demo_init ((List.replicate 40 demo_alloc).map Op.create)).get
      (state0, [])).2 = List.range 40 ∧
    (∃ s, run_created demo_init ((List.replicate 40 demo_alloc).map Op.create) =
      .ok (s, List.range 40)) ∧
    ∀ s ids, run_created demo_init
        [.create demo_alloc, .add 0 0 [1, 2, 3, 4], .create demo_alloc, .has 1 1] = .ok (s, ids) →
      ids = [0, 1] :=
  ⟨rfl,
    (C12_sequential_ids [4, 8] demo_junk demo_init rfl).2 (List.replicate 40 demo_alloc)
      (by intro a ha; rw [List.eq_of_mem_replicate ha]; exact ⟨rfl, rfl, rfl⟩) (by decide),
    fun s ids h => (C12_sequential_ids [4, 8] demo_junk demo_init rfl).1 _ s ids
      (by decide) h⟩

/-! ## The result list and the growth of the blocks -/

set_option maxRecDepth 1000000 in
/-- C13, at the failing input.  `ecs_init(2, 4, 8)` returns, `ecs_create()` returns
id 0 and both `ecs_add` calls return; `ecs_query(2, 0, 1)` then stores through
the null result list and is undefined, where the scenario expects `[0]`.  After
`ecs_remove(0, 0)` the query for `{0, 1}` matches nothing and returns the empty
list, and the query for `{1}` is undefined again, where the scenario expects
`[0]`.  Once a growth has allocated the list the three queries return `[0]`,
`[]` and `[0]`. -/
theorem C13_scenario_queries_undefined :
    ecs_init [4, 8] demo_junk = .ok demo_init ∧
    (∃ s1, ecs_create demo_init demo_alloc = .ok (s1, 0) ∧
      ∃ s2, ecs_add s1 0 0 [1, 2, 3, 4] = .ok s2 ∧
        ecs_add s2 0 1 [5, 6, 7, 8, 9, 10, 11, 12] = .ok demo_added) ∧
    ecs_query demo_added [0, 1] = .undefined ∧
    ecs_remove demo_added 0 0 = .ok demo_removed ∧
    result_ids ((ecs_query demo_removed [0, 1]).get state0).query_result = [] ∧
    (∃ s, ecs_query demo_removed [0, 1] = .ok s) ∧
    ecs_query demo_removed [1] = .undefined ∧
    (∃ s, ecs_query demo_grown [0, 1] = .ok s ∧ result_ids s.query_result = [0]) ∧
    ecs_remove demo_grown 0 0 = .ok demo_grown_removed ∧
    (∃ s, ecs_query demo_grown_removed [0, 1] = .ok s ∧ result_ids s.query_result = []) ∧
    (∃ s, ecs_query demo_grown_removed [1] = .ok s ∧ result_ids s.query_result = [0]) :=
  ⟨rfl, ⟨_, rfl, _, rfl, rfl⟩, rfl, rfl, rfl, ⟨_, rfl⟩, rfl, ⟨_, rfl, rfl⟩, rfl,
    ⟨_, rfl, rfl⟩, ⟨_, rfl, rfl⟩⟩

/-- No call writes the `cap` field of the query result: it is 0 in every
reachable state. -/
theorem reachable_query_cap {s : state_t} (h : Reachable s) : s.query_result.cap = 0 := by
  induction h with
  | init sizes junk s h => exact (init_pool_count h).2.2.2.2.2
  | step s op s' _ hv h ih =>
    cases op with
    | create a =>
      simp only [step] at h
      split at h
      · rename_i r hr
        cases h
        have hcr : ecs_create s a = .ok (r.1, r.2) := hr
        rcases ecs_create_ok hcr with ⟨rest, _, h1⟩ | ⟨_, _, _, h1⟩ | ⟨_, _, _, s2, hg, h1⟩
        · obtain ⟨_, _, _, hs⟩ := issue_ok h1
          rw [hs]; exact ih
        · obtain ⟨_, _, _, hs⟩ := issue_ok h1
          rw [hs]; exact ih
        · obtain ⟨_, _, _, hs⟩ := issue_ok h1
          obtain ⟨_, _, _, _, _, _, rfl⟩ := grow_ok hg
          rw [hs]; exact ih
      · cases h
      · cases h
    | get e t =>
      simp only [step] at h
      split at h
      · cases h; exact ih
      · cases h
      · cases h
    | has e t =>
      simp only [step] at h
      split at h
      · cases h; exact ih
      · cases h
      · cases h
    | add e t p =>
      obtain ⟨_, _, _, _, _, _, _, _, _, rfl⟩ := ecs_add_ok h
      exact ih
    | remove e t =>
      obtain ⟨_, _, _, rfl⟩ := ecs_remove_ok h
      exact ih
    | kill e =>
      obtain ⟨f, _, ⟨_, rfl⟩ | ⟨_, _, rfl⟩⟩ := ecs_kill_ok h
      · exact ih
      · exact ih
    | query types =>
      obtain ⟨mask, qr, _, hq, rfl⟩ := ecs_query_ok h
      have := (query_loop_length _ _ _ hq).2
      exact this.trans ih

set_option maxRecDepth 1000000 in
/-- C15, at the failing input.  Directly after `ecs_init(2, 4, 8)` the entity store
has capacity 32 while the query result list is the null pointer, with no slot,
and its `cap` field is 0; a query that entity 0 matches then writes out of
bounds.  After the first growth the list has the 64 slots of the store, but the
`cap` field is still 0. -/
theorem C15_result_buffer_not_allocated :
    ecs_init [4, 8] demo_junk = .ok demo_init ∧
    demo_init.entity_store.cap = 32 ∧ demo_init.query_result.list.length = 0 ∧
    demo_init.query_result.cap = 0 ∧
    Reachable demo_added ∧ ecs_query demo_added [0] = .undefined ∧
    Reachable demo_grown ∧ demo_grown.entity_store.cap = 64 ∧
    demo_grown.query_result.list.length = 64 ∧ demo_grown.query_result.cap = 0 :=
  ⟨rfl, rfl, rfl, rfl, demo_added_reachable, rfl, demo_grown_reachable, rfl, rfl, rfl⟩

/-- The growth branch of `ecs_create` is fatal when one of the three `realloc`
calls it tests fails. -/
theorem ecs_create_grow_fatal {s : state_t} {a : Alloc} (hp : s.entity_pool = [])
    (hcap : s.entity_store.count = s.entity_store.cap) (ha : ¬ a.tested_ok) :
    ecs_create s a = .fatal := by
  unfold ecs_create
  rw [if_neg (by simp [hp, as_count])]
  simp only
  rw [if_pos hcap.symm]
  unfold grow
  simp only
  unfold Alloc.tested_ok at ha
  cases hf : a.flag with
  | none => rfl
  | some jf =>
    cases hm : a.mask with
    | none => rfl
    | some jm =>
      cases hd : a.data with
      | none => rfl
      | some jd => exact absurd ⟨by simp [hf], by simp [hm], by simp [hd]⟩ ha

set_option maxRecDepth 1000000 in
/-- C17, at the failing input.  With 32 entities and capacity 32, a call of
`ecs_create()` has to grow; when the `realloc` of the query result list fails
and the three others succeed, the call is not fatal: it returns id 32 and goes
on with the doubled mask, flag and data blocks and a null result list.  When one
of the three other calls fails the call is fatal. -/
theorem C17_growth_goes_on_without_result_list :
    Reachable demo_full ∧ demo_full.entity_pool = [] ∧
    demo_full.entity_store.count = demo_full.entity_store.cap ∧
    demo_alloc_no_list.list = none ∧
    (∃ s, ecs_create demo_full demo_alloc_no_list = .ok (s, 32) ∧
      s.entity_store.cap = 64 ∧ s.entity_store.mask_array.length = 64 ∧
      s.entity_store.flag_array.length = 64 ∧ s.component_store.data.length = 64 * 12 ∧
      s.query_result.list = []) ∧
    (∀ a : Alloc, ¬ a.tested_ok → ecs_create demo_full a = .fatal) :=
  ⟨demo_full_reachable, rfl, rfl, rfl, ⟨_, rfl, rfl, rfl, rfl, rfl, rfl⟩,
    fun _ ha => ecs_create_grow_fatal rfl rfl ha⟩

/-! ## The layout computed by ecs_init -/

/-- C14, refuted as stated.  The call `ecs_init(2, (size_t)-4, 8)` returns with
the offsets 0 and `2^64 - 4` and with the stride 4: the sum of the sizes is
taken in `size_t` and wraps, so the stride is not the sum `2^64 + 4` of the two
sizes.  There `ecs_get(1, 1)` is the address at offset 0 from the base of the
data block, not at `1 * stride + offset[1]`. -/
theorem C14_stride_wraps :
    ecs_init [18446744073709551612, 8] demo_junk = .ok demo_wrap ∧
    demo_wrap.component_store.type_count = 2 ∧
    demo_wrap.component_store.data_size_array = [18446744073709551612, 8] ∧
    demo_wrap.component_store.data_offset_array = [0, 18446744073709551612] ∧
    demo_wrap.component_store.size = 4 ∧
    demo_wrap.component_store.size ≠ [18446744073709551612, 8].sum ∧
    ecs_get demo_wrap 1 1 = .ok 0 ∧
    ecs_get demo_wrap 1 1 ≠ .ok (1 * demo_wrap.component_store.size + 18446744073709551612) :=
  ⟨rfl, rfl, rfl, rfl, rfl, by decide, rfl, by decide⟩

/-- C14, amended.  A call `ecs_init(n, s_0, ..., s_{n-1})` with `n <= 32` and
with the sum of the sizes below `2^64` returns a state with `type_count = n`,
the sizes stored as passed, `offset[0] = 0`, `offset[i] = offset[i-1] + s_{i-1}`
for `0 < i < n`, so that `offset[i]` is the sum of `s_0 .. s_{i-1}`, and the
stride the sum of all sizes; and `ecs_get(e, t)` is the address at offset
`e * stride + offset[t]` from the base of the data block whenever that offset
is below `2^64`. -/
theorem C14_init_layout (sizes : List Nat) (junk : Junk) (hn : sizes.length ≤ 32)
    (hsum : sizes.sum < U64) :
    ∃ s, ecs_init sizes junk = .ok s ∧
      s.component_store.type_count = sizes.length ∧
      s.component_store.data_size_array = sizes ∧
      s.component_store.data_offset_array.length = sizes.length ∧
      (0 < sizes.length → s.component_store.data_offset_array[0]? = some 0) ∧
      (∀ i, 0 < i → i < sizes.length → ∃ o sz,
        s.component_store.data_offset_array[i - 1]? = some o ∧ sizes[i - 1]? = some sz ∧
        s.component_store.data_offset_array[i]? = some (o + sz)) ∧
      (∀ i, i < sizes.length →
        s.component_store.data_offset_array[i]? = some ((sizes.take i).sum)) ∧
      s.component_store.size = sizes.sum ∧
      ∀ e t, t < sizes.length →
        ∃ off, s.component_store.data_offset_array[t]? = some off ∧
          (e * s.component_store.size + off < U64 →
            ecs_get s e t = .ok (e * s.component_store.size + off)) := by
  obtain ⟨h1, h3⟩ := init_loop_spec sizes [] 0 (by omega)
  have h2 := init_loop_length sizes [] 0
  simp only [List.length_nil, Nat.zero_add] at h1 h2 h3
  have hoff : ∀ i, i < sizes.length → (init_loop sizes [] 0).1[i]? = some ((sizes.take i).sum) :=
    fun i hi => h3 i hi
  unfold ecs_init
  rw [if_pos hn]
  refine ⟨_, rfl, rfl, rfl, h2, ?_, ?_, hoff, h1, ?_⟩
  · intro h0
    have := hoff 0 h0
    simpa using this
  · intro i hi0 hin
    have hlt : i - 1 < sizes.length := by omega
    refine ⟨(sizes.take (i - 1)).sum, sizes[i - 1], hoff (i - 1) hlt,
      List.getElem?_eq_getElem hlt, ?_⟩
    show (init_loop sizes [] 0).1[i]? = _
    rw [hoff i hin, ← sum_take_succ_of_get sizes (List.getElem?_eq_getElem hlt)]
    congr 3
    omega
  · intro e t ht
    refine ⟨_, hoff t ht, fun hlt => ?_⟩
    refine (ecs_get_of (hoff t ht)).trans ?_
    rw [Nat.mod_eq_of_lt hlt]

theorem C14_init_layout_witness :
    ∃ s, ecs_init [4, 8, 2] demo_junk = .ok s ∧
      s.component_store.type_count = 3 ∧
      s.component_store.data_size_array = [4, 8, 2] ∧
      s.component_store.data_offset_array = [0, 4, 12] ∧
      s.component_store.size = 14 ∧
      ecs_get s 5 2 = .ok (5 * 14 + 12) ∧
      ∃ s', ecs_init [4, 8, 2] demo_junk = .ok s' ∧
        s'.component_store.type_count = [4, 8, 2].length ∧
        s'.component_store.data_size_array = [4, 8, 2] ∧
        s'.component_store.data_offset_array.length = [4, 8, 2].length ∧
        (0 < [4, 8, 2].length → s'.component_store.data_offset_array[0]? = some 0) ∧
        (∀ i, 0 < i → i < [4, 8, 2].length → ∃ o sz,
          s'.component_store.data_offset_array[i - 1]? = some o ∧ [4, 8, 2][i - 1]? = some sz ∧
          s'.component_store.data_offset_array[i]? = some (o + sz)) ∧
        (∀ i, i < [4, 8, 2].length →
          s'.component_store.data_offset_array[i]? = some (([4, 8, 2].take i).sum)) ∧
        s'.component_store.size = [4, 8, 2].sum ∧
        ∀ e t, t < [4, 8, 2].length →
          ∃ off, s'.component_store.data_offset_array[t]? = some off ∧
            (e * s'.component_store.size + off < U64 →
              ecs_get s' e t = .ok (e * s'.component_store.size + off)) :=
  ⟨_, rfl, rfl, rfl, rfl, rfl, rfl, C14_init_layout [4, 8, 2] demo_junk (by decide) (by decide)⟩

/-! ## The capacity -/

/-- The capacity is the least `32 * 2^k` that holds the entity count. -/
theorem cap_least {s : state_t} (hi : Inv s) :
    ∃ k, s.entity_store.cap = 32 * 2 ^ k ∧ s.entity_store.count ≤ 32 * 2 ^ k ∧
      ∀ j, s.entity_store.count ≤ 32 * 2 ^ j → k ≤ j := by
  obtain ⟨k, hk⟩ := hi.cap_pow
  unfold INITIAL_CAPACITY at hk
  refine ⟨k, hk, by rw [← hk]; exact hi.count_le, ?_⟩
  intro j hj
  by_contra hlt
  rcases hi.cap_min with h | h
  · unfold INITIAL_CAPACITY at h
    rw [hk] at h
    have hpos : 0 < k := by omega
    have : 2 ^ 1 ≤ 2 ^ k := Nat.pow_le_pow_right (by decide) hpos
    omega
  · obtain ⟨k', rfl⟩ : ∃ k', k = k' + 1 := ⟨k - 1, by omega⟩
    have hle : 2 ^ j ≤ 2 ^ k' := Nat.pow_le_pow_right (by decide) (by omega)
    rw [Nat.pow_succ] at hk
    omega

/-- C16.  `ecs_init` sets both capacities to 32.  In every reachable state the
capacity of the entity store and the capacity of the component store are equal,
and equal to `32 * 2^k` for the least `k` with `32 * 2^k` at least the entity
count.  A returning call leaves the capacities, except an `ecs_create` made
when the count has reached the capacity, which doubles them: the capacity never
shrinks and `ecs_kill` never changes it. -/
theorem C16_growth_policy (s : state_t) (hr : Reachable s) :
    (∀ sizes junk s0, ecs_init sizes junk = .ok s0 →
      s0.entity_store.cap = 32 ∧ s0.component_store.cap = 32) ∧
    s.component_store.cap = s.entity_store.cap ∧
    (∃ k, s.entity_store.cap = 32 * 2 ^ k ∧ s.entity_store.count ≤ 32 * 2 ^ k ∧
      ∀ j, s.entity_store.count ≤ 32 * 2 ^ j → k ≤ j) ∧
    (∀ op s', op.valid s → step s op = .ok s' →
      s'.component_store.cap = s'.entity_store.cap ∧
      s.entity_store.cap ≤ s'.entity_store.cap ∧
      (s'.entity_store.cap = s.entity_store.cap ∨
        (op.is_create = true ∧ s.entity_store.count = s.entity_store.cap ∧
          s'.entity_store.cap = 2 * s.entity_store.cap)) ∧
      (op.is_kill = true → s'.entity_store.cap = s.entity_store.cap)) := by
  have hi := reachable_inv hr
  refine ⟨?_, hi.ccap, cap_least hi, ?_⟩
  · intro sizes junk s0 h0
    obtain ⟨_, _, h1, h2, _⟩ := init_pool_count h0
    exact ⟨h1, h2⟩
  · intro op s' hv h
    have hi' := Inv_step hi hv h
    have hc := step_cap hi h
    refine ⟨hi'.ccap, ?_, hc, ?_⟩
    · rcases hc with h1 | ⟨_, _, h3⟩ <;> omega
    · intro hk
      rcases hc with h1 | ⟨h2, _, _⟩
      · exact h1
      · cases op <;> simp [Op.is_kill, Op.is_create] at hk h2

set_option maxRecDepth 1000000 in
theorem C16_growth_policy_witness :
    demo_full.entity_store.count = 32 ∧ demo_full.entity_store.cap = 32 * 2 ^ 0 ∧
    demo_grown.entity_store.count = 33 ∧ demo_grown.entity_store.cap = 32 * 2 ^ 1 ∧
    demo_grown.component_store.cap = 64 ∧ demo_killed.entity_store.cap = 64 ∧
    step demo_full (.create demo_alloc) = .ok demo_grown ∧
    (demo_grown.component_store.cap = demo_grown.entity_store.cap ∧
      ∃ k, demo_grown.entity_store.cap = 32 * 2 ^ k ∧ demo_grown.entity_store.count ≤ 32 * 2 ^ k ∧
        ∀ j, demo_grown.entity_store.count ≤ 32 * 2 ^ j → k ≤ j) ∧
    (demo_grown.entity_store.cap = demo_full.entity_store.cap ∨
      ((Op.create demo_alloc).is_create = true ∧
        demo_full.entity_store.count = demo_full.entity_store.cap ∧
        demo_grown.entity_store.cap = 2 * demo_full.entity_store.cap)) :=
  ⟨rfl, rfl, rfl, rfl, rfl, rfl, rfl,
    ⟨(C16_growth_policy demo_grown demo_grown_reachable).2.1,
      (C16_growth_policy demo_grown demo_grown_reachable).2.2.1⟩,
    ((C16_growth_policy demo_full demo_full_reachable).2.2.2 (.create demo_alloc) demo_grown
      trivial rfl).2.2.1⟩

/-! ## The id pool -/

theorem pool_mem_iff {s : state_t} (hi : Inv s) (i : Nat) :
    i ∈ s.entity_pool ↔ i < s.entity_store.count ∧ flag_of s i &&& ENTITY_FLAG_ALIVE = 0 :=
  ⟨fun h => hi.pool_dead i h, fun h => hi.pool_all i h.1 h.2⟩

theorem pool_perm_dead {s : state_t} (hi : Inv s) :
    s.entity_pool.Perm
      ((List.range s.entity_store.count).filter (fun i => !decide (alive s i))) := by
  apply (List.perm_ext_iff_of_nodup hi.pool_nodup ((List.nodup_range _).filter _)).mpr
  intro i
  rw [pool_mem_iff hi, List.mem_filter, List.mem_range]
  simp only [alive, Bool.not_eq_true', decide_eq_false_iff_not, not_and, not_not]
  constructor
  · exact fun h => ⟨h.1, fun _ => h.2⟩
  · exact fun h => ⟨h.1, h.2 h.1⟩

theorem live_count_eq {s : state_t} (hi : Inv s) :
    live_count s + s.entity_pool.length = s.entity_store.count := by
  have h1 := List.length_eq_length_filter_add (l := List.range s.entity_store.count)
    (fun i => decide (alive s i))
  rw [List.length_range] at h1
  rw [(pool_perm_dead hi).length_eq]
  unfold live_count
  omega

/-- C18.  In every reachable state the id pool has no duplicate and holds
exactly the ids below the entity count whose alive flag is clear; the number of
alive entities is the entity count minus the number of pooled ids; and
`ecs_create` pops only from a pool that holds an id, whose top it returns. -/
theorem C18_pool_invariant (s : state_t) (hr : Reachable s) :
    s.entity_pool.Nodup ∧
    (∀ i, i ∈ s.entity_pool ↔
      i < s.entity_store.count ∧ flag_of s i &&& ENTITY_FLAG_ALIVE = 0) ∧
    as_count s.entity_pool ≤ s.entity_store.count ∧
    live_count s = s.entity_store.count - as_count s.entity_pool ∧
    (∀ a, as_count s.entity_pool > 0 →
      ∃ id rest s', as_pop s.entity_pool = some (id, rest) ∧
        ecs_create s a = .ok (s', id) ∧ s'.entity_pool = rest) ∧
    (∀ a s' id, as_count s.entity_pool = 0 → ecs_create s a = .ok (s', id) →
      id = s.entity_store.count ∧ s'.entity_pool = []) := by
  have hi := reachable_inv hr
  have hl := live_count_eq hi
  refine ⟨hi.pool_nodup, pool_mem_iff hi, ?_, ?_, ?_, ?_⟩
  · unfold as_count; omega
  · unfold as_count; omega
  · intro a hpos
    cases hp : s.entity_pool with
    | nil => rw [hp] at hpos; simp [as_count] at hpos
    | cons x rest =>
      obtain ⟨s', id, h⟩ := ecs_create_total hi a (Or.inl (by rw [hp]; simp))
      rcases ecs_create_ok h with ⟨r, hpr, h1⟩ | ⟨hnil, _⟩ | ⟨hnil, _⟩
      · rw [hp] at hpr
        cases hpr
        obtain ⟨_, _, _, hs'⟩ := issue_ok h1
        exact ⟨x, rest, s', rfl, h, by rw [hs']⟩
      · rw [hp] at hnil; cases hnil
      · rw [hp] at hnil; cases hnil
  · intro a s' id h0 h
    have hnil : s.entity_pool = [] := List.eq_nil_of_length_eq_zero h0
    rcases ecs_create_ok h with ⟨r, hpr, _⟩ | ⟨_, hid, _, h1⟩ | ⟨_, hid, _, s2, hg, h1⟩
    · rw [hnil] at hpr; cases hpr
    · obtain ⟨_, _, _, hs'⟩ := issue_ok h1
      exact ⟨hid, by rw [hs']; exact hnil⟩
    · obtain ⟨_, _, _, hs'⟩ := issue_ok h1
      obtain ⟨_, _, _, _, _, _, rfl⟩ := grow_ok hg
      exact ⟨hid, by rw [hs']; exact hnil⟩

set_option maxRecDepth 1000000 in
theorem C18_pool_invariant_witness :
    demo_killed.entity_pool = [5, 7] ∧ demo_killed.entity_store.count = 33 ∧
    live_count demo_killed = 31 ∧ ¬ alive demo_killed 5 ∧ ¬ alive demo_killed 7 ∧
    demo_killed.entity_pool.Nodup ∧
    live_count demo_killed = demo_killed.entity_store.count - as_count demo_killed.entity_pool ∧
    ∃ id rest s', as_pop demo_killed.entity_pool = some (id, rest) ∧
      ecs_create demo_killed demo_alloc = .ok (s', id) ∧ s'.entity_pool = rest :=
  ⟨rfl, rfl, by decide, by decide, by decide,
    (C18_pool_invariant demo_killed demo_killed_reachable).1,
    (C18_pool_invariant demo_killed demo_killed_reachable).2.2.2.1,
    (C18_pool_invariant demo_killed demo_killed_reachable).2.2.2.2.1 demo_alloc (by decide)⟩

/-! ## Accesses in bounds -/

/-- A registry with `2^31` entities is reachable: with every `realloc`
succeeding, `2^31` calls of `ecs_create()` from `ecs_init(2, 4, 8)` return and
fill the capacity `2^31`, and the next call writes outside the blocks. -/
theorem limit_state :
    ∃ s, run_created demo_init ((List.replicate 2147483648 demo_alloc).map Op.create) =
        .ok (s, List.range 2147483648) ∧
      Reachable s ∧ s.entity_pool = [] ∧
      s.entity_store.count = 2147483648 ∧ s.entity_store.cap = 2147483648 ∧
      ecs_create s demo_alloc = .undefined := by
  have h0 : ecs_init [4, 8] demo_junk = .ok demo_init := rfl
  obtain ⟨hp0, hc0, _⟩ := init_pool_count h0
  have hgood : ∀ a ∈ List.replicate 2147483648 demo_alloc, a.tested_ok := by
    intro a ha
    rw [List.eq_of_mem_replicate ha]
    exact ⟨rfl, rfl, rfl⟩
  obtain ⟨s, hs⟩ := run_created_creates_total (List.replicate 2147483648 demo_alloc) demo_init
    (Inv_init h0) hp0 hgood (by rw [hc0, List.length_replicate])
  rw [hc0, List.length_replicate, ← List.range_eq_range'] at hs
  obtain ⟨_, hp1, hc1⟩ := run_created_ids _ demo_init s _ (Inv_init h0) hp0
    (by intro op hop; simp only [List.mem_map] at hop; obtain ⟨b, _, rfl⟩ := hop; rfl) hs
  have hcnt : ((List.replicate 2147483648 demo_alloc).map Op.create).countP Op.is_create =
      2147483648 := by
    rw [List.countP_eq_length.mpr, List.length_map, List.length_replicate]
    intro op hop
    simp only [List.mem_map] at hop
    obtain ⟨b, _, rfl⟩ := hop
    rfl
  rw [hcnt, hc0] at hc1
  have hrun := run_created_run _ _ _ _ hs
  have hr1 := run_reachable hrun demo_init_reachable
  obtain ⟨hcap, hu, _⟩ := ecs_create_at_limit (reachable_inv hr1) hp1 (by omega) demo_alloc
  exact ⟨s, hs, hr1, hp1, by omega, hcap, hu ⟨rfl, rfl, rfl⟩⟩

theorem ecs_kill_total {s : state_t} (hi : Inv s) {e : Nat} (he : e < s.entity_store.count) :
    ∃ s', ecs_kill s e = .ok s' := by
  obtain ⟨f, hf, _⟩ := flag_get hi he
  have hlm : e < s.entity_store.mask_array.length := by
    rw [hi.mask_len]; exact Nat.lt_of_lt_of_le he hi.count_le
  by_cases ha : f &&& ENTITY_FLAG_ALIVE = 0
  · exact ⟨_, ecs_kill_of_dead hf ha⟩
  · exact ⟨_, ecs_kill_of_alive hf ha hlm⟩

/-- Below the capacity `2^31` a call of `ecs_create` returns or is fatal: it
makes no access outside a block. -/
theorem ecs_create_defined {s : state_t} (hi : Inv s) (hc : s.entity_store.cap < 2147483648)
    (a : Alloc) : ecs_create s a ≠ .undefined := by
  intro hu
  by_cases h1 : s.entity_pool ≠ [] ∨ s.entity_store.count < s.entity_store.cap
  · obtain ⟨s', id, h⟩ := ecs_create_total hi a h1
    rw [hu] at h; cases h
  · have hp : s.entity_pool = [] := by
      by_contra hne
      exact h1 (Or.inl hne)
    have hcap : s.entity_store.count = s.entity_store.cap :=
      Nat.le_antisymm hi.count_le (Nat.le_of_not_lt (fun hlt => h1 (Or.inr hlt)))
    by_cases ha : a.tested_ok
    · obtain ⟨s', h⟩ := ecs_create_grow_total hp hcap
        (Nat.lt_of_lt_of_le (by decide) hi.cap_ge) ha (by unfold U32; omega)
      rw [hu] at h; cases h
    · rw [ecs_create_grow_fatal hp hcap ha] at hu; cases hu

set_option maxRecDepth 1000000 in
/-- C19, refuted as stated.  The registry with `2^31` entities is reachable.
There the entity count equals the capacity, the doubled capacity wraps to 0 in
`uint32_t`, and `ecs_create()` with succeeding `realloc` calls stores
`mask_array[2^31]` into blocks of no cell: an access out of bounds.  And after
`ecs_init(2, (size_t)-4, 8)`, where the stride wraps to 4 in `size_t`, the
issued id 0 is below the capacity 32 of the three blocks, yet
`ecs_add(0, 1, ...)` copies 8 bytes to the offset `2^64 - 4` of a data block of
128 bytes: a later access by an issued id out of bounds. -/
theorem C19_create_out_of_bounds_at_2_31 :
    (∃ s, Reachable s ∧ s.entity_pool = [] ∧ s.entity_store.count = 2147483648 ∧
      s.entity_store.cap = 2147483648 ∧
      (∃ s2, grow { s with entity_store := { s.entity_store with
            count := (s.entity_store.count + 1) % U32 } } demo_alloc = .ok s2 ∧
        s2.entity_store.cap = 0 ∧ s2.entity_store.mask_array.length = 0 ∧
        s2.entity_store.flag_array.length = 0 ∧ issue s2 2147483648 = .undefined) ∧
      ecs_create s demo_alloc = .undefined) ∧
    (Reachable demo_wrap_created ∧ 0 < demo_wrap_created.entity_store.count ∧
      1 < demo_wrap_created.component_store.type_count ∧
      demo_wrap_created.entity_store.cap = 32 ∧
      demo_wrap_created.component_store.cap = 32 ∧
      demo_wrap_created.component_store.data.length = 128 ∧
      demo_wrap_created.component_store.data_size_array[1]? = some 8 ∧
      ecs_get demo_wrap_created 0 1 = .ok 18446744073709551612 ∧
      ecs_add demo_wrap_created 0 1 [1, 2, 3, 4, 5, 6, 7, 8] = .undefined) := by
  refine ⟨?_, demo_wrap_created_reachable, by decide, by decide, rfl, rfl, rfl, rfl, rfl, rfl⟩
  obtain ⟨s, _, hr, hp, hc, hcap, hu⟩ := limit_state
  have h0 : s.entity_store.cap * 2 % U32 = 0 := by rw [hcap]; decide
  refine ⟨s, hr, hp, hc, hcap, ⟨_, rfl, h0, ?_, ?_, ?_⟩, hu⟩
  · show (realloc _ (s.entity_store.cap * 2 % U32) _ _).length = 0
    rw [realloc_length, h0]
  · show (realloc _ (s.entity_store.cap * 2 % U32) _ _).length = 0
    rw [realloc_length, h0]
  · simp only [issue, realloc_length, h0]
    simp

/-- C19, amended.  In every reachable state the entity count is at most the
capacity, which is the length of the mask and flag blocks and, when the data
block fits `size_t` (capacity times the sum of the sizes below `2^64`), the
number of bundles of the data block.  Every id that `ecs_create()` returns is
below the capacity of the mask block and the flag block as they stand after the
call, and of the data block when that fits `size_t`.  While the capacity is
below `2^31` no call of `ecs_create()` makes an access out of bounds, and the
calls of get, has, remove and kill on an issued id and a registered type are in
bounds: they return.  When the data block fits `size_t`, the `size[t]` bytes at
the address that `ecs_get(e, t)` returns lie inside the data block, and the
call of add returns. -/
theorem C19_created_id_in_bounds (s : state_t) (hr : Reachable s) :
    s.entity_store.count ≤ s.entity_store.cap ∧
    s.entity_store.mask_array.length = s.entity_store.cap ∧
    s.entity_store.flag_array.length = s.entity_store.cap ∧
    (block_fits s →
      s.component_store.data.length = s.entity_store.cap * s.component_store.size) ∧
    (∀ a s' id, ecs_create s a = .ok (s', id) →
      id < s'.entity_store.count ∧ s'.entity_store.count ≤ s'.entity_store.cap ∧
      id < s'.entity_store.mask_array.length ∧ id < s'.entity_store.flag_array.length ∧
      (block_fits s' →
        (id + 1) * s'.component_store.size ≤ s'.component_store.data.length)) ∧
    (s.entity_store.cap < 2147483648 → ∀ a, ecs_create s a ≠ .undefined) ∧
    (∀ e t, e < s.entity_store.count → t < s.component_store.type_count →
      (∃ ptr, ecs_get s e t = .ok ptr) ∧ (∃ r, ecs_has s e t = .ok r) ∧
      (∃ s', ecs_remove s e t = .ok s') ∧ (∃ s', ecs_kill s e = .ok s') ∧
      (block_fits s →
        (∃ ptr sz, ecs_get s e t = .ok ptr ∧ s.component_store.data_size_array[t]? = some sz ∧
          ptr + sz ≤ s.component_store.data.length) ∧
        ∀ p : List Nat, (∀ sz, s.component_store.data_size_array[t]? = some sz → sz ≤ p.length) →
          ∃ s', ecs_add s e t p = .ok s')) := by
  have hi := reachable_inv hr
  refine ⟨hi.count_le, hi.mask_len, hi.flag_len, fun hf => data_length_fits hi hf, ?_,
    fun hc a => ecs_create_defined hi hc a, ?_⟩
  · intro a s' id h
    have hi' := Inv_create hi h
    have hlt : id < s'.entity_store.count := by
      obtain ⟨_, hfr⟩ := ecs_create_frame hi h
      rcases hfr with ⟨_, hcount⟩ | ⟨_, hid, hcount⟩
      · rcases ecs_create_ok h with ⟨rest, hp, _⟩ | ⟨hp, _⟩ | ⟨hp, _⟩
        · have := (hi.pool_dead id (by rw [hp]; exact List.mem_cons_self _ _)).1
          omega
        · rename_i hne _; exact absurd hp hne
        · rename_i hne _; exact absurd hp hne
      · omega
    have hcl := hi'.count_le
    refine ⟨hlt, hcl, by rw [hi'.mask_len]; omega, by rw [hi'.flag_len]; omega, ?_⟩
    intro hf'
    rw [data_length_fits hi' hf']
    exact Nat.mul_le_mul_right _ (by omega)
  · intro e t he ht
    have ht32 : t < 32 := Nat.lt_of_lt_of_le ht hi.tc_le
    obtain ⟨m, hm, _, _⟩ := mask_get hi he
    obtain ⟨sz, _, _, ho⟩ := table_get hi ht
    refine ⟨⟨_, ecs_get_of ho⟩, ⟨_, ecs_has_of hm ht32⟩, ⟨_, ecs_remove_of hm ht32⟩,
      ecs_kill_total hi he, ?_⟩
    intro hf
    constructor
    · obtain ⟨sz', hs', ho', _, _⟩ := layout_get hi hf ht
      have hb := slot_in_block hi hf he ht hs'
      refine ⟨_, sz', ecs_get_of ho', hs', ?_⟩
      rw [slot_mod hi hb]
      exact hb
    · intro p hp
      obtain ⟨_, _, _, _, _, hadd⟩ := ecs_add_total hi hf he ht hp
      exact ⟨_, hadd⟩

set_option maxRecDepth 1000000 in
theorem C19_created_id_in_bounds_witness :
    ecs_create demo_full demo_alloc = .ok (demo_grown, 32) ∧
    demo_full.entity_store.cap = 32 ∧ demo_grown.entity_store.cap = 64 ∧
    32 < demo_grown.entity_store.count ∧
    demo_grown.entity_store.count ≤ demo_grown.entity_store.cap ∧
    32 < demo_grown.entity_store.mask_array.length ∧
    32 < demo_grown.entity_store.flag_array.length ∧
    (32 + 1) * demo_grown.component_store.size ≤ demo_grown.component_store.data.length ∧
    (∀ a, ecs_create demo_full a ≠ .undefined) ∧
    (∃ ptr sz, ecs_get demo_full 31 1 = .ok ptr ∧
      demo_full.component_store.data_size_array[1]? = some sz ∧
      ptr + sz ≤ demo_full.component_store.data.length) ∧
    (∀ p : List Nat,
      (∀ sz, demo_full.component_store.data_size_array[1]? = some sz → sz ≤ p.length) →
      ∃ s', ecs_add demo_full 31 1 p = .ok s') :=
  have h := (C19_created_id_in_bounds demo_full demo_full_reachable).2.2.2.2.1 demo_alloc
    demo_grown 32 rfl
  ⟨rfl, rfl, rfl, h.1, h.2.1, h.2.2.1, h.2.2.2.1, h.2.2.2.2 (by decide),
    (C19_created_id_in_bounds demo_full demo_full_reachable).2.2.2.2.2.1 (by decide),
    (((C19_created_id_in_bounds demo_full demo_full_reachable).2.2.2.2.2.2 31 1 (by decide)
      (by decide)).2.2.2.2 (by decide)).1,
    (((C19_created_id_in_bounds demo_full demo_full_reachable).2.2.2.2.2.2 31 1 (by decide)
      (by decide)).2.2.2.2 (by decide)).2⟩

/-! ## The layout is packed and safe -/

set_option maxRecDepth 1000000 in
/-- C20, refuted as stated.  After `ecs_init(2, (size_t)-4, 8)` the stride wraps
to 4 in `size_t` and the data block has `32 * 4 = 128` bytes.  For the id 0,
below the capacity 32, and the registered type 1, of 8 bytes at offset
`2^64 - 4`, the byte range from `0 * stride + offset[1]` does not lie inside the
data block, and `ecs_add(0, 1, ...)` is an access out of bounds.  The ranges that
the code addresses for the pairs `(1, 1)` and `(2, 1)` start at the offsets 0
and 4 and are 8 bytes long: they overlap, and `ecs_add(2, 1, ...)` returns and
has written byte 4 of the data block, which belongs to the pair `(1, 1)`. -/
theorem C20_slots_out_of_block_and_overlapping :
    Reachable demo_wrap_created ∧ demo_wrap_created.entity_store.cap = 32 ∧
    demo_wrap_created.entity_store.count = 3 ∧
    demo_wrap_created.component_store.type_count = 2 ∧
    demo_wrap_created.component_store.size = 4 ∧
    demo_wrap_created.component_store.data_offset_array[1]? = some 18446744073709551612 ∧
    demo_wrap_created.component_store.data_size_array[1]? = some 8 ∧
    demo_wrap_created.component_store.data.length = 128 ∧
    ¬ (0 * demo_wrap_created.component_store.size + 18446744073709551612 + 8 ≤
        demo_wrap_created.component_store.data.length) ∧
    ecs_add demo_wrap_created 0 1 [1, 2, 3, 4, 5, 6, 7, 8] = .undefined ∧
    ecs_get demo_wrap_created 1 1 = .ok 0 ∧ ecs_get demo_wrap_created 2 1 = .ok 4 ∧
    ∃ s1 s2, ecs_add demo_wrap_created 1 1 [1, 2, 3, 4, 5, 6, 7, 8] = .ok s1 ∧
      ecs_add s1 2 1 [9, 9, 9, 9, 9, 9, 9, 9] = .ok s2 ∧
      s1.component_store.data[4]? = some 5 ∧ s2.component_store.data[4]? = some 9 ∧
      component_bytes s1 1 1 = .ok [1, 2, 3, 4, 5, 6, 7, 8] ∧
      component_bytes s2 1 1 = .ok [1, 2, 3, 4, 9, 9, 9, 9] :=
  ⟨demo_wrap_created_reachable, rfl, rfl, rfl, rfl, rfl, rfl, rfl, by decide, rfl, rfl, rfl,
    _, _, rfl, rfl, rfl, rfl, rfl, rfl⟩

/-- C20, amended.  In every reachable state whose data block fits `size_t`
(capacity times the sum of the sizes below `2^64`), for every entity id `e`
below the capacity and every registered type `t`, the bytes from
`e * stride + offset[t]`, the address `ecs_get(e, t)`, up to `size[t]` further
lie inside the data block of `capacity * stride` bytes; the ranges of two
distinct pairs of an id and a type do not overlap; and a returning
`ecs_add(e, t, ...)` changes no byte outside the range of `(e, t)`, so the bytes
of every other pair are what they were. -/
theorem C20_slots_in_bounds_and_disjoint (s : state_t) (hr : Reachable s) (hf : block_fits s)
    (e t : Nat) (he : e < s.entity_store.cap) (ht : t < s.component_store.type_count) :
    ∃ off sz, s.component_store.data_offset_array[t]? = some off ∧
      s.component_store.data_size_array[t]? = some sz ∧
      ecs_get s e t = .ok (e * s.component_store.size + off) ∧
      e * s.component_store.size + off + sz ≤ s.component_store.data.length ∧
      s.component_store.data.length = s.entity_store.cap * s.component_store.size ∧
      (∀ e' t' off' sz', t' < s.component_store.type_count → ¬ (e' = e ∧ t' = t) →
        s.component_store.data_offset_array[t']? = some off' →
        s.component_store.data_size_array[t']? = some sz' →
        e * s.component_store.size + off + sz ≤ e' * s.component_store.size + off' ∨
        e' * s.component_store.size + off' + sz' ≤ e * s.component_store.size + off) ∧
      (∀ p s', ecs_add s e t p = .ok s' →
        s'.component_store.data.length = s.component_store.data.length ∧
        (∀ i, i < e * s.component_store.size + off ∨ e * s.component_store.size + off + sz ≤ i →
          s'.component_store.data[i]? = s.component_store.data[i]?) ∧
        ∀ e' t', e' < s.entity_store.cap → t' < s.component_store.type_count →
          ¬ (e' = e ∧ t' = t) → component_bytes s' e' t' = component_bytes s e' t') := by
  have hi := reachable_inv hr
  obtain ⟨sz, hs, ho, _, _⟩ := layout_get hi hf ht
  have hb := slot_in_capacity hi hf he ht hs
  have hmod := slot_mod hi hb
  refine ⟨_, sz, ho, hs, ?_, hb, data_length_fits hi hf, ?_, ?_⟩
  · refine (ecs_get_of ho).trans ?_
    rw [hmod]
  · intro e' t' off' sz' ht' hne ho' hs'
    obtain ⟨_, _, ho2, _, _⟩ := layout_get hi hf ht'
    rw [ho'] at ho2
    cases ho2
    exact slots_disjoint hi hf e e' ht ht' hs hs' hne
  · intro p s' hadd
    have hadd' := hadd
    obtain ⟨sz1, off1, m, d, hs1, ho1, _, _, hd, rfl⟩ := ecs_add_ok hadd
    rw [hs] at hs1; cases hs1
    rw [ho] at ho1; cases ho1
    rw [hmod] at hd
    obtain ⟨h1, h2, rfl⟩ := memcpy_ok hd
    refine ⟨?_, ?_, ?_⟩
    · simp only [List.length_append, List.length_take, List.length_drop]; omega
    · intro i hi'
      show (List.take _ s.component_store.data ++ List.take sz p ++
        List.drop _ s.component_store.data)[i]? = _
      rw [written_getElem? _ _ _ _ _ h1 h2, if_neg (by omega)]
    · intro e' t' he' ht' hne
      exact bytes_of_add_other hi hf he' ht' he ht
        (fun hc => hne ⟨hc.1.symm, hc.2.symm⟩) hadd'

set_option maxRecDepth 1000000 in
theorem C20_slots_in_bounds_and_disjoint_witness :
    demo_grown.entity_store.cap = 64 ∧ demo_grown.component_store.size = 12 ∧
    ∃ off sz, demo_grown.component_store.data_offset_array[1]? = some off ∧
      demo_grown.component_store.data_size_array[1]? = some sz ∧
      ecs_get demo_grown 63 1 = .ok (63 * demo_grown.component_store.size + off) ∧
      63 * demo_grown.component_store.size + off + sz ≤ demo_grown.component_store.data.length ∧
      demo_grown.component_store.data.length =
        demo_grown.entity_store.cap * demo_grown.component_store.size ∧
      (∀ e' t' off' sz', t' < demo_grown.component_store.type_count → ¬ (e' = 63 ∧ t' = 1) →
        demo_grown.component_store.data_offset_array[t']? = some off' →
        demo_grown.component_store.data_size_array[t']? = some sz' →
        63 * demo_grown.component_store.size + off + sz ≤
          e' * demo_grown.component_store.size + off' ∨
        e' * demo_grown.component_store.size + off' + sz' ≤
          63 * demo_grown.component_store.size + off) ∧
      (∀ p s', ecs_add demo_grown 63 1 p = .ok s' →
        s'.component_store.data.length = demo_grown.component_store.data.length ∧
        (∀ i, i < 63 * demo_grown.component_store.size + off ∨
            63 * demo_grown.component_store.size + off + sz ≤ i →
          s'.component_store.data[i]? = demo_grown.component_store.data[i]?) ∧
        ∀ e' t', e' < demo_grown.entity_store.cap → t' < demo_grown.component_store.type_count →
          ¬ (e' = 63 ∧ t' = 1) → component_bytes s' e' t' = component_bytes demo_grown e' t') :=
  ⟨rfl, rfl,
    C20_slots_in_bounds_and_disjoint demo_grown demo_grown_reachable (by decide) 63 1
      (by decide) (by decide)⟩

end Ecs
